import Mathlib

/-!
# Zendesk ↔ ClickUp bridge (`src/Script.js`)

A shallow embedding of the synchronisation engine of `Script.js` and the
properties of its specification.

Conventions of the embedding

* A JavaScript string is a `List Char` (`Str`).  Every regular expression of
  the script is written without the `u` flag and mentions only characters of
  the Basic Multilingual Plane, so matching by code point and matching by
  UTF-16 code unit agree on well-formed strings.
* `String.prototype.toUpperCase` maps every code point on its own (the
  Unicode default case conversion has no context-sensitive upper-casing rule).
  The Unicode table itself is not part of the script: the per-character map
  `up : Char → List Char` is a parameter, and `UpperSpec up` lists the facts
  of the table the proofs use.
* `logToSheet` (the audit collaborator) never throws and touches none of the
  modelled state; it is left out.
-/

namespace Bridge

/-- A JavaScript string, as its sequence of characters. -/
abbrev Str := List Char

/-! ## Strings -/

/-- The characters matched by `\s` in a JavaScript regular expression, which
are also the characters removed by `String.prototype.trim`:
TAB, LF, VT, FF, CR, SPACE, NBSP, U+1680, U+2000..U+200A, U+2028, U+2029,
U+202F, U+205F, U+3000 and U+FEFF. -/
def isJsSpace (c : Char) : Bool :=
  let n := c.toNat
  n == 9 || n == 10 || n == 11 || n == 12 || n == 13 || n == 32 || n == 160 ||
  n == 0x1680 || (decide (0x2000 ≤ n) && decide (n ≤ 0x200A)) || n == 0x2028 ||
  n == 0x2029 || n == 0x202F || n == 0x205F || n == 0x3000 || n == 0xFEFF

/-- The ASCII small letters `a`..`z`. -/
def isAsciiLower (c : Char) : Bool := decide (97 ≤ c.toNat) && decide (c.toNat ≤ 122)

/-- The ASCII capital letters `A`..`Z`. -/
def isAsciiUpper (c : Char) : Bool := decide (65 ≤ c.toNat) && decide (c.toNat ≤ 90)

/-- The non-breaking space U+00A0. -/
def nbsp : Char := Char.ofNat 160

/-- `s.replace(/\u00A0/g, ' ')`: every non-breaking space becomes a space. -/
def replaceNbsp (s : Str) : Str :=
  s.map (fun c => if c = nbsp then ' ' else c)

/-- `s.replace(/[_-]/g, ' ')`. -/
def replaceSeparators (s : Str) : Str :=
  s.map (fun c => if c = '_' ∨ c = '-' then ' ' else c)

/-- `s.replace(/\s+/g, ' ')`, scanning left to right; `inRun` tells that the
previous character belonged to a white-space run that has already been
replaced by its single space. -/
def collapseWsAux : Bool → Str → Str
  | _, [] => []
  | inRun, c :: cs =>
    if isJsSpace c then
      (if inRun then collapseWsAux true cs else ' ' :: collapseWsAux true cs)
    else c :: collapseWsAux false cs

/-- `s.replace(/\s+/g, ' ')`. -/
def collapseWs (s : Str) : Str := collapseWsAux false s

/-- `s.trim()`. -/
def jsTrim (s : Str) : Str := (s.dropWhile isJsSpace).rdropWhile isJsSpace

/-- `s.toUpperCase()` for the per-character upper-case table `up`. -/
def toUpperCase (up : Char → List Char) (s : Str) : Str := s.flatMap up

/-- The facts about the upper-case table of the runtime that the proofs use.
All of them hold of the Unicode table used by `toUpperCase`:
ASCII letters are mapped as usual and other ASCII characters are kept, white
space has no case mapping, no character is deleted, the result of a mapping is
already upper case, the only ASCII characters produced from a non-ASCII
character are capital letters (`ß` gives `SS`), and white space is never
produced from anything else. -/
structure UpperSpec (up : Char → List Char) : Prop where
  ascii : ∀ c : Char, c.toNat < 128 → up c = [c.toUpper]
  space : ∀ c : Char, isJsSpace c = true → up c = [c]
  nonempty : ∀ c : Char, up c ≠ []
  fixed : ∀ c d : Char, d ∈ up c → up d = [d]
  asciiOut : ∀ c d : Char, d ∈ up c → 128 ≤ c.toNat → d.toNat < 128 → isAsciiUpper d = true
  spaceOut : ∀ c d : Char, d ∈ up c → isJsSpace d = true → isJsSpace c = true

/-- The ASCII part of the upper-case table: a concrete table satisfying
`UpperSpec`, identity outside `a`..`z`. -/
def asciiUp (c : Char) : List Char := [c.toUpper]

/-! ## Status normalizer (`Script.js` 1170-1178) -/

/-- The chain of replacements of `normalizeStatusLabel_` before the final
`toUpperCase`. -/
def normalizeCore (s : Str) : Str :=
  jsTrim (collapseWs (replaceSeparators (replaceNbsp s)))

/-- `normalizeStatusLabel_(status)`: `none` stands for `null`/`undefined`;
the empty string is falsy as well. -/
def normalizeStatusLabel_ (up : Char → List Char) (status : Option Str) : Str :=
  match status with
  | none => []
  | some s => if s = [] then [] else toUpperCase up (normalizeCore s)

/-- The canonical form of a label in the words of the specification:
lower-case the letters, replace every `_` and `-` by a space, collapse runs of
white space and trim.  It is the yardstick for case and separator
insensitivity, not a part of the script. -/
def specCanonical (x : Str) : Str :=
  jsTrim (collapseWs (replaceSeparators (x.map Char.toLower)))

/-! ## Proof vocabulary -/

/-- A string in which every white-space character is a single space that
does not follow another white-space character; `prev` tells whether the
character before the string is white space. -/
def Tidy : Bool → Str → Prop
  | _, [] => True
  | prev, c :: cs => (isJsSpace c = true → c = ' ' ∧ prev = false) ∧ Tidy (isJsSpace c) cs


/-! ## Regular expressions

The script's regular expressions are embedded as syntax trees and run by a
backtracking matcher that returns every way to match, in the order in which
the JavaScript matcher tries them: the first element is the match JavaScript
reports.  Every quantifier of the script applies to a single character class,
which is the only form of repetition the syntax offers. -/

/-- A position of the matcher: the character before it (`none` at the start
of the input), the input that remains, and the groups captured so far. -/
structure MState where
  prev : Option Char
  rest : Str
  caps : List Str
  deriving DecidableEq

/-- Regular expressions. -/
inductive Re where
  /-- The empty expression. -/
  | eps
  /-- One character of a class. -/
  | chr (p : Char → Bool)
  /-- A quantified class: at least `lo`, at most `hi` characters, as many as
  possible first (`greedy`) or as few as possible first. -/
  | rep (p : Char → Bool) (lo : Nat) (hi : Option Nat) (greedy : Bool)
  /-- Concatenation. -/
  | seq (a b : Re)
  /-- Alternation `a|b`. -/
  | alt (a b : Re)
  /-- A capturing group. -/
  | grp (a : Re)
  /-- `^` (no `m` flag): the start of the input. -/
  | bol
  /-- `$` (no `m` flag): the end of the input. -/
  | eol
  /-- `\b`: a word boundary. -/
  | wordb

/-- The characters matched by `\w`. -/
def isWordChar (c : Char) : Bool :=
  isAsciiLower c || isAsciiUpper c || (decide (48 ≤ c.toNat) && decide (c.toNat ≤ 57)) || c == '_'

/-- The characters matched by `\d`. -/
def isDigit (c : Char) : Bool := decide (48 ≤ c.toNat) && decide (c.toNat ≤ 57)

/-- The line terminators, which `.` does not match. -/
def isLineTerminator (c : Char) : Bool :=
  c.toNat == 10 || c.toNat == 13 || c.toNat == 0x2028 || c.toNat == 0x2029

/-- The number of leading characters of `s` in the class `p`. -/
def spanLen (p : Char → Bool) : Str → Nat
  | [] => 0
  | c :: cs => if p c then spanLen p cs + 1 else 0

/-- The position reached from `st` by consuming `k` characters. -/
def MState.advance (st : MState) : Nat → MState
  | 0 => st
  | k + 1 =>
    match st.rest with
    | [] => st
    | c :: cs => MState.advance { prev := some c, rest := cs, caps := st.caps } k

/-- The end of a group opened at `start` and closed at `s`: the text between
the two positions is recorded. -/
def MState.capture (start s : MState) : MState :=
  { s with caps := s.caps ++ [start.rest.take (start.rest.length - s.rest.length)] }

/-- The numbers of characters a quantified class may consume when `n`
characters are available, in the order in which they are tried. -/
def repCounts (lo n : Nat) (greedy : Bool) : List Nat :=
  if n < lo then []
  else (List.range (n - lo + 1)).map (fun i => if greedy then n - i else lo + i)

/-- All the ways to match `re` at the position `st`, in the matcher's order
of preference. -/
def Re.run : Re → MState → List MState
  | .eps, st => [st]
  | .chr p, st =>
    match st.rest with
    | [] => []
    | c :: cs => if p c then [{ prev := some c, rest := cs, caps := st.caps }] else []
  | .rep p lo hi greedy, st =>
    let avail := spanLen p st.rest
    let n := match hi with
      | none => avail
      | some h => min avail h
    (repCounts lo n greedy).map (fun k => st.advance k)
  | .seq a b, st => (a.run st).flatMap (fun s => b.run s)
  | .alt a b, st => a.run st ++ b.run st
  | .grp a, st => (a.run st).map (fun s => st.capture s)
  | .bol, st => if st.prev.isNone then [st] else []
  | .eol, st => if st.rest.isEmpty then [st] else []
  | .wordb, st =>
    let before := match st.prev with
      | none => false
      | some c => isWordChar c
    let after := match st.rest with
      | [] => false
      | c :: _ => isWordChar c
    if before != after then [st] else []

/-- The match the matcher reports at the position `st`, if any. -/
def Re.exec (re : Re) (st : MState) : Option MState := (re.run st).head?

/-- The leftmost match of `re` in `s`: the text skipped before the match and
the position after it.  `prev` is the character before `s`. -/
def Re.search (re : Re) : Option Char → Str → Option (Str × MState)
  | prev, [] => (re.exec { prev := prev, rest := [], caps := [] }).map (fun m => ([], m))
  | prev, c :: cs =>
    match re.exec { prev := prev, rest := c :: cs, caps := [] } with
    | some m => some ([], m)
    | none => (Re.search re (some c) cs).map (fun r => (c :: r.1, r.2))

/-- `re.test(s)`. -/
def Re.test (re : Re) (s : Str) : Bool := (re.search none s).isSome

/-- `s.match(re)` for an expression without the `g` flag: the captured
groups of the leftmost match. -/
def Re.matchGroups (re : Re) (s : Str) : Option (List Str) :=
  (re.search none s).map (fun r => r.2.caps)

/-- `s.replace(re, repl)` for an expression with the `g` flag; `fuel` bounds
the number of steps, one more than the length of the input suffices.  After an
empty match the matcher moves one character ahead. -/
def Re.replaceAux (re : Re) (repl : Str) : Nat → Option Char → Str → Str
  | 0, _, s => s
  | fuel + 1, prev, s =>
    match re.exec { prev := prev, rest := s, caps := [] } with
    | some m =>
      if m.rest.length < s.length then repl ++ Re.replaceAux re repl fuel m.prev m.rest
      else
        match s with
        | [] => repl
        | c :: cs => repl ++ c :: Re.replaceAux re repl fuel (some c) cs
    | none =>
      match s with
      | [] => []
      | c :: cs => c :: Re.replaceAux re repl fuel (some c) cs

/-- `s.replace(re, repl)` for an expression with the `g` flag. -/
def Re.replaceAll (re : Re) (repl : Str) (s : Str) : Str :=
  Re.replaceAux re repl (s.length + 1) none s

/-- The first captured group of every match of a `g` expression in turn, as
collected by a `while ((m = re.exec(text)) !== null)` loop. -/
def Re.firstGroupsAux (re : Re) : Nat → Option Char → Str → List Str
  | 0, _, _ => []
  | fuel + 1, prev, s =>
    match re.exec { prev := prev, rest := s, caps := [] } with
    | some m =>
      if m.rest.length < s.length then
        m.caps.head?.getD [] :: Re.firstGroupsAux re fuel m.prev m.rest
      else
        match s with
        | [] => [m.caps.head?.getD []]
        | c :: cs => m.caps.head?.getD [] :: Re.firstGroupsAux re fuel (some c) cs
    | none =>
      match s with
      | [] => []
      | c :: cs => Re.firstGroupsAux re fuel (some c) cs

/-- The first captured group of every match of a `g` expression. -/
def Re.firstGroups (re : Re) (s : Str) : List Str :=
  Re.firstGroupsAux re (s.length + 1) none s

/-- A literal character; with the `i` flag an ASCII letter matches in both
cases (no other character is equivalent to an ASCII letter when the `u` flag
is off). -/
def Re.char (ci : Bool) (x : Char) : Re :=
  .chr (fun c => if ci then c.toLower == x.toLower else c == x)

/-- A literal text. -/
def Re.lit (ci : Bool) : Str → Re
  | [] => .eps
  | x :: xs => .seq (Re.char ci x) (Re.lit ci xs)

/-- `\s*`. -/
def Re.spaces : Re := .rep isJsSpace 0 none true

/-- The sequence of a list of expressions. -/
def Re.cat : List Re → Re
  | [] => .eps
  | r :: rs => .seq r (Re.cat rs)

/-! ## JavaScript values -/

/-- Truthiness of a value that is a string when present: `undefined`,
`null` and `''` are falsy. -/
def truthy (v : Option Str) : Bool :=
  match v with
  | some (_ :: _) => true
  | _ => false

/-- A value inside a template literal: `undefined` is spelled out. -/
def tmpl (v : Option Str) : Str :=
  match v with
  | none => "undefined".toList
  | some s => s

/-- Whether `needle` occurs in `hay`. -/
def containsSub (needle hay : Str) : Bool :=
  hay.tails.any (fun t => needle.isPrefixOf t)

/-! ## Status translation (`Script.js` 1139-1168) -/

/-- The object literal `explicit` of `mapClickUpStatusToZendesk_`. -/
def explicitTable : List (Str × Str) :=
  [("COMPLETE".toList, "solved".toList),
   ("COMPLETED".toList, "solved".toList),
   ("DONE".toList, "solved".toList),
   ("RESOLVED".toList, "solved".toList),
   ("CLOSED".toList, "solved".toList),
   ("READY FOR QA".toList, "pending".toList),
   ("READY FOR REVIEW".toList, "pending".toList),
   ("QA REVIEW".toList, "pending".toList),
   ("IN REVIEW".toList, "pending".toList),
   ("IN QA".toList, "pending".toList),
   ("IN PROGRESS".toList, "open".toList),
   ("ACTIVE".toList, "open".toList),
   ("TO DO".toList, "open".toList),
   ("BACKLOG".toList, "new".toList),
   ("ON HOLD".toList, "hold".toList),
   ("HOLD".toList, "hold".toList),
   ("BLOCKED".toList, "hold".toList)]

/-- The property names every object literal inherits from `Object.prototype`;
`explicit[key]` is a truthy value (a function or an object) for each of them. -/
def objectPrototypeKeys : List Str :=
  ["constructor".toList, "__defineGetter__".toList, "__defineSetter__".toList,
   "hasOwnProperty".toList, "__lookupGetter__".toList, "__lookupSetter__".toList,
   "isPrototypeOf".toList, "propertyIsEnumerable".toList, "toString".toList,
   "valueOf".toList, "__proto__".toList, "toLocaleString".toList]

/-- What `mapClickUpStatusToZendesk_` returns: `null`, a Zendesk status, or
a member inherited from `Object.prototype` when the label is the name of one. -/
inductive Mapped where
  | null
  | status (s : Str)
  | inherited (key : Str)
  deriving DecidableEq

/-- `/COMPLETE|DONE|RESOLVED/`. -/
def reSolved : Re :=
  .alt (Re.lit false "COMPLETE".toList)
    (.alt (Re.lit false "DONE".toList) (Re.lit false "RESOLVED".toList))

/-- `/HOLD|BLOCK/`. -/
def reHold : Re := .alt (Re.lit false "HOLD".toList) (Re.lit false "BLOCK".toList)

/-- `/REVIEW|QA/`. -/
def rePending : Re := .alt (Re.lit false "REVIEW".toList) (Re.lit false "QA".toList)

/-- `mapClickUpStatusToZendesk_(status)`. -/
def mapClickUpStatusToZendesk_ (up : Char → List Char) (status : Option Str) : Mapped :=
  let normalized := normalizeStatusLabel_ up status
  if normalized = [] then .null
  else
    match explicitTable.lookup normalized with
    | some v => .status v
    | none =>
      if normalized ∈ objectPrototypeKeys then .inherited normalized
      else if reSolved.test normalized then .status "solved".toList
      else if reHold.test normalized then .status "hold".toList
      else if rePending.test normalized then .status "pending".toList
      else .status "open".toList

/-- The reference translation in the words of the specification: the value
of the explicit table when the normalized label is one of its keys, otherwise
`solved` when the label contains COMPLETE, DONE or RESOLVED, else `hold` when
it contains HOLD or BLOCK, else `pending` when it contains REVIEW or QA, else
`open`. -/
def referenceTranslation (normalized : Str) : Str :=
  if normalized ∈ ["COMPLETE".toList, "COMPLETED".toList, "DONE".toList, "RESOLVED".toList,
      "CLOSED".toList] then "solved".toList
  else if normalized ∈ ["READY FOR QA".toList, "READY FOR REVIEW".toList, "QA REVIEW".toList,
      "IN REVIEW".toList, "IN QA".toList] then "pending".toList
  else if normalized ∈ ["IN PROGRESS".toList, "ACTIVE".toList, "TO DO".toList] then
    "open".toList
  else if normalized = "BACKLOG".toList then "new".toList
  else if normalized ∈ ["ON HOLD".toList, "HOLD".toList, "BLOCKED".toList] then "hold".toList
  else if containsSub "COMPLETE".toList normalized || containsSub "DONE".toList normalized
      || containsSub "RESOLVED".toList normalized then "solved".toList
  else if containsSub "HOLD".toList normalized || containsSub "BLOCK".toList normalized then
    "hold".toList
  else if containsSub "REVIEW".toList normalized || containsSub "QA".toList normalized then
    "pending".toList
  else "open".toList

/-! ## The shared state and the outside world

`CacheService.getScriptCache()` and the script properties are the only state
shared between invocations.  A cache entry carries the time at which it
expires; the script properties never expire. -/

/-- `CACHE_TTL_SECONDS`. -/
def CACHE_TTL_SECONDS : Nat := 6 * 60 * 60

/-- `CREATED_FLAG_TTL`. -/
def CREATED_FLAG_TTL : Nat := 24 * 60 * 60

/-- The script cache (key, value, time of expiry in milliseconds) and the
script properties (key, value). -/
structure Store where
  cache : List (Str × Str × Nat)
  props : List (Str × Str)
  deriving DecidableEq

/-- `cache.get(key)` at the time `now`: `none` is `null`. -/
def Store.cacheGet (s : Store) (now : Nat) (key : Str) : Option Str :=
  match s.cache.find? (fun e => decide (e.1 = key)) with
  | some e => if now < e.2.2 then some e.2.1 else none
  | none => none

/-- `cache.put(key, value, ttlSeconds)` at the time `now`. -/
def Store.cachePut (s : Store) (now : Nat) (key value : Str) (ttl : Nat) : Store :=
  { s with cache := (key, value, now + ttl * 1000) ::
      s.cache.filter (fun e => !decide (e.1 = key)) }

/-- `SP.getProperty(key)`: `none` is `null`. -/
def Store.getProperty (s : Store) (key : Str) : Option Str :=
  (s.props.find? (fun e => decide (e.1 = key))).map (fun e => e.2)

/-- `SP.setProperty(key, value)`. -/
def Store.setProperty (s : Store) (key value : Str) : Store :=
  { s with props := (key, value) :: s.props.filter (fun e => !decide (e.1 = key)) }

/-- `SP.deleteProperty(key)`. -/
def Store.deleteProperty (s : Store) (key : Str) : Store :=
  { s with props := s.props.filter (fun e => !decide (e.1 = key)) }

/-- A task as the script keeps it: `{ id, url, name }`; an absent field is
`undefined`. -/
structure TaskRef where
  id : Option Str
  url : Option Str
  name : Option Str
  deriving DecidableEq

/-- The `status` field of a task: absent, a string, or an object with its
own `status` field. -/
inductive StatusField where
  | absent
  | str (s : Str)
  | obj (status : Option Str)
  deriving DecidableEq

/-- An entry of a task's `attachments`. -/
structure TaskAttachment where
  parent_id : Option Str
  url : Option Str
  url_w_query : Option Str
  url_w_host : Option Str
  deriving DecidableEq

/-- What the script reads of the task returned by `getClickUpTask_`. -/
structure TaskData where
  description : Option Str
  tags : List (Option Str)
  status : StatusField
  attachments : List TaskAttachment
  deriving DecidableEq

/-- An attachment of a Zendesk comment. -/
structure ZdAttachment where
  content_url : Str
  file_name : Str
  deriving DecidableEq

/-- The comment `getLastInternalClickupComment_` returns: its attachments
(`none` when the field is absent) and the resolved author name. -/
structure ZdComment where
  attachments : Option (List ZdAttachment)
  author_name : Str
  deriving DecidableEq

/-- A user object: `{ username, name, email }`. -/
structure UserRef where
  username : Option Str
  name : Option Str
  email : Option Str
  deriving DecidableEq

/-- An attachment as it appears in a comment or a history entry: a plain
string or an object with any of the fields the script looks at. -/
inductive RawAttachment where
  | str (s : Str)
  | obj (download_url url preview_url link href : Option Str)
      (file_url file_download_url attachment_url attachment_download_url : Option Str)
  deriving DecidableEq

/-- A comment of the list returned by the task-board platform. -/
structure CuComment where
  id : Option Str
  comment_id : Option Str
  comment_text : Option Str
  comment : Option Str
  text : Option Str
  text_content : Option Str
  html_text : Option Str
  attachments : List RawAttachment
  comment_attachments : List RawAttachment
  files : List RawAttachment
  user : Option UserRef
  author : Option UserRef
  date : Option Nat
  date_created : Option Nat
  created : Option Nat
  deriving DecidableEq

/-- The operations on the two platforms (the `TaskBoardClient` and the
`TicketingClient` of the specification), one constructor for each helper of
the script that performs a REST call. -/
inductive Call where
  | addZendeskInternalNote (subdomain ticketId body : Str)
  | updateZendeskStatus (subdomain ticketId status : Str)
  | getLastInternalClickupComment (subdomain ticketId commentId : Str)
  | downloadZendeskAttachment (subdomain contentUrl fileName : Str)
  | listTasks (listId : Str)
  | getClickUpTask (taskId : Option Str)
  | createClickUpTask (listId name description : Str) (tags : List Str) (assigneeEmail : Str)
  | updateClickUpTaskDescription (taskId : Option Str) (description : Str)
  | replaceClickUpTaskTags (taskId : Option Str) (newTag : Str)
  | addClickUpTaskComment (taskId : Option Str) (comment : Str)
  | updateClickUpTaskStatus (taskId : Option Str) (newStatus : Str)
  | uploadAttachmentToClickUp (taskId : Option Str) (blob : Str)
  | fetchClickUpComments (taskId : Option Str)
  deriving DecidableEq

/-- What a platform answers to a call: the helper throws (`failed`, with
`String(err)`), or it returns nothing (`done`) or the data it parsed. -/
inductive Reply where
  | failed (err : Str)
  | done
  | zdComment (c : Option ZdComment)
  | blob (b : Str)
  | tasks (ts : List TaskRef)
  | task (t : TaskData)
  | created (t : TaskRef)
  | comments (cs : List CuComment)

/-- A value produced by `JSON.parse` (numbers are integers here). -/
inductive Json where
  | null
  | bool (b : Bool)
  | num (n : Int)
  | str (s : Str)
  | arr (xs : List Json)
  | obj (kvs : List (Str × Json))

/-- `j[key]` for a parsed value: the own property of an object, `none`
(`undefined`) otherwise. -/
def Json.get (j : Json) (key : Str) : Option Json :=
  match j with
  | .obj kvs => (kvs.find? (fun e => decide (e.1 = key))).map (fun e => e.2)
  | _ => none

/-- Truthiness of a parsed value. -/
def Json.truthy (j : Json) : Bool :=
  match j with
  | .null => false
  | .bool b => b
  | .num n => decide (n ≠ 0)
  | .str s => !s.isEmpty
  | .arr _ => true
  | .obj _ => true

/-- `String(j)`. -/
def Json.toStr : Json → Str
  | .null => "null".toList
  | .bool b => if b then "true".toList else "false".toList
  | .num n => (toString n).toList
  | .str s => s
  | .arr xs => joinCommas xs
  | .obj _ => "[object Object]".toList
where
  /-- `Array.prototype.join` with the default separator: `null` is empty. -/
  joinCommas : List Json → Str
    | [] => []
    | [x] => elem x
    | x :: y :: rest => elem x ++ ',' :: joinCommas (y :: rest)
  /-- An element of a joined array. -/
  elem : Json → Str
    | .null => []
    | .bool b => if b then "true".toList else "false".toList
    | .num n => (toString n).toList
    | .str s => s
    | .arr xs => joinCommas xs
    | .obj _ => "[object Object]".toList

/-- Truthiness of a property that may be absent. -/
def Json.truthy? (j : Option Json) : Bool :=
  match j with
  | some v => v.truthy
  | none => false

/-- The outside world during one invocation: the clock (`Date.now()`, in
milliseconds), the answer of the platforms to a call, which may depend on all
the calls made before, and the JSON codec of the runtime (`JSON.parse` throws
on `none`). -/
structure Env where
  nowMs : Nat
  reply : List Call → Call → Reply
  jsonStringify : Json → Str
  jsonParse : Str → Option Json

/-- The state an invocation runs in: the shared store and the calls made to
the platforms so far. -/
structure World where
  store : Store
  calls : List Call

/-- Perform a call: the answer of the platform, and the world with the call
recorded. -/
def perform (env : Env) (c : Call) (w : World) : Reply × World :=
  (env.reply w.calls c, { w with calls := w.calls ++ [c] })

/-- The error a helper without result throws, if it throws. -/
def Reply.error (r : Reply) : Option Str :=
  match r with
  | .failed e => some e
  | _ => none

/-- The error of a helper whose answer has not the expected shape. -/
def badReply : Str := "TypeError".toList

/-- `addZendeskInternalNote_({ subdomain }, ticketId, body)`: the error thrown, if any. -/
def addZendeskInternalNote_ (env : Env) (subdomain ticketId body : Str) (w : World) :
    Option Str × World :=
  let r := perform env (.addZendeskInternalNote subdomain ticketId body) w
  (r.1.error, r.2)

/-- `updateZendeskStatus_({ subdomain }, ticketId, status)`: the error thrown, if any. -/
def updateZendeskStatus_ (env : Env) (subdomain ticketId status : Str) (w : World) :
    Option Str × World :=
  let r := perform env (.updateZendeskStatus subdomain ticketId status) w
  (r.1.error, r.2)

/-- `updateClickUpTaskStatus_(taskId, newStatus)` (1117-1137): nothing is sent
for a missing task id or an empty status. -/
def updateClickUpTaskStatus_ (env : Env) (taskId : Option Str) (newStatus : Str) (w : World) :
    Option Str × World :=
  if !truthy taskId || newStatus = [] then (none, w)
  else
    let r := perform env (.updateClickUpTaskStatus taskId newStatus) w
    (r.1.error, r.2)

/-- `getClickUpTask_(taskId)`. -/
def getClickUpTask_ (env : Env) (taskId : Option Str) (w : World) : Except Str TaskData × World :=
  let r := perform env (.getClickUpTask taskId) w
  match r.1 with
  | .task t => (.ok t, r.2)
  | .failed e => (.error e, r.2)
  | _ => (.error badReply, r.2)

/-- `addClickUpTaskComment_(taskId, comment)`: the error thrown, if any. -/
def addClickUpTaskComment_ (env : Env) (taskId : Option Str) (comment : Str) (w : World) :
    Option Str × World :=
  let r := perform env (.addClickUpTaskComment taskId comment) w
  (r.1.error, r.2)

/-! ## StatusState (`Script.js` 1180-1228) -/

/-- `statusCacheKey_(taskId)`. -/
def statusCacheKey_ (taskId : Option Str) : Str :=
  "cu:task:".toList ++ tmpl taskId ++ ":last_status".toList

/-- `statusStatePropKey_(taskId)`. -/
def statusStatePropKey_ (taskId : Option Str) : Str :=
  "CLICKUP_STATUS::".toList ++ tmpl taskId

/-- `statusHistoryCacheKey_(taskId, historyId)`. -/
def statusHistoryCacheKey_ (taskId : Option Str) (historyId : Str) : Str :=
  "cu:task:".toList ++ tmpl taskId ++ ":status_hist:".toList ++ historyId

/-- `rememberClickUpStatus_(taskId, status)`. -/
def rememberClickUpStatus_ (up : Char → List Char) (env : Env) (taskId : Option Str)
    (status : Option Str) (s : Store) : Store :=
  if !truthy taskId then s
  else
    let normalized := normalizeStatusLabel_ up status
    let s1 := s.cachePut env.nowMs (statusCacheKey_ taskId) normalized CACHE_TTL_SECONDS
    if normalized ≠ [] then s1.setProperty (statusStatePropKey_ taskId) normalized
    else s1.deleteProperty (statusStatePropKey_ taskId)

/-- `getLastKnownClickUpStatus_(taskId)`: the status and the store, whose
cache is refilled from the durable copy on a miss. -/
def getLastKnownClickUpStatus_ (env : Env) (taskId : Option Str) (s : Store) : Str × Store :=
  if !truthy taskId then ([], s)
  else
    match s.cacheGet env.nowMs (statusCacheKey_ taskId) with
    | some cached => (cached, s)
    | none =>
      let stored := (s.getProperty (statusStatePropKey_ taskId)).getD []
      if stored ≠ [] then
        (stored, s.cachePut env.nowMs (statusCacheKey_ taskId) stored CACHE_TTL_SECONDS)
      else (stored, s)

/-- `ensureStatusCacheBaseline_(taskId, normalizedStatus)`. -/
def ensureStatusCacheBaseline_ (up : Char → List Char) (env : Env) (taskId : Option Str)
    (normalizedStatus : Str) (s : Store) : Store :=
  if !truthy taskId || normalizedStatus = [] then s
  else
    let r := getLastKnownClickUpStatus_ env taskId s
    if r.1 = [] then rememberClickUpStatus_ up env taskId (some normalizedStatus) r.2
    else r.2

/-- `clearKnownClickUpStatusForQa_(taskId)`. -/
def clearKnownClickUpStatusForQa_ (env : Env) (taskId : Option Str) (s : Store) : Store :=
  if !truthy taskId then s
  else
    (s.cachePut env.nowMs (statusCacheKey_ taskId) [] 1).deleteProperty
      (statusStatePropKey_ taskId)

/-! ## Responses -/

/-- The object handed to `respond_`, without the execution trace: an absent
field is `none` (or the empty list). -/
structure Response where
  ok : Bool
  side : Str
  reason : Option Str
  missing : List Str
  skipped : Bool
  deduped : Bool
  comment_body : Option Str
  ops_reason : Option Str
  error : Option Str
  task : Option TaskRef
  isNewTask : Option Bool
  action : Option Str
  taskId : Option Str
  ticketId : Option Str
  event : Option Str
  fromStatus : Option Str
  toStatus : Option Str
  source : Option Str
  zendesk_status : Option Str
  errors : List Str
  deriving DecidableEq

/-- A response with nothing but `ok` and `side`. -/
def Response.base (ok : Bool) (side : Str) : Response :=
  { ok := ok, side := side, reason := none, missing := [], skipped := false, deduped := false,
    comment_body := none, ops_reason := none, error := none, task := none, isNewTask := none,
    action := none, taskId := none, ticketId := none, event := none, fromStatus := none,
    toStatus := none, source := none, zendesk_status := none, errors := [] }

/-- `lines.join('\n')`. -/
def joinLines (lines : List Str) : Str := [Char.ofNat 10].intercalate lines

/-! ## Processing a status change (`Script.js` 732-814) -/

/-- The change detected by `detectClickUpStatusChange_`. -/
structure StatusChange where
  source : Str
  fromStatus : Str
  toStatus : Str
  rawFrom : Str
  rawTo : Str
  deriving DecidableEq

/-- `a || b` on strings. -/
def orElse (a b : Str) : Str := if a = [] then b else a

/-- `processClickUpStatusChange_({ taskId, ticketId, subdomain, taskUrl,
userName, change })`.  The note and the status update are two calls, each in
its own `try`; the errors are collected. -/
def processClickUpStatusChange_ (up : Char → List Char) (env : Env) (taskId : Option Str)
    (ticketId subdomain taskUrl userName : Str) (change : StatusChange) (w : World) :
    Response × World :=
  let readableFrom := orElse change.rawFrom (orElse change.fromStatus "UNKNOWN".toList)
  let readableTo := orElse change.rawTo change.toStatus
  let lines :=
    ["ClickUp status changed (".toList ++ change.source ++ ")".toList,
     "From: ".toList ++ readableFrom,
     "To: ".toList ++ readableTo,
     "Updated by: ".toList ++ userName] ++
    (if taskUrl ≠ [] then ["Task: ".toList ++ taskUrl] else [])
  let statusNote := joinLines lines
  let note := addZendeskInternalNote_ env subdomain ticketId statusNote w
  let errors1 : List Str :=
    match note.1 with
    | some e => ["note:".toList ++ e]
    | none => []
  let upd : Option Str × List Str × World :=
    match mapClickUpStatusToZendesk_ up (some change.toStatus) with
    | .null => (none, errors1, note.2)
    | .status target =>
      let r := updateZendeskStatus_ env subdomain ticketId target note.2
      (match r.1 with
       | none => (some target, errors1, r.2)
       | some e => (none, errors1 ++ ["status:".toList ++ e], r.2))
    | .inherited _ =>
      -- a member of Object.prototype is truthy and is not serialised
      let r := updateZendeskStatus_ env subdomain ticketId [] note.2
      (match r.1 with
       | none => (none, errors1, r.2)
       | some e => (none, errors1 ++ ["status:".toList ++ e], r.2))
  let w3 : World :=
    { store := rememberClickUpStatus_ up env taskId (some change.toStatus) upd.2.2.store,
      calls := upd.2.2.calls }
  let result : Response :=
    { Response.base (upd.2.1 = []) "cu->zd".toList with
      action := some "status_updated".toList,
      taskId := taskId,
      ticketId := some ticketId,
      fromStatus := some readableFrom,
      toStatus := some readableTo,
      source := some change.source,
      zendesk_status := upd.1,
      errors := upd.2.1 }
  (result, w3)

/-- A JSON text for an object whose values are strings without quotes or
backslashes: `{"k":"v",...}`.  With `plainParse` it is a small codec that
stands for the runtime's where a concrete one is needed. -/
def plainStringify (j : Json) : Str :=
  match j with
  | .obj kvs =>
    '{' :: ([','].intercalate (kvs.map (fun e =>
      '"' :: e.1 ++ '"' :: ':' :: '"' :: e.2.toStr ++ ['"']))) ++ ['}']
  | _ => "null".toList

/-- `/"([^"]*)":"([^"]*)"/g`-like scan of the members of a plain object. -/
def plainMembers : Nat → Str → Option (List (Str × Json))
  | 0, _ => none
  | fuel + 1, s =>
    match s with
    | '"' :: r =>
      let k := r.takeWhile (fun c => c != '"')
      match r.drop k.length with
      | '"' :: ':' :: '"' :: r2 =>
        let v := r2.takeWhile (fun c => c != '"')
        match r2.drop v.length with
        | ['"', '}'] => some [(k, .str v)]
        | '"' :: ',' :: r3 => (plainMembers fuel r3).map (fun l => (k, .str v) :: l)
        | _ => none
      | _ => none
    | _ => none

/-- The parser of the plain codec: `none` on any other text. -/
def plainParse (s : Str) : Option Json :=
  match s with
  | ['{', '}'] => some (.obj [])
  | '{' :: r => (plainMembers (r.length + 1) r).map Json.obj
  | _ => none

/-- The five statuses of the ticketing platform the translation can yield. -/
def zendeskStatuses : List Str :=
  ["solved".toList, "pending".toList, "open".toList, "new".toList, "hold".toList]

/-- A world in which every call succeeds without data, at time 0. -/
def quietEnv : Env :=
  { nowMs := 0, reply := fun _ _ => .done, jsonStringify := plainStringify,
    jsonParse := plainParse }

/-- The world before anything happened: empty cache, no properties, no call. -/
def emptyWorld : World := { store := { cache := [], props := [] }, calls := [] }

/-! ## Notes from the ticketing platform (`Script.js` 198-210, 1381-1404) -/

/-- `/^\s*clickup\s*-\s*([^-\n]+?)\s*-\s*([\s\S]+)$/i`. -/
def noteRe : Re :=
  Re.cat [.bol, Re.spaces, Re.lit true "clickup".toList, Re.spaces, Re.char true '-',
    Re.spaces, .grp (.rep (fun c => !(c == '-' || c == '\n')) 1 none false), Re.spaces,
    Re.char true '-', Re.spaces, .grp (.rep (fun _ => true) 1 none true), .eol]

/-- `/<[^>]*>/g`. -/
def reAngleTag : Re :=
  Re.cat [Re.char false '<', .rep (fun c => !(c == '>')) 0 none true, Re.char false '>']

/-- `/[\[\]\(\)\{\}<>【】]/g`. -/
def reBracket : Re :=
  .chr (fun c => c == '[' || c == ']' || c == '(' || c == ')' || c == '{' || c == '}' ||
    c == '<' || c == '>' || c == '【' || c == '】')

/-- `/&[a-z]+;/gi`. -/
def reEntity : Re :=
  Re.cat [Re.char false '&', .rep (fun c => isAsciiLower c || isAsciiUpper c) 1 none true,
    Re.char false ';']

/-- `/[^\w-]+/g`. -/
def reNonToken : Re := .rep (fun c => !(isWordChar c || c == '-')) 1 none true

/-- `s.split(/\s+/)[0]`: the text before the first white space. -/
def firstToken (s : Str) : Str := s.takeWhile (fun c => !isJsSpace c)

/-- `normalizeOrderToken_(raw)`. -/
def normalizeOrderToken_ (raw : Str) : Str :=
  let s1 := reAngleTag.replaceAll [] raw
  let s2 := reBracket.replaceAll [' '] s1
  let s3 := reEntity.replaceAll [' '] s2
  let s4 := jsTrim (reNonToken.replaceAll [' '] s3)
  firstToken s4

/-- The parse of a note body in `handleZendeskWebhook_` (198-210): `none`
when the body does not match `noteRe`, otherwise `orderNumber` and `noteText`. -/
def parseZendeskNote (noteBody : Str) : Option (Str × Str) :=
  match noteRe.matchGroups noteBody with
  | some [g1, g2] => some (normalizeOrderToken_ g1, jsTrim g2)
  | _ => none

/-- The part of `noteRe` after the first hyphen and the white space that follows it. -/
def noteTail : Re :=
  Re.cat [.grp (.rep (fun c => !(c == '-' || c == '\n')) 1 none false), Re.spaces,
    Re.char true '-', Re.spaces, .grp (.rep (fun _ => true) 1 none true), .eol]

/-! ## Correlation store (`Script.js` 1231-1313, 1343-1373) -/

/-- A link between a task and a ticket, as the script passes it around. -/
structure ZdLink where
  ticketId : Str
  subdomain : Str
  ticketUrl : Str
  source : Str
  deriving DecidableEq

/-- The class `[a-z0-9-]` under the `i` flag. -/
def isSubdomainChar (c : Char) : Bool :=
  isAsciiLower c || isAsciiUpper c || isDigit c || c == '-'

/-- `/^https:\/\/([a-z0-9-]+)\.zendesk\.com\//i`. -/
def reSubdomain : Re :=
  Re.cat [.bol, Re.lit true "https://".toList,
    .grp (.rep isSubdomainChar 1 none true),
    Re.lit true ".zendesk.com/".toList]

/-- `/https:\/\/([a-z0-9-]+)\.zendesk\.com\/agent\/tickets\/(\d+)/i`. -/
def reTicketUrl : Re :=
  Re.cat [Re.lit true "https://".toList,
    .grp (.rep isSubdomainChar 1 none true),
    Re.lit true ".zendesk.com/agent/tickets/".toList,
    .grp (.rep isDigit 1 none true)]

/-- `inferSubdomain_(p)` from `p.account` and `p.ticket_url`. -/
def inferSubdomain_ (account ticket_url : Option Str) : Str :=
  if truthy account then account.getD []
  else if truthy ticket_url then
    match reSubdomain.matchGroups (ticket_url.getD []) with
    | some (g :: _) => g
    | _ => []
  else []

/-- `buildZendeskTicketUrl_(subdomain, ticketId)` (no fallback URL is ever passed). -/
def buildZendeskTicketUrl_ (subdomain ticketId : Str) : Str :=
  if subdomain ≠ [] ∧ ticketId ≠ [] then
    "https://".toList ++ subdomain ++ ".zendesk.com/agent/tickets/".toList ++ ticketId
  else []

/-- `extractZendeskInfo_(text)`. -/
def extractZendeskInfo_ (text : Option Str) : Option ZdLink :=
  match reTicketUrl.matchGroups (text.getD []) with
  | some [g1, g2] =>
    some { subdomain := g1, ticketId := g2,
           ticketUrl := "https://".toList ++ g1 ++ ".zendesk.com/agent/tickets/".toList ++ g2,
           source := "description".toList }
  | _ => none

/-- `zdLinkCacheKey_(taskId)`. -/
def zdLinkCacheKey_ (taskId : Option Str) : Str := "cu:task:zd_link:".toList ++ tmpl taskId

/-- `zdLinkPropKey_(taskId)`. -/
def zdLinkPropKey_ (taskId : Option Str) : Str := "CLICKUP_ZD_LINK::".toList ++ tmpl taskId

/-- The object serialised by `rememberZendeskLinkForTask_` (1234-1239). -/
def linkPayload (ticketId subdomain ticketUrl : Str) : Json :=
  .obj [("ticketId".toList, .str ticketId),
        ("subdomain".toList, .str subdomain),
        ("ticketUrl".toList, .str (orElse ticketUrl (buildZendeskTicketUrl_ subdomain ticketId)))]

/-- `rememberZendeskLinkForTask_(taskId, data)` with
`data = { ticketId, subdomain, ticketUrl }`; an absent field of `data` and the
empty string behave alike here. -/
def rememberZendeskLinkForTask_ (env : Env) (taskId : Option Str)
    (ticketId subdomain ticketUrl : Str) (s : Store) : Store :=
  if !truthy taskId || ticketId = [] then s
  else
    let serialized := env.jsonStringify (linkPayload ticketId subdomain ticketUrl)
    (s.cachePut env.nowMs (zdLinkCacheKey_ taskId) serialized CACHE_TTL_SECONDS).setProperty
      (zdLinkPropKey_ taskId) serialized

/-- `x || ''` followed by `String(..)` for a property of a parsed value. -/
def Json.strOr (j : Option Json) : Str :=
  match j with
  | some v => if v.truthy then v.toStr else []
  | none => []

/-- `parseZendeskLinkPayload_(value)` for a string `value`: `none` when the
text is empty, is no JSON, or has no truthy `ticketId`. -/
def parseZendeskLinkPayload_ (env : Env) (value : Str) : Option ZdLink :=
  if value = [] then none
  else
    match env.jsonParse value with
    | none => none
    | some parsed =>
      if !parsed.truthy || !Json.truthy? (parsed.get "ticketId".toList) then none
      else
        let ticketId := Json.strOr (parsed.get "ticketId".toList)
        let subdomain :=
          if Json.truthy? (parsed.get "subdomain".toList) then
            Json.strOr (parsed.get "subdomain".toList)
          else
            inferSubdomain_ none (some (Json.strOr (parsed.get "ticketUrl".toList)))
        let ticketUrl :=
          if Json.truthy? (parsed.get "ticketUrl".toList) then
            Json.strOr (parsed.get "ticketUrl".toList)
          else buildZendeskTicketUrl_ subdomain ticketId
        some { ticketId := ticketId, subdomain := subdomain, ticketUrl := ticketUrl,
               source := Json.strOr (parsed.get "source".toList) }

/-- `getZendeskLinkForTask_(taskId)`: the link, and the store whose cache is
refilled from the durable copy when the cache gave nothing usable. -/
def getZendeskLinkForTask_ (env : Env) (taskId : Option Str) (s : Store) :
    Option ZdLink × Store :=
  if !truthy taskId then (none, s)
  else
    let fromCache : Option ZdLink :=
      match s.cacheGet env.nowMs (zdLinkCacheKey_ taskId) with
      | some cached => parseZendeskLinkPayload_ env cached
      | none => none
    match fromCache with
    | some parsed => (some { parsed with source := "cache".toList }, s)
    | none =>
      match s.getProperty (zdLinkPropKey_ taskId) with
      | none => (none, s)
      | some stored =>
        if stored = [] then (none, s)
        else
          let s1 := s.cachePut env.nowMs (zdLinkCacheKey_ taskId) stored CACHE_TTL_SECONDS
          match parseZendeskLinkPayload_ env stored with
          | some parsed => (some { parsed with source := orElse parsed.source "property".toList }, s1)
          | none => (none, s1)

/-- `clearZendeskLinkForTask_(taskId)`. -/
def clearZendeskLinkForTask_ (env : Env) (taskId : Option Str) (s : Store) : Store :=
  if !truthy taskId then s
  else (s.cachePut env.nowMs (zdLinkCacheKey_ taskId) [] 1).deleteProperty (zdLinkPropKey_ taskId)

/-- The character before position `k` of `s` (`none` at the start). -/
def prevAt (s : Str) (k : Nat) : Option Char := (s.take k).getLast?

/-- The link `parseZendeskLinkPayload_` reads back from what
`rememberZendeskLinkForTask_` serialised. -/
def storedLink (ticketId subdomain ticketUrl : Str) : ZdLink :=
  { ticketId := ticketId,
    subdomain :=
      if subdomain ≠ [] then subdomain
      else inferSubdomain_ none (some (orElse ticketUrl (buildZendeskTicketUrl_ subdomain ticketId))),
    ticketUrl := orElse ticketUrl (buildZendeskTicketUrl_ subdomain ticketId),
    source := [] }

/-- A persisted record that is malformed: the text is no JSON, or it is JSON
whose `ticketId` is absent or falsy (empty). -/
def malformedRecord (env : Env) (value : Str) : Bool :=
  match env.jsonParse value with
  | none => true
  | some parsed => !Json.truthy? (parsed.get "ticketId".toList)

/-! ## Ticketing → TaskBoard (`Script.js` 168-449) -/

/-- `CLICKUP_LIST_FORWARD`. -/
def CLICKUP_LIST_FORWARD : Str := "901811203589".toList

/-- `CLICKUP_LIST_REVERSE`. -/
def CLICKUP_LIST_REVERSE : Str := "901811777405".toList

/-- `ASSIGNEE_EMAIL`. -/
def ASSIGNEE_EMAIL : Str := "qrasool@tgc-ksa.com".toList

/-- `CLICKUP_REOPEN_STATUS`: the script property of that name, read when the
script starts, or `REOPENED`. -/
def CLICKUP_REOPEN_STATUS (s : Store) : Str :=
  orElse ((s.getProperty "CLICKUP_REOPEN_STATUS".toList).getD []) "REOPENED".toList

/-- The payload of the ticketing platform; `none` is an absent, `null` or
`undefined` field. -/
structure ZdPayload where
  ticket_id : Option Str
  ticket_url : Option Str
  ops_reason : Option Str
  comment_body : Option Str
  comment_id : Option Str
  agent_name : Option Str
  account : Option Str
  deriving DecidableEq

/-- The expressions of `isOurOwnZendeskNote_`, in order. -/
def ownNoteRes : List Re :=
  [Re.cat [.bol, Re.char true '✅', Re.spaces, Re.lit true "ClickUp task created".toList],
   Re.cat [.bol, Re.lit true "ClickUp task created".toList],
   Re.cat [.bol, Re.lit true "ClickUp task updated".toList],
   Re.cat [.bol, Re.char true 'ℹ', .rep (fun c => c == Char.ofNat 0xFE0F) 0 (some 1) true,
     Re.spaces, Re.lit true "ClickUp task updated".toList],
   Re.cat [.bol, Re.char true 'ℹ', .rep (fun c => c == Char.ofNat 0xFE0F) 0 (some 1) true,
     Re.spaces, Re.lit true "ClickUp task status:".toList],
   Re.cat [.bol, Re.lit true "Task update".toList, Re.spaces, Re.char true '|'],
   Re.cat [.bol, Re.lit true "Clicup update".toList, Re.spaces, Re.char true '|'],
   Re.cat [.bol, Re.lit true "Clickup update".toList, Re.spaces, Re.char true '|'],
   Re.cat [.bol, Re.lit true "ClickUp update".toList, Re.spaces, Re.char true '|'],
   Re.cat [.bol, Re.lit true "Comment added by:".toList]]

/-- `isOurOwnZendeskNote_(body)`. -/
def isOurOwnZendeskNote_ (body : Str) : Bool :=
  ownNoteRes.any (fun re => re.test (jsTrim body))

/-- `s.split(/\s+/)`: the pieces of `s` between runs of white space; `cur`
is the piece being read, reversed. -/
def splitWsAux : Str → Bool → Str → List Str
  | cur, _, [] => [cur.reverse]
  | cur, inRun, c :: cs =>
    if isJsSpace c then
      (if inRun then splitWsAux cur true cs else cur.reverse :: splitWsAux [] true cs)
    else splitWsAux (c :: cur) false cs

/-- `s.split(/\s+/)`. -/
def splitWs (s : Str) : List Str := splitWsAux [] false s

/-- `normalizeFirstLast_(fullName)`. -/
def normalizeFirstLast_ (fullName : Str) : Str :=
  if fullName = [] then "Unknown Agent".toList
  else
    match splitWs (jsTrim fullName) with
    | a :: b :: _ => a ++ ' ' :: b
    | [a] => a
    | [] => []

/-- `/^fwd[\s_-]/i`. -/
def reFwd : Re :=
  Re.cat [.bol, Re.lit true "fwd".toList, .chr (fun c => isJsSpace c || c == '_' || c == '-')]

/-- `/^rev[\s_-]/i`. -/
def reRev : Re :=
  Re.cat [.bol, Re.lit true "rev".toList, .chr (fun c => isJsSpace c || c == '_' || c == '-')]

/-- `/COMPLETE|COMPLETED|DONE|RESOLVED|CLOSED/`. -/
def reCompletion : Re :=
  .alt (Re.lit false "COMPLETE".toList) (.alt (Re.lit false "COMPLETED".toList)
    (.alt (Re.lit false "DONE".toList) (.alt (Re.lit false "RESOLVED".toList)
      (Re.lit false "CLOSED".toList))))

/-- `getLastInternalClickupComment_(subdomain, ticketId, commentId)`. -/
def getLastInternalClickupComment_ (env : Env) (subdomain ticketId commentId : Str) (w : World) :
    Except Str (Option ZdComment) × World :=
  let r := perform env (.getLastInternalClickupComment subdomain ticketId commentId) w
  match r.1 with
  | .zdComment c => (.ok c, r.2)
  | .failed e => (.error e, r.2)
  | _ => (.error badReply, r.2)

/-- `listTasks_(listId)`. -/
def listTasks_ (env : Env) (listId : Str) (w : World) : Except Str (List TaskRef) × World :=
  let r := perform env (.listTasks listId) w
  match r.1 with
  | .tasks ts => (.ok ts, r.2)
  | .failed e => (.error e, r.2)
  | _ => (.error badReply, r.2)

/-- `findTaskByNameInLists_(name, listIds)`: the lists are read in order until
a task with the same canonical name is found; an error of `listTasks_` ends
the search. -/
def findTaskByNameInLists_ (env : Env) (name : Str) :
    List Str → World → Except Str (Option TaskRef) × World
  | [], w => (.ok none, w)
  | id :: ids, w =>
    let needle := normalizeOrderToken_ (jsTrim name)
    let r := listTasks_ env id w
    match r.1 with
    | .error e => (.error e, r.2)
    | .ok tasks =>
      match tasks.find? (fun t => decide (normalizeOrderToken_ (t.name.getD []) = needle)) with
      | some f => (.ok (some f), r.2)
      | none => findTaskByNameInLists_ env name ids r.2

/-- `createClickUpTask_({ listId, name, description, tags, assigneeEmail })`. -/
def createClickUpTask_ (env : Env) (listId name description : Str) (tags : List Str)
    (assigneeEmail : Str) (w : World) : Except Str TaskRef × World :=
  let r := perform env (.createClickUpTask listId name description tags assigneeEmail) w
  match r.1 with
  | .created t => (.ok t, r.2)
  | .failed e => (.error e, r.2)
  | _ => (.error badReply, r.2)

/-- `updateClickUpTaskDescription_(taskId, description)`: the error thrown, if any. -/
def updateClickUpTaskDescription_ (env : Env) (taskId : Option Str) (description : Str)
    (w : World) : Option Str × World :=
  let r := perform env (.updateClickUpTaskDescription taskId description) w
  (r.1.error, r.2)

/-- `replaceClickUpTaskTags_(taskId, newTag)`: the error thrown, if any. -/
def replaceClickUpTaskTags_ (env : Env) (taskId : Option Str) (newTag : Str) (w : World) :
    Option Str × World :=
  let r := perform env (.replaceClickUpTaskTags taskId newTag) w
  (r.1.error, r.2)

/-- `downloadZendeskAttachment_(subdomain, contentUrl, fileName)`. -/
def downloadZendeskAttachment_ (env : Env) (subdomain contentUrl fileName : Str) (w : World) :
    Except Str Str × World :=
  let r := perform env (.downloadZendeskAttachment subdomain contentUrl fileName) w
  match r.1 with
  | .blob b => (.ok b, r.2)
  | .failed e => (.error e, r.2)
  | _ => (.error badReply, r.2)

/-- `uploadAttachmentToClickUp_(taskId, blob)`: the error thrown, if any. -/
def uploadAttachmentToClickUp_ (env : Env) (taskId : Option Str) (blob : Str) (w : World) :
    Option Str × World :=
  let r := perform env (.uploadAttachmentToClickUp taskId blob) w
  (r.1.error, r.2)

/-- The status text of a task: `typeof st === 'string' ? st : (st.status || '')`
with `st = task.status || {}`. -/
def StatusField.text (st : StatusField) : Str :=
  match st with
  | .absent => []
  | .str s => s
  | .obj status => status.getD []

/-- The task description written by `handleZendeskWebhook_` (284-290). -/
def zdTaskDescription (ticket_url opsReason agentName noteText : Str) : Str :=
  joinLines
    ["🔗 Zendesk Ticket: ".toList ++ ticket_url,
     "🎯 Ops Escalation Reason: ".toList ++ opsReason,
     "👤 Sent by: ".toList ++ orElse agentName "Unknown Agent".toList,
     "📝 Notes:".toList,
     "- ".toList ++ noteText]

/-- The context comment posted on the task (342-354); `ticket_url` is never
empty when the comment is built. -/
def zdContextComment (isNewTask : Bool) (ticket_id agentName opsReason noteText ticket_url : Str)
    (zdCommentId : Option Str) : Str :=
  joinLines
    (([(if isNewTask then "ClickUp task created".toList else "ClickUp task updated".toList),
      "From Zendesk #".toList ++ ticket_id,
      "By: ".toList ++ orElse agentName "Unknown Agent".toList,
      "Ops Reason: ".toList ++ opsReason,
      "Note: ".toList ++ noteText,
      (if ticket_url ≠ [] then "Link: ".toList ++ ticket_url else []),
      "Zendesk Comment ID: ".toList ++ orElse (zdCommentId.getD []) "n/a".toList]).filter
        (fun l => !l.isEmpty))

/-- The comment posted instead of an attachment that could not be copied (431-434). -/
def zdAttachmentFallbackComment (att : ZdAttachment) : Str :=
  "Attachment (fallback link): ".toList ++ att.file_name ++ Char.ofNat 10 :: att.content_url

/-- The dedup key of a ticket comment (269, 440). -/
def zdCommentDedupKey (ticket_id zdCommentId : Str) : Str :=
  "zd:".toList ++ ticket_id ++ ":c:".toList ++ zdCommentId

/-- Find or create the task (279-330): the task and whether it is new, or
the error that ends the invocation. -/
def zdFindOrCreateTask (env : Env) (listId orderNumber description opsReason : Str) (w : World) :
    Except Str (TaskRef × Bool) × World :=
  let found := findTaskByNameInLists_ env orderNumber [CLICKUP_LIST_FORWARD, CLICKUP_LIST_REVERSE] w
  match found.1 with
  | .error e => (.error e, found.2)
  | .ok none =>
    let made := createClickUpTask_ env listId orderNumber description [opsReason] ASSIGNEE_EMAIL
      found.2
    (match made.1 with
     | .error e => (.error e, made.2)
     | .ok task => (.ok (task, true), made.2))
  | .ok (some task) =>
    -- the inner `try { ... } catch (_) {}`
    let cur := getClickUpTask_ env task.id found.2
    (match cur.1 with
     | .error _ => (.ok (task, false), cur.2)
     | .ok data =>
       let d := if data.description.getD [] ≠ description then
           updateClickUpTaskDescription_ env task.id description cur.2
         else (none, cur.2)
       match d.1 with
       | some _ => (.ok (task, false), d.2)
       | none =>
         if data.tags = [some opsReason] then (.ok (task, false), d.2)
         else (.ok (task, false), (replaceClickUpTaskTags_ env task.id opsReason d.2).2))

/-- The reopen block (360-417). -/
def zdReopenIfComplete (up : Char → List Char) (env : Env) (reopenStatus : Str)
    (subdomain ticket_id : Str) (taskId : Option Str) (w : World) : World :=
  let live := getClickUpTask_ env taskId w
  let last : Str × World :=
    match live.1 with
    | .ok data => (data.status.text, live.2)
    | .error _ =>
      let r := getLastKnownClickUpStatus_ env taskId live.2.store
      (r.1, { store := r.2, calls := live.2.calls })
  let norm := normalizeStatusLabel_ up (some last.1)
  if norm ≠ [] ∧ reCompletion.test norm = true then
    let z := updateZendeskStatus_ env subdomain ticket_id "new".toList last.2
    let c := updateClickUpTaskStatus_ env taskId reopenStatus z.2
    match c.1 with
    | some _ => c.2
    | none =>
      { store := rememberClickUpStatus_ up env taskId (some reopenStatus) c.2.store,
        calls := c.2.calls }
  else last.2

/-- The attachment loop (421-437). -/
def zdMirrorAttachments (env : Env) (subdomain : Str) (taskId : Option Str) :
    List ZdAttachment → World → World
  | [], w => w
  | att :: rest, w =>
    let blob := downloadZendeskAttachment_ env subdomain att.content_url att.file_name w
    let w1 : World :=
      match blob.1 with
      | .ok b =>
        let u := uploadAttachmentToClickUp_ env taskId b blob.2
        (match u.1 with
         | none => u.2
         | some _ => (addClickUpTaskComment_ env taskId (zdAttachmentFallbackComment att) u.2).2)
      | .error _ =>
        (addClickUpTaskComment_ env taskId (zdAttachmentFallbackComment att) blob.2).2
    zdMirrorAttachments env subdomain taskId rest w1

/-- `handleZendeskWebhook_` from line 332 on, for a task that has been found
or created: the link is remembered, the context comment posted, the task
reopened if it was complete, the attachments copied. -/
def zdFinish (up : Char → List Char) (env : Env)
    (reopenStatus subdomain ticket_id ticket_url opsReason agentName noteText : Str)
    (zdCommentId : Option Str) (attachments : List ZdAttachment) (task : TaskRef)
    (isNewTask : Bool) (w : World) : Response × World :=
  let w2 : World :=
    { store := rememberZendeskLinkForTask_ env task.id ticket_id subdomain
        (orElse ticket_url (buildZendeskTicketUrl_ subdomain ticket_id)) w.store,
      calls := w.calls }
  let ctx := zdContextComment isNewTask ticket_id agentName opsReason noteText ticket_url
    zdCommentId
  let w3 := (addClickUpTaskComment_ env task.id ctx w2).2
  let w4 := zdReopenIfComplete up env reopenStatus subdomain ticket_id task.id w3
  let w5 := zdMirrorAttachments env subdomain task.id attachments w4
  let w6 : World :=
    match zdCommentId with
    | none => w5
    | some cid =>
      { store := w5.store.cachePut env.nowMs (zdCommentDedupKey ticket_id cid) ['1']
          CACHE_TTL_SECONDS,
        calls := w5.calls }
  ({ Response.base true "zd->cu".toList with task := some task, isNewTask := some isNewTask }, w6)

/-- `handleZendeskWebhook_` from line 211 on, for a note that has been
accepted and parsed to `orderNumber` and `noteText`. -/
def zdHandleAccepted (up : Char → List Char) (env : Env) (p : ZdPayload)
    (commentId orderNumber noteText : Str) (w : World) : Response × World :=
  let side := "zd->cu".toList
  let reopenStatus := CLICKUP_REOPEN_STATUS w.store
  let ticket_id := p.ticket_id.getD []
  let ticket_url := p.ticket_url.getD []
  let subdomain := inferSubdomain_ p.account p.ticket_url
  if subdomain = [] then
    ({ Response.base false side with reason := some "no subdomain".toList }, w)
  else
    let opsReason := p.ops_reason.getD []
    let listId : Option Str :=
      if reFwd.test opsReason then some CLICKUP_LIST_FORWARD
      else if reRev.test opsReason then some CLICKUP_LIST_REVERSE
      else none
    match listId with
    | none =>
      ({ Response.base false side with
           reason := some "invalid ops_reason prefix".toList, ops_reason := some opsReason }, w)
    | some listId =>
      let agentName0 := orElse (normalizeFirstLast_ (p.agent_name.getD [])) "Unknown Agent".toList
      let zdCommentId : Option Str := if commentId ≠ [] then some commentId else none
      -- author and attachments of this comment (236-264)
      let fetched : List ZdAttachment × Str × World :=
        match zdCommentId with
        | none => ([], agentName0, w)
        | some cid =>
          let r := getLastInternalClickupComment_ env subdomain ticket_id cid w
          (match r.1 with
           | .ok (some c) =>
             (c.attachments.getD [],
              orElse (normalizeFirstLast_ (orElse c.author_name (p.agent_name.getD [])))
                (orElse agentName0 "Unknown Agent".toList), r.2)
           | _ => ([], agentName0, r.2))
      let attachments := fetched.1
      let agentName := fetched.2.1
      let w1 := fetched.2.2
      -- dedupe (266-277)
      let seen : Bool :=
        match zdCommentId with
        | none => false
        | some cid => truthy (w1.store.cacheGet env.nowMs (zdCommentDedupKey ticket_id cid))
      if seen then ({ Response.base true side with deduped := true }, w1)
      else
        let description := zdTaskDescription ticket_url opsReason agentName noteText
        let got := zdFindOrCreateTask env listId orderNumber description opsReason w1
        match got.1 with
        | .error e =>
          ({ Response.base false side with
               reason := some "create/find failed".toList, error := some e }, got.2)
        | .ok (task, isNewTask) =>
          zdFinish up env reopenStatus subdomain ticket_id ticket_url opsReason agentName noteText
            zdCommentId attachments task isNewTask got.2

/-- The required fields that are missing or empty (174-177). -/
def zdMissingFields (p : ZdPayload) : List Str :=
  (if truthy p.ticket_id then [] else ["ticket_id".toList]) ++
  (if truthy p.ticket_url then [] else ["ticket_url".toList]) ++
  (if truthy p.ops_reason then [] else ["ops_reason".toList]) ++
  (if truthy p.comment_body then [] else ["comment_body".toList]) ++
  (if truthy p.comment_id then [] else ["comment_id".toList])

/-- The payload after line 169-171: a ticket URL without `http` in front
gets `https://`. -/
def zdFixTicketUrl (p : ZdPayload) : ZdPayload :=
  if truthy p.ticket_url ∧ !("http".toList.isPrefixOf (p.ticket_url.getD [])) then
    { p with ticket_url := some ("https://".toList ++ p.ticket_url.getD []) }
  else p

/-- `handleZendeskWebhook_(p)`. -/
def handleZendeskWebhook_ (up : Char → List Char) (env : Env) (p0 : ZdPayload) (w : World) :
    Response × World :=
  let side := "zd->cu".toList
  let p := zdFixTicketUrl p0
  let missing := zdMissingFields p
  if missing ≠ [] then
    ({ Response.base false side with reason := some "missing".toList, missing := missing }, w)
  else
    let noteBody := p.comment_body.getD []
    let commentId := jsTrim (p.comment_id.getD [])
    if isOurOwnZendeskNote_ noteBody then
      ({ Response.base true side with skipped := true }, w)
    else
      match parseZendeskNote noteBody with
      | none =>
        ({ Response.base false side with
             reason := some "bad note format".toList, comment_body := some noteBody }, w)
      | some (orderNumber, noteText) =>
        zdHandleAccepted up env p commentId orderNumber noteText w

/-- The markers with which the notes written by the engine itself begin,
in the words of the specification (the `\s*` of the expressions is one space,
`ℹ️` is U+2139 U+FE0F). -/
def engineNoteMarkers : List Str :=
  ["ClickUp task created".toList, "ClickUp task updated".toList, "ClickUp update |".toList,
   "Comment added by:".toList, "✅ ClickUp task created".toList,
   'ℹ' :: Char.ofNat 0xFE0F :: " ClickUp task updated".toList,
   'ℹ' :: Char.ofNat 0xFE0F :: " ClickUp task status:".toList,
   "Task update |".toList, "Clicup update |".toList, "Clickup update |".toList]

/-- An expression without `$` and `\b`: whether it matches at a position
does not depend on what follows the text it consumed. -/
def Re.isLocal : Re → Bool
  | .eps => true
  | .chr _ => true
  | .rep _ _ _ _ => true
  | .seq a b => a.isLocal && b.isLocal
  | .alt a b => a.isLocal && b.isLocal
  | .grp a => a.isLocal
  | .bol => true
  | .eol => false
  | .wordb => false

/-- The position `e` is the position `s` in an input with more text at the end. -/
def MState.Extends (r : Str) (s e : MState) : Prop :=
  e.rest = s.rest ++ r ∧ e.prev = s.prev

/-- The response to a note of the wrong form. -/
def badNoteResponse (noteBody : Str) : Response :=
  { Response.base false "zd->cu".toList with
      reason := some "bad note format".toList, comment_body := some noteBody }

/-- The response to a note of the engine itself. -/
def skippedResponse : Response :=
  { Response.base true "zd->cu".toList with skipped := true }

/-! ## The latest human comment of a task (`Script.js` 893-1017) -/

/-- An attachment record `{ url }`; `none` is a record without `url`. -/
structure UrlRecord where
  url : Option Str
  deriving DecidableEq

/-- The comment to mirror. -/
structure LatestComment where
  id : Str
  text : Str
  userName : Str
  created : Option Nat
  attachments : List UrlRecord
  deriving DecidableEq

/-- `/<br\s*\/?>/gi`. -/
def reBr : Re :=
  Re.cat [Re.char true '<', Re.lit true "br".toList, Re.spaces,
    .rep (fun c => c == '/') 0 (some 1) true, Re.char true '>']

/-- `/<\/p>/gi`. -/
def reCloseP : Re := Re.lit true "</p>".toList

/-- `/<[^>]+>/g`. -/
def reAnyTag : Re :=
  Re.cat [Re.char false '<', .rep (fun c => !(c == '>')) 1 none true, Re.char false '>']

/-- `/!\[[^\]]*]\((.*?)\)/g`. -/
def reMarkdownImage : Re :=
  Re.cat [Re.char false '!', Re.char false '[', .rep (fun c => !(c == ']')) 0 none true,
    Re.char false ']', Re.char false '(',
    .grp (.rep (fun c => !isLineTerminator c) 0 none false), Re.char false ')']

/-- The class `[0-9A-Fa-f]`. -/
def isHexDigit (c : Char) : Bool :=
  isDigit c || (decide (65 ≤ c.toNat) && decide (c.toNat ≤ 70)) ||
    (decide (97 ≤ c.toNat) && decide (c.toNat ≤ 102))

/-- `/\S*%[0-9A-Fa-f]{2}\S*/g`. -/
def rePercentToken : Re :=
  Re.cat [.rep (fun c => !isJsSpace c) 0 none true, Re.char false '%',
    .rep isHexDigit 2 (some 2) true, .rep (fun c => !isJsSpace c) 0 none true]

/-- The alternation of a list of literal texts. -/
def Re.anyLit (ci : Bool) : List Str → Re
  | [] => .chr (fun _ => false)
  | [w] => Re.lit ci w
  | w :: ws => .alt (Re.lit ci w) (Re.anyLit ci ws)

/-- `/\b\S+\.(png|jpg|jpeg|gif|pdf|doc|docx|xls|xlsx|zip|rar|txt|mp4|mov|avi|csv)\b/gi`. -/
def reFileName : Re :=
  Re.cat [.wordb, .rep (fun c => !isJsSpace c) 1 none true, Re.char true '.',
    .grp (Re.anyLit true ["png".toList, "jpg".toList, "jpeg".toList, "gif".toList,
      "pdf".toList, "doc".toList, "docx".toList, "xls".toList, "xlsx".toList, "zip".toList,
      "rar".toList, "txt".toList, "mp4".toList, "mov".toList, "avi".toList, "csv".toList]),
    .wordb]

/-- `/^\s*From Zendesk #/i`. -/
def reFromZendesk : Re := Re.cat [.bol, Re.spaces, Re.lit true "From Zendesk #".toList]

/-- `/^\s*Attachment \(fallback link\):/i`. -/
def reAttachmentFallback : Re :=
  Re.cat [.bol, Re.spaces, Re.lit true "Attachment (fallback link):".toList]

/-- The first truthy value of a list of optional strings, `''` when none is. -/
def firstTruthy : List (Option Str) → Str
  | [] => []
  | v :: vs => if truthy v then v.getD [] else firstTruthy vs

/-- `String.prototype.link`, which is what `a.link` gives for a plain string
`a`: the value is a function, hence truthy, and where it is used as a key of
`seen` or inside a template literal it is this text. -/
def stringLinkMember : Str := "function link() \x7b [native code] \x7d".toList

/-- `normalizeClickUpAttachments_(arr)`: a plain string, empty or not, has
none of the fields read before `link`, and its `link` is
`String.prototype.link`, so it is kept with that value as url. -/
def normalizeClickUpAttachments_ (arr : List RawAttachment) : List UrlRecord :=
  (arr.map (fun a =>
    match a with
    | .str _ => stringLinkMember
    | .obj download_url url preview_url link href _ _ _ _ =>
      firstTruthy [download_url, url, preview_url, link, href])).filterMap
    (fun u => if u = [] then none else some { url := some u })

/-- `dedupeUrls_(arr)`; `seen` holds the urls met so far. -/
def dedupeUrlsAux (seen : List Str) : List UrlRecord → List UrlRecord
  | [] => []
  | a :: rest =>
    if !truthy a.url then dedupeUrlsAux seen rest
    else if a.url.getD [] ∈ seen then dedupeUrlsAux seen rest
    else { url := a.url } :: dedupeUrlsAux (a.url.getD [] :: seen) rest

/-- `dedupeUrls_(arr)`. -/
def dedupeUrls_ (arr : List UrlRecord) : List UrlRecord := dedupeUrlsAux [] arr

/-- The urls of the markdown images of a text, then the text without them
and without the tokens that look like raw attachment links (863-877,
938-952: the same statements in both comment paths). -/
def cleanAttachmentNoise (text : Str) : List UrlRecord × Str :=
  let urls := (reMarkdownImage.firstGroups text).filterMap
    (fun u => if u = [] then none else some ({ url := some u } : UrlRecord))
  let t1 := jsTrim (reMarkdownImage.replaceAll [] text)
  let t2 := rePercentToken.replaceAll [] t1
  let t3 := reFileName.replaceAll [] t2
  (urls, jsTrim (collapseWs t3))

/-- The attachments of the task that belong to a comment (929-936). -/
def taskAttachmentsOf (commentId : Str) (atts : List TaskAttachment) : List UrlRecord :=
  atts.filterMap (fun att =>
    if att.parent_id = some commentId then
      let url := firstTruthy [att.url, att.url_w_query, att.url_w_host]
      if url = [] then none else some { url := some url }
    else none)

/-- The name of a user: `username || name || email`, `''` when there is none. -/
def UserRef.display (u : Option UserRef) : Str :=
  match u with
  | none => []
  | some v => firstTruthy [v.username, v.name, v.email]

/-- The first number that is not zero (`a || b || c || 0`). -/
def firstNonZero : List (Option Nat) → Nat
  | [] => 0
  | v :: vs => if v.getD 0 ≠ 0 then v.getD 0 else firstNonZero vs

/-- The loop of `fetchLatestHumanClickUpComment_` (912-969) over the
comments, most recent first. -/
def latestHumanComment (env : Env) (taskAttachments : List TaskAttachment) :
    List CuComment → Option LatestComment
  | [] => none
  | c :: rest =>
    let commentId := firstTruthy [c.id, c.comment_id]
    let rawText := firstTruthy [c.comment_text, c.comment, c.text, c.text_content, c.html_text]
    let text0 := jsTrim (collapseWs (replaceNbsp (reAnyTag.replaceAll []
      (reCloseP.replaceAll [' '] (reBr.replaceAll [' '] rawText)))))
    let attachments0 := normalizeClickUpAttachments_
      (c.attachments ++ c.comment_attachments ++ c.files)
    let attachments1 := attachments0 ++
      (if commentId ≠ [] then taskAttachmentsOf commentId taskAttachments else [])
    let cleaned := cleanAttachmentNoise text0
    let text := cleaned.2
    if reFromZendesk.test text then latestHumanComment env taskAttachments rest
    else if reAttachmentFallback.test text then latestHumanComment env taskAttachments rest
    else
      let user : Option UserRef := if c.user.isSome then c.user else c.author
      let userName := orElse (UserRef.display user) "Operations Agent".toList
      let created :=
        if firstNonZero [c.date, c.date_created, c.created] ≠ 0 then
          firstNonZero [c.date, c.date_created, c.created]
        else env.nowMs
      some { id := orElse commentId (toString created).toList,
             text := text,
             userName := userName,
             created := some created,
             attachments := dedupeUrls_ (attachments1 ++ cleaned.1) }

/-- `fetchLatestHumanClickUpComment_(taskId)`: any failure gives `null`. -/
def fetchLatestHumanClickUpComment_ (env : Env) (taskId : Option Str) (w : World) :
    Option LatestComment × World :=
  let t := getClickUpTask_ env taskId w
  match t.1 with
  | .error _ => (none, t.2)
  | .ok taskData =>
    let r := perform env (.fetchClickUpComments taskId) t.2
    match r.1 with
    | .comments cs => (latestHumanComment env taskData.attachments cs, r.2)
    | _ => (none, r.2)

/-! ## A scenario: a note creates a task, then the task is read back -/

/-- A note of an agent on ticket 7. -/
def sampleNotePayload : ZdPayload :=
  { ticket_id := some "7".toList,
    ticket_url := some "https://a.zendesk.com/agent/tickets/7".toList,
    ops_reason := some "fwd delay".toList,
    comment_body := some "clickup - A1 - hi".toList,
    comment_id := some "9".toList,
    agent_name := some "Ann Lee".toList,
    account := none }

/-- The context comment `handleZendeskWebhook_` posts on the new task for
`sampleNotePayload`. -/
def sampleContextComment : Str :=
  zdContextComment true "7".toList "Ann Lee".toList "fwd delay".toList "hi".toList
    "https://a.zendesk.com/agent/tickets/7".toList (some "9".toList)

/-- A comment of the task board with the given id and text, posted by the
account of the bridge. -/
def sampleComment (id text : Str) : CuComment :=
  { id := some id, comment_id := none, comment_text := some text, comment := none,
    text := none, text_content := none, html_text := none, attachments := [],
    comment_attachments := [], files := [],
    user := some { username := some "bridge".toList, name := none, email := none },
    author := none, date := some 1700000000000, date_created := none, created := none }

/-- A task board on which the task `A1` does not exist yet and is created
with id `t1`, and whose comment list for the task holds the one comment the
engine posted; every other call succeeds. -/
def sampleEnv : Env :=
  { nowMs := 1700000000500,
    reply := fun _ c =>
      match c with
      | .listTasks _ => .tasks []
      | .createClickUpTask _ name _ _ _ =>
        .created { id := some "t1".toList, url := some "https://app.clickup.com/t/t1".toList,
                   name := some name }
      | .getClickUpTask _ =>
        .task { description := none, tags := [], status := .obj (some "to do".toList),
                attachments := [] }
      | .getLastInternalClickupComment _ _ _ => .zdComment none
      | .fetchClickUpComments _ => .comments [sampleComment "c1".toList sampleContextComment]
      | _ => .done,
    jsonStringify := plainStringify,
    jsonParse := plainParse }

/-! ## TaskBoard → Ticketing (`Script.js` 452-730, 817-891, 978-994) -/

/-- A value of a history entry that is a string or an object with a
`status` field. -/
inductive HVal where
  | str (s : Str)
  | obj (status : Option Str)
  deriving DecidableEq

/-- An entry of `history_items`; `none` is an absent field. -/
structure HistoryItem where
  field : Option Str
  type : Option Str
  history_type : Option Str
  before : Option HVal
  after : Option HVal
  from_ : Option HVal
  to_ : Option HVal
  old : Option HVal
  new : Option HVal
  value_before : Option HVal
  value_after : Option HVal
  id : Option Str
  history_id : Option Str
  comment_id : Option Str
  user : Option UserRef
  author : Option UserRef
  member : Option UserRef
  comment_text : Option Str
  comment : Option Str
  value : Option Str
  text : Option Str
  text_content : Option Str
  html_text : Option Str
  attachments : List RawAttachment
  comment_attachments : List RawAttachment
  files : List RawAttachment
  deriving DecidableEq

/-- The task object of a TaskBoard event. -/
structure CuTask where
  id : Option Str
  name : Option Str
  description : Option Str
  url : Option Str
  status : StatusField
  attachments : List TaskAttachment
  deriving DecidableEq

/-- The event handed to `handleClickUpWebhook_`:
`{ event, task, history_items, payload }`. -/
structure CuPayload where
  event : Option Str
  task : Option CuTask
  history_items : List HistoryItem
  payload : Option CuTask
  deriving DecidableEq

/-- Truthiness of a value of a history entry. -/
def HVal.truthy (v : Option HVal) : Bool :=
  match v with
  | none => false
  | some (.str s) => !s.isEmpty
  | some (.obj _) => true

/-- `h.before && (h.before.status || h.before)`. -/
def HVal.unwrap (v : Option HVal) : Option HVal :=
  match v with
  | some (.obj (some s)) => if s ≠ [] then some (.str s) else some (.obj (some s))
  | x => x

/-- The first truthy value of the list (`a || b || c || ''`). -/
def HVal.first : List (Option HVal) → Option HVal
  | [] => none
  | v :: vs => if HVal.truthy v then v else HVal.first vs

/-- `typeof v === 'string' ? v : (v && v.status) || ''`. -/
def HVal.text (v : Option HVal) : Str :=
  match v with
  | none => []
  | some (.str s) => s
  | some (.obj status) => status.getD []

/-- What `extractStatusChangeFromWebhook_` returns. -/
structure HistoryChange where
  id : Str
  fromStatus : Str
  toStatus : Str
  deriving DecidableEq

/-- Whether an entry is tagged with `tag` in `field`, `type` or `history_type`. -/
def HistoryItem.tagged (h : HistoryItem) (tag : Str) : Bool :=
  decide (h.field = some tag) || decide (h.type = some tag) || decide (h.history_type = some tag)

/-- The loop of `extractStatusChangeFromWebhook_` over the entries, most
recent first. -/
def statusChangeOf (env : Env) : List HistoryItem → Option HistoryChange
  | [] => none
  | h :: older =>
    if !h.tagged "status".toList then statusChangeOf env older
    else
      let fromVal := HVal.first [HVal.unwrap h.before, h.from_, h.old, h.value_before]
      let toVal := HVal.first [HVal.unwrap h.after, h.to_, h.new, h.value_after]
      let id := orElse (firstTruthy [h.id, h.history_id]) (toString env.nowMs).toList
      if HVal.text toVal ≠ [] then
        some { id := id, fromStatus := HVal.text fromVal, toStatus := HVal.text toVal }
      else statusChangeOf env older

/-- `extractStatusChangeFromWebhook_(p)`: the entries are scanned from the
last one to the first. -/
def extractStatusChangeFromWebhook_ (env : Env) (p : CuPayload) : Option HistoryChange :=
  statusChangeOf env p.history_items.reverse

/-- `detectClickUpStatusChange_({ payload, taskId, event, normalizedStatus, rawStatus })`. -/
def detectClickUpStatusChange_ (up : Char → List Char) (env : Env) (payload : CuPayload)
    (taskId : Option Str) (event normalizedStatus rawStatus : Str) (s : Store) :
    Option StatusChange × Store :=
  let live : Option StatusChange × Store :=
    if !truthy taskId || normalizedStatus = [] then (none, s)
    else
      let last := getLastKnownClickUpStatus_ env taskId s
      if last.1 ≠ [] then
        if last.1 = normalizedStatus then (none, last.2)
        else
          (some { source := orElse event "status".toList, fromStatus := last.1,
                  toStatus := normalizedStatus, rawFrom := last.1, rawTo := rawStatus }, last.2)
      else
        let eventImpliesStatusUpdate :=
          event = "taskStatusUpdated".toList ∨ event = "taskUpdated".toList ∨
            event = "taskStatusChanged".toList
        if ¬eventImpliesStatusUpdate ∧ normalizedStatus ≠ "COMPLETE".toList then (none, last.2)
        else
          (some { source := orElse event "status".toList, fromStatus := "UNKNOWN".toList,
                  toStatus := normalizedStatus, rawFrom := [], rawTo := rawStatus }, last.2)
  match extractStatusChangeFromWebhook_ env payload with
  | none => live
  | some historyChange =>
    if !truthy taskId then live
    else
      let toNormalized := normalizeStatusLabel_ up (some historyChange.toStatus)
      if toNormalized = [] then live
      else
        let histId :=
          if historyChange.id ≠ [] then statusHistoryCacheKey_ taskId historyChange.id else []
        if histId ≠ [] ∧ truthy (s.cacheGet env.nowMs histId) = true then (none, s)
        else
          let s1 := if histId ≠ [] then s.cachePut env.nowMs histId ['1'] CACHE_TTL_SECONDS else s
          let last := getLastKnownClickUpStatus_ env taskId s1
          let fromNormalized :=
            orElse (normalizeStatusLabel_ up (some historyChange.fromStatus))
              (orElse last.1 "UNKNOWN".toList)
          -- the last known status is only read when the entry has no 'from'
          let s2 := if normalizeStatusLabel_ up (some historyChange.fromStatus) ≠ [] then s1
            else last.2
          (some { source := "history".toList, fromStatus := fromNormalized,
                  toStatus := toNormalized, rawFrom := historyChange.fromStatus,
                  rawTo := historyChange.toStatus }, s2)

/-- `normalizeAttachmentLoose_(a)`: `none` is `null`.  The empty string is
falsy (`!a`); for any other plain string `a.link` is `String.prototype.link`,
which is taken before the string itself. -/
def normalizeAttachmentLoose_ (a : RawAttachment) : Option UrlRecord :=
  let url : Str :=
    match a with
    | .str s => if s = [] then [] else stringLinkMember
    | .obj download_url url preview_url link href file_url file_download_url attachment_url
        attachment_download_url =>
      firstTruthy [download_url, url, preview_url, link, href, file_url, file_download_url,
        attachment_url, attachment_download_url]
  if url = [] then none else some { url := some url }

/-- The attachments of the task that belong to a comment of the event
(853-861): `att.parent_id === id || att.parent_id === h.id`; two absent
values are equal. -/
def eventAttachmentsOf (id : Str) (hid : Option Str) (atts : List TaskAttachment) :
    List UrlRecord :=
  atts.filterMap (fun att =>
    if att.parent_id = some id ∨ att.parent_id = hid then
      let url := firstTruthy [att.url, att.url_w_query, att.url_w_host]
      if url = [] then none else some { url := some url }
    else none)

/-- The first of the values that is not the empty string, for values that
are present (`(x != null ? x : '') || ...`). -/
def firstText : List (Option Str) → Str := firstTruthy

/-- The loop of `extractLatestCommentFromWebhook_` over the entries, most
recent first. -/
def latestCommentOf (env : Env) (taskAttachments : List TaskAttachment) :
    List HistoryItem → Option LatestComment
  | [] => none
  | h :: older =>
    if !h.tagged "comment".toList then latestCommentOf env taskAttachments older
    else
      let raw := firstText [h.comment_text, h.comment, h.value, h.text, h.text_content,
        h.html_text]
      let text0 := jsTrim (replaceNbsp (reAnyTag.replaceAll []
        (reCloseP.replaceAll [Char.ofNat 10] (reBr.replaceAll [Char.ofNat 10] raw))))
      let user : Option UserRef :=
        if h.user.isSome then h.user else if h.author.isSome then h.author else h.member
      let userName := orElse (UserRef.display user) "Operations Agent".toList
      let id := orElse (firstTruthy [h.id, h.history_id, h.comment_id])
        (toString env.nowMs).toList
      let atts := (h.attachments ++ h.comment_attachments ++ h.files).filterMap
        normalizeAttachmentLoose_
      let atts1 := atts ++ eventAttachmentsOf id h.id taskAttachments
      let cleaned := cleanAttachmentNoise text0
      some { id := id, text := cleaned.2, userName := userName, created := none,
             attachments := dedupeUrls_ (atts1 ++ cleaned.1) }

/-- `extractLatestCommentFromWebhook_(p)`. -/
def extractLatestCommentFromWebhook_ (env : Env) (p : CuPayload) : Option LatestComment :=
  let task : Option CuTask := if p.task.isSome then p.task else p.payload
  let taskAttachments := match task with
    | some t => t.attachments
    | none => []
  latestCommentOf env taskAttachments p.history_items.reverse

/-- The name of the user who made the change (507-519): the most recent
entry with a user that has a name. -/
def changeUserName : List HistoryItem → Str
  | [] => "Operations Agent".toList
  | h :: older =>
    let u : Option UserRef :=
      if h.user.isSome then h.user else if h.author.isSome then h.author else h.member
    if UserRef.display u ≠ [] then UserRef.display u else changeUserName older

/-- The key of the one-time "task created" notice (545). -/
def createdNoteKey (taskId : Option Str) : Str :=
  "cu:task:".toList ++ tmpl taskId ++ ":created_note_sent".toList

/-- The dedup key of a mirrored comment (576). -/
def commentDedupKey (taskId : Option Str) (commentId : Str) : Str :=
  "cu:task:".toList ++ tmpl taskId ++ ":comment:".toList ++ commentId

/-- The "task created" notice (547-554). -/
def createdNoteBody (taskId : Option Str) (name taskUrl status : Str) : Str :=
  joinLines
    (["✅ ClickUp task created".toList,
      "Task #".toList ++ tmpl taskId ++ " — ".toList ++ name,
      taskUrl,
      (if status ≠ [] then "Status: ".toList ++ status else [])].filter (fun l => !l.isEmpty))

/-- The note that mirrors a comment (578-589). -/
def commentNoteBody (name taskUrl : Str) (latest : LatestComment) : Str :=
  let safeText := if jsTrim latest.text ≠ [] then latest.text else "(no text)".toList
  joinLines
    (["ClickUp update | ".toList ++ name,
      "Comment added by: ".toList ++ latest.userName,
      "Comment: ".toList ++ safeText] ++
     (if taskUrl ≠ [] then ["Task: ".toList ++ taskUrl] else []) ++
     latest.attachments.filterMap (fun a =>
       if truthy a.url then some ("Attachment URL: ".toList ++ a.url.getD []) else none))

/-- The link of a TaskBoard event (471-482): the URL in the description
first, the stored link of the task otherwise. -/
def resolveZendeskLink (env : Env) (description : Str) (taskId : Option Str) (s : Store) :
    Option ZdLink × Store :=
  match extractZendeskInfo_ (some description) with
  | some link => (some link, s)
  | none =>
    if truthy taskId then getZendeskLinkForTask_ env taskId s
    else (none, s)

/-- The response of `handleClickUpWebhook_` to an event without a link. -/
def noLinkResponse (taskId : Option Str) : Response :=
  { Response.base false "cu->zd".toList with
      reason := some "no zendesk link".toList, taskId := taskId }

/-- `handleClickUpWebhook_` from line 498 on, for an event whose link to a
ticket is known. -/
def cuHandleLinked (up : Char → List Char) (env : Env) (p : CuPayload) (link : ZdLink)
    (w : World) : Response × World :=
  let event := p.event.getD []
  let task : CuTask := p.task.getD
    { id := none, name := none, description := none, url := none, status := .absent,
      attachments := [] }
  let status := task.status.text
  let taskId := task.id
  let taskUrl := task.url.getD []
  let name := task.name.getD []
  let s1 := rememberZendeskLinkForTask_ env taskId link.ticketId link.subdomain
    (orElse link.ticketUrl (buildZendeskTicketUrl_ link.subdomain link.ticketId)) w.store
  let userName := changeUserName p.history_items.reverse
  let normalizedStatus := normalizeStatusLabel_ up (some status)
  let detected := detectClickUpStatusChange_ up env p taskId event normalizedStatus status s1
  match detected.1 with
  | some change =>
    processClickUpStatusChange_ up env taskId link.ticketId link.subdomain taskUrl userName
      change { store := detected.2, calls := w.calls }
  | none =>
    let s2 := if normalizedStatus ≠ [] then
        ensureStatusCacheBaseline_ up env taskId normalizedStatus detected.2
      else detected.2
    let w2 : World := { store := s2, calls := w.calls }
    -- the task creation note, once (544-570)
    let w3 : World :=
      if event = "taskCreated".toList ∧
          truthy (w2.store.cacheGet env.nowMs (createdNoteKey taskId)) = false then
        let n := addZendeskInternalNote_ env link.subdomain link.ticketId
          (createdNoteBody taskId name taskUrl status) w2
        { store := n.2.store.cachePut env.nowMs (createdNoteKey taskId) ['1'] CREATED_FLAG_TTL,
          calls := n.2.calls }
      else w2
    -- mirror the latest comment (572-608)
    let found : Option LatestComment × World :=
      match extractLatestCommentFromWebhook_ env p with
      | some c => (some c, w3)
      | none => fetchLatestHumanClickUpComment_ env taskId w3
    let w4 : World :=
      match found.1 with
      | none => found.2
      | some latest =>
        if truthy (found.2.store.cacheGet env.nowMs (commentDedupKey taskId latest.id)) = false
        then
          let n := addZendeskInternalNote_ env link.subdomain link.ticketId
            (commentNoteBody name taskUrl latest) found.2
          { store := n.2.store.cachePut env.nowMs (commentDedupKey taskId latest.id) ['1']
              CACHE_TTL_SECONDS,
            calls := n.2.calls }
        else found.2
    ({ Response.base true "cu->zd".toList with
         event := some event, ticketId := some link.ticketId }, w4)

/-- `handleClickUpWebhook_(p)`. -/
def handleClickUpWebhook_ (up : Char → List Char) (env : Env) (p : CuPayload) (w : World) :
    Response × World :=
  let task : CuTask := p.task.getD
    { id := none, name := none, description := none, url := none, status := .absent,
      attachments := [] }
  let r := resolveZendeskLink env (task.description.getD []) task.id w.store
  match r.1 with
  | none => (noLinkResponse task.id, { store := r.2, calls := w.calls })
  | some link => cuHandleLinked up env p link { store := r.2, calls := w.calls }

/-- The first words of the note `processClickUpStatusChange_` writes (754). -/
def statusNotePrefix : Str := "ClickUp status changed (".toList

/-- Whether a call posts a status note on a ticket. -/
def Call.isStatusNote (c : Call) : Bool :=
  match c with
  | .addZendeskInternalNote _ _ body => statusNotePrefix.isPrefixOf body
  | _ => false

/-- Whether a call updates the status of a ticket. -/
def Call.isStatusUpdate (c : Call) : Bool :=
  match c with
  | .updateZendeskStatus _ _ _ => true
  | _ => false

/-- The text of the note `processClickUpStatusChange_` writes (740-759). -/
def statusNote (change : StatusChange) (taskUrl userName : Str) : Str :=
  joinLines
    (["ClickUp status changed (".toList ++ change.source ++ ")".toList,
      "From: ".toList ++ orElse change.rawFrom (orElse change.fromStatus "UNKNOWN".toList),
      "To: ".toList ++ orElse change.rawTo change.toStatus,
      "Updated by: ".toList ++ userName] ++
     (if taskUrl ≠ [] then ["Task: ".toList ++ taskUrl] else []))

/-- A history entry without any field. -/
def HistoryItem.empty : HistoryItem :=
  { field := none, type := none, history_type := none, before := none, after := none,
    from_ := none, to_ := none, old := none, new := none, value_before := none,
    value_after := none, id := none, history_id := none, comment_id := none, user := none,
    author := none, member := none, comment_text := none, comment := none, value := none,
    text := none, text_content := none, html_text := none, attachments := [],
    comment_attachments := [], files := [] }

/-! ## The stages of `handleClickUpWebhook_` after the status check -/

/-- The task creation note, sent once (`Script.js` 544-570). -/
def cuCreatedNote (env : Env) (link : ZdLink) (event : Str) (taskId : Option Str)
    (name taskUrl status : Str) (w : World) : World :=
  if event = "taskCreated".toList ∧
      truthy (w.store.cacheGet env.nowMs (createdNoteKey taskId)) = false then
    let n := addZendeskInternalNote_ env link.subdomain link.ticketId
      (createdNoteBody taskId name taskUrl status) w
    { store := n.2.store.cachePut env.nowMs (createdNoteKey taskId) ['1'] CREATED_FLAG_TTL,
      calls := n.2.calls }
  else w

/-- The latest comment of an event: from the event itself, from the task
board otherwise (`Script.js` 573-574). -/
def cuLatestComment (env : Env) (p : CuPayload) (taskId : Option Str) (w : World) :
    Option LatestComment × World :=
  match extractLatestCommentFromWebhook_ env p with
  | some c => (some c, w)
  | none => fetchLatestHumanClickUpComment_ env taskId w

/-- Mirroring the latest comment to the ticket (`Script.js` 572-608). -/
def cuMirrorComment (env : Env) (p : CuPayload) (link : ZdLink) (taskId : Option Str)
    (name taskUrl : Str) (w : World) : World :=
  let found := cuLatestComment env p taskId w
  match found.1 with
  | none => found.2
  | some latest =>
    if truthy (found.2.store.cacheGet env.nowMs (commentDedupKey taskId latest.id)) = false
    then
      let n := addZendeskInternalNote_ env link.subdomain link.ticketId
        (commentNoteBody name taskUrl latest) found.2
      { store := n.2.store.cachePut env.nowMs (commentDedupKey taskId latest.id) ['1']
          CACHE_TTL_SECONDS,
        calls := n.2.calls }
    else found.2

/-- The task of an event, `{}` when there is none. -/
def CuPayload.taskOrEmpty (p : CuPayload) : CuTask :=
  p.task.getD
    { id := none, name := none, description := none, url := none, status := .absent,
      attachments := [] }

/-- The store when `detectClickUpStatusChange_` is called in
`handleClickUpWebhook_`: the link has been remembered (500-504). -/
def cuStoreAtDetect (env : Env) (p : CuPayload) (link : ZdLink) (s : Store) : Store :=
  rememberZendeskLinkForTask_ env p.taskOrEmpty.id link.ticketId link.subdomain
    (orElse link.ticketUrl (buildZendeskTicketUrl_ link.subdomain link.ticketId)) s

/-- The call of `detectClickUpStatusChange_` in `handleClickUpWebhook_` (521-528). -/
def cuDetect (up : Char → List Char) (env : Env) (p : CuPayload) (link : ZdLink) (s : Store) :
    Option StatusChange × Store :=
  detectClickUpStatusChange_ up env p p.taskOrEmpty.id (p.event.getD [])
    (normalizeStatusLabel_ up (some p.taskOrEmpty.status.text)) p.taskOrEmpty.status.text
    (cuStoreAtDetect env p link s)

/-- A list of calls without a status note and without a status update of a ticket. -/
def noStatusCall (cs : List Call) : Bool :=
  cs.all (fun c => !c.isStatusNote && !c.isStatusUpdate)

/-- An event of task `t1`, whose description holds the URL of ticket 7 of
`a`, with one status entry `h1` whose target status is `target`. -/
def statusEvent (target : Str) : CuPayload :=
  { event := some "taskUpdated".toList,
    task := some { id := some "t1".toList, name := some "A1".toList,
                   description := some "https://a.zendesk.com/agent/tickets/7".toList,
                   url := none, status := .absent, attachments := [] },
    history_items :=
      [{ HistoryItem.empty with
           field := some "status".toList, id := some "h1".toList,
           after := some (.str target) }],
    payload := none }

/-! ## The stages of `handleZendeskWebhook_` once the task is known -/

/-- The status read at the start of the reopen block (`Script.js` 364-372):
the live status of the task, the last known one when the read fails. -/
def zdLastStatus (env : Env) (taskId : Option Str) (w : World) : Str :=
  match (getClickUpTask_ env taskId w).1 with
  | .ok data => data.status.text
  | .error _ => (getLastKnownClickUpStatus_ env taskId w.store).1

/-- The world at the start of the reopen block of `zdFinish`. -/
def zdWorldAtReopen (env : Env) (subdomain ticket_id ticket_url opsReason agentName noteText : Str)
    (zdCommentId : Option Str) (task : TaskRef) (isNewTask : Bool) (w : World) : World :=
  (addClickUpTaskComment_ env task.id
    (zdContextComment isNewTask ticket_id agentName opsReason noteText ticket_url zdCommentId)
    { store := rememberZendeskLinkForTask_ env task.id ticket_id subdomain
        (orElse ticket_url (buildZendeskTicketUrl_ subdomain ticket_id)) w.store,
      calls := w.calls }).2

/-- One round of the attachment loop (`Script.js` 422-436): the file is
downloaded and uploaded, and a fallback comment is posted when either fails. -/
def zdMirrorOne (env : Env) (subdomain : Str) (taskId : Option Str) (att : ZdAttachment)
    (w : World) : World :=
  let blob := downloadZendeskAttachment_ env subdomain att.content_url att.file_name w
  match blob.1 with
  | .ok b =>
    let u := uploadAttachmentToClickUp_ env taskId b blob.2
    (match u.1 with
     | none => u.2
     | some _ => (addClickUpTaskComment_ env taskId (zdAttachmentFallbackComment att) u.2).2)
  | .error _ =>
    (addClickUpTaskComment_ env taskId (zdAttachmentFallbackComment att) blob.2).2

/-- The live comparison of `detectClickUpStatusChange_` (`Script.js` 691-723):
the status of the event against the last known status of the task. -/
def cuLiveDiff (env : Env) (taskId : Option Str) (event normalizedStatus rawStatus : Str)
    (s : Store) : Option StatusChange × Store :=
  if !truthy taskId || normalizedStatus = [] then (none, s)
  else
    let last := getLastKnownClickUpStatus_ env taskId s
    if last.1 ≠ [] then
      if last.1 = normalizedStatus then (none, last.2)
      else
        (some { source := orElse event "status".toList, fromStatus := last.1,
                toStatus := normalizedStatus, rawFrom := last.1, rawTo := rawStatus }, last.2)
    else
      let eventImpliesStatusUpdate :=
        event = "taskStatusUpdated".toList ∨ event = "taskUpdated".toList ∨
          event = "taskStatusChanged".toList
      if ¬eventImpliesStatusUpdate ∧ normalizedStatus ≠ "COMPLETE".toList then (none, last.2)
      else
        (some { source := orElse event "status".toList, fromStatus := "UNKNOWN".toList,
                toStatus := normalizedStatus, rawFrom := [], rawTo := rawStatus }, last.2)

/-- A world in which every call fails with `503`, at time 0. -/
def failingEnv : Env :=
  { nowMs := 0, reply := fun _ _ => .failed "503".toList, jsonStringify := plainStringify,
    jsonParse := plainParse }

/-- The change detected for `statusEvent "done"`. -/
def doneChange : StatusChange :=
  { source := "history".toList, fromStatus := "UNKNOWN".toList, toStatus := "DONE".toList,
    rawFrom := [], rawTo := "done".toList }

/-! ## Reading a status entry of the history -/

/-- The `toStr` of a history entry (`Script.js` 635-644). -/
def HistoryItem.toText (h : HistoryItem) : Str :=
  HVal.text (HVal.first [HVal.unwrap h.after, h.to_, h.new, h.value_after])

/-- The `fromStr` of a history entry (`Script.js` 629-643). -/
def HistoryItem.fromText (h : HistoryItem) : Str :=
  HVal.text (HVal.first [HVal.unwrap h.before, h.from_, h.old, h.value_before])

/-- The change `extractStatusChangeFromWebhook_` returns for an entry with a
usable `to` (`Script.js` 642-647). -/
def HistoryItem.change (env : Env) (h : HistoryItem) : HistoryChange :=
  { id := orElse (firstTruthy [h.id, h.history_id]) (toString env.nowMs).toList,
    fromStatus := h.fromText, toStatus := h.toText }

/-- The first non-empty string of the candidates, the empty string when
there is none: the priority rule in the words of the specification. -/
def specFirstNonEmpty : List Str → Str
  | [] => []
  | s :: rest => if s ≠ [] then s else specFirstNonEmpty rest

/-- A candidate value that is absent, a string, or an object with a
non-empty `status` field. -/
def HVal.plain (v : Option HVal) : Bool :=
  match v with
  | some (.obj status) => !(status.getD []).isEmpty
  | _ => true

/-- The status entry `h1` with an `after` object without status and the
`to` value `done`. -/
def shadowedEntry : HistoryItem :=
  { HistoryItem.empty with
      field := some "status".toList, id := some "h1".toList,
      after := some (.obj none), to_ := some (.str "done".toList) }

/-- An event of task `t1` with the given history. -/
def historyEvent (history : List HistoryItem) : CuPayload :=
  { event := some "taskUpdated".toList,
    task := some { id := some "t1".toList, name := some "A1".toList,
                   description := some "https://a.zendesk.com/agent/tickets/7".toList,
                   url := none, status := .absent, attachments := [] },
    history_items := history,
    payload := none }

/-- The status entry `h2`: `to` is `in progress`, `value_after` is `x`, `old` is `open`. -/
def plainEntry : HistoryItem :=
  { HistoryItem.empty with
      type := some "status".toList, history_id := some "h2".toList,
      to_ := some (.str "in progress".toList), value_after := some (.str "x".toList),
      old := some (.obj (some "open".toList)) }

/-- A comment entry `c1` with the given text. -/
def commentEntry (text : Str) : HistoryItem :=
  { HistoryItem.empty with
      field := some "comment".toList, id := some "c1".toList, comment_text := some text }

/-- The status entry `h0` with the target status `done`. -/
def doneEntry : HistoryItem :=
  { HistoryItem.empty with
      field := some "status".toList, id := some "h0".toList,
      after := some (.str "done".toList) }

/-- The status entry `h1` without any target status. -/
def blankEntry : HistoryItem :=
  { HistoryItem.empty with field := some "status".toList, id := some "h1".toList }

/-- An event `taskCommentPosted` of task `t1` with the status `in progress`
and without history, whose description holds the URL of ticket 7 of `a`. -/
def quietStatusEvent : CuPayload :=
  { event := some "taskCommentPosted".toList,
    task := some { id := some "t1".toList, name := some "A1".toList,
                   description := some "https://a.zendesk.com/agent/tickets/7".toList,
                   url := none, status := .obj (some "in progress".toList), attachments := [] },
    history_items := [],
    payload := none }

/-- Whether a call, if it goes to the ticketing platform, goes to the ticket
`ticketId` of `subdomain`. -/
def Call.toTicket (subdomain ticketId : Str) (c : Call) : Bool :=
  match c with
  | .addZendeskInternalNote s t _ => decide (s = subdomain ∧ t = ticketId)
  | .updateZendeskStatus s t _ => decide (s = subdomain ∧ t = ticketId)
  | .getLastInternalClickupComment s t _ => decide (s = subdomain ∧ t = ticketId)
  | .downloadZendeskAttachment s _ _ => decide (s = subdomain)
  | _ => true

/-- The store in which task `t1` is linked to ticket 5 of `acme`. -/
def acmeStore : Store :=
  rememberZendeskLinkForTask_ quietEnv (some "t1".toList) "5".toList "acme".toList []
    { cache := [], props := [] }

/-- The event `p` is mirrored to the ticket of `link`: the response names
that ticket, and every call to the ticketing platform goes to it. -/
def MirrorsTo (up : Char → List Char) (env : Env) (p : CuPayload) (w : World) (link : ZdLink) :
    Prop :=
  (handleClickUpWebhook_ up env p w).1.ticketId = some link.ticketId ∧
  ∃ cs, (handleClickUpWebhook_ up env p w).2.calls = w.calls ++ cs ∧
    cs.all (Call.toTicket link.subdomain link.ticketId) = true

/-! ## The operations on StatusState -/

/-- A call of one of the four functions that read or write StatusState
(`Script.js` 1180-1216). -/
inductive StatusOp where
  | remember (taskId : Option Str) (status : Option Str)
  | ensureBaseline (taskId : Option Str) (normalizedStatus : Str)
  | getLastKnown (taskId : Option Str)
  | clearForQa (taskId : Option Str)
  deriving DecidableEq

/-- The store after a call, made at the time of `env`. -/
def StatusOp.run (up : Char → List Char) (env : Env) (op : StatusOp) (s : Store) : Store :=
  match op with
  | .remember taskId status => rememberClickUpStatus_ up env taskId status s
  | .ensureBaseline taskId normalizedStatus =>
    ensureStatusCacheBaseline_ up env taskId normalizedStatus s
  | .getLastKnown taskId => (getLastKnownClickUpStatus_ env taskId s).2
  | .clearForQa taskId => clearKnownClickUpStatusForQa_ env taskId s

/-- The store after a sequence of calls, each at its own time. -/
def runStatusOps (up : Char → List Char) : List (Nat × StatusOp) → Store → Store
  | [], s => s
  | (now, op) :: rest, s =>
    runStatusOps up rest (op.run up { quietEnv with nowMs := now } s)

/-- Every cached and every durable value of the store is a fixed point of
`normalizeStatusLabel_` (the empty string is one). -/
def StoreCanonical (up : Char → List Char) (s : Store) : Prop :=
  (∀ e ∈ s.cache, normalizeStatusLabel_ up (some e.2.1) = e.2.1) ∧
  (∀ e ∈ s.props, normalizeStatusLabel_ up (some e.2) = e.2)

/-- A task board whose comment list for every task is `cs`. -/
def commentEnv (cs : List CuComment) : Env :=
  { nowMs := 1700000000500,
    reply := fun _ c =>
      match c with
      | .getClickUpTask _ =>
        .task { description := none, tags := [], status := .obj (some "to do".toList),
                attachments := [] }
      | .fetchClickUpComments _ => .comments cs
      | _ => .done,
    jsonStringify := plainStringify,
    jsonParse := plainParse }

/-- A comment text with a line break inside a markdown image link. -/
def brokenImageText : Str := "![x](a<br>b)".toList

/-! ## Deduplication of attachment records, in the words of the specification -/

/-- The non-empty urls of a list of attachment records, in order. -/
def nonEmptyUrls (arr : List UrlRecord) : List Str :=
  arr.filterMap (fun a => if truthy a.url then some (a.url.getD []) else none)

/-- Each distinct string of the list once, in order of first occurrence:
a string is kept the first time it is met. -/
def keepFirst (urls : List Str) : List Str :=
  urls.foldl (fun acc u => if u ∈ acc then acc else acc ++ [u]) []

/-! ## Entry point: the TaskBoard shapes (`Script.js` 92-114, 1316-1341) -/

/-- The nested `task` object of a relayed payload. -/
structure V2Task where
  id : Option Str
  task_id : Option Str
  name : Option Str
  description : Option Str
  text_content : Option Str
  url : Option Str
  status : StatusField
  deriving DecidableEq

/-- The nested `payload` object of a relayed payload; a timestamp is `none`
when the field is absent or is no number. -/
structure V2Body where
  id : Option Str
  task_id : Option Str
  name : Option Str
  description : Option Str
  text_content : Option Str
  url : Option Str
  status : StatusField
  task : Option V2Task
  history_items : Option (List HistoryItem)
  date_created : Option Int
  date_updated : Option Int
  attachments : List TaskAttachment
  deriving DecidableEq

/-- The parsed body of a request, as far as the TaskBoard shapes read it. -/
structure PostPayload where
  event : Option Str
  type : Option Str
  task : Option CuTask
  trigger_id : Option Str
  payload : Option V2Body
  history_items : Option (List HistoryItem)
  deriving DecidableEq

/-- `inferEventFromV2_(v2)`: `none` is `null`. -/
def inferEventFromV2_ (v2 : V2Body) : Option Str :=
  let dc := v2.date_created.getD 0
  let du := v2.date_updated.getD 0
  if dc ≠ 0 ∧ du ≠ 0 ∧ (du - dc).natAbs ≤ 5000 then some "taskCreated".toList else none

/-- The status a truthy `status` field contributes. -/
def StatusField.truthy (st : StatusField) : Bool :=
  match st with
  | .absent => false
  | .str s => !s.isEmpty
  | .obj _ => true

/-- `normalizeClickUpV2Task_(v2)`. -/
def normalizeClickUpV2Task_ (v2 : V2Body) : CuTask :=
  let nested : V2Task := v2.task.getD
    { id := none, task_id := none, name := none, description := none, text_content := none,
      url := none, status := .absent }
  let status : StatusField :=
    if v2.status.truthy then v2.status
    else if nested.status.truthy then nested.status
    else .str []
  { id := some (firstTruthy [v2.id, v2.task_id, nested.id, nested.task_id]),
    name := some (firstTruthy [v2.name, nested.name]),
    description := some (firstTruthy [v2.description, v2.text_content, nested.description,
      nested.text_content]),
    url := some (firstTruthy [v2.url, nested.url]),
    status := (match status with
      | .str s => .obj (some s)
      | other => other),
    attachments := [] }

/-- The nested payload as `handleClickUpWebhook_` reads it (it only looks at
its attachments, and only when there is no task). -/
def V2Body.asTask (v2 : V2Body) : CuTask :=
  { id := v2.id, name := v2.name, description := v2.description, url := v2.url,
    status := v2.status, attachments := v2.attachments }

/-- The history of a relayed payload (98): `v2.history_items ||
payload.history_items || []`. -/
def relayHistory (p : PostPayload) (v2 : V2Body) : List HistoryItem :=
  match v2.history_items with
  | some h => h
  | none => p.history_items.getD []

/-- The event name of a relayed payload (99-105). -/
def relayEventName (p : PostPayload) (v2 : V2Body) : Str :=
  if (relayHistory p v2).any (fun h => h.tagged "comment".toList) then
    "taskCommentPosted".toList
  else if truthy p.event then p.event.getD []
  else if truthy p.type then p.type.getD []
  else if truthy (inferEventFromV2_ v2) then (inferEventFromV2_ v2).getD []
  else "taskUpdated".toList

/-- The argument with which `doPost` calls `handleClickUpWebhook_` (92-114):
the payload itself for the first shape, the rebuilt event for the relayed
shape, `none` when the payload is not a TaskBoard payload. -/
def doPostTaskBoardEvent (p : PostPayload) : Option CuPayload :=
  if truthy p.event ∧ p.task.isSome then
    some { event := p.event, task := p.task, history_items := p.history_items.getD [],
           payload := p.payload.map V2Body.asTask }
  else
    match p.payload with
    | some v2 =>
      if truthy p.trigger_id then
        some { event := some (relayEventName p v2), task := some (normalizeClickUpV2Task_ v2),
               history_items := relayHistory p v2, payload := some v2.asTask }
      else none
    | none => none

/-- A relayed payload that also declares an event and carries a task, with
a comment in its history. -/
def mixedPayload : PostPayload :=
  { event := some "taskUpdated".toList, type := none,
    task := some { id := some "t1".toList, name := some "A1".toList, description := none,
                   url := none, status := .absent, attachments := [] },
    trigger_id := some "tr1".toList,
    payload := some { id := some "t1".toList, task_id := none, name := none,
                      description := none, text_content := none, url := none,
                      status := .absent, task := none, history_items := none,
                      date_created := none, date_updated := none, attachments := [] },
    history_items := some [commentEntry "hello".toList] }

/-- A relayed payload without declared name, created and updated within
two seconds, with a status entry in its history. -/
def relayedPayload : PostPayload :=
  { event := none, type := none, task := none, trigger_id := some "tr1".toList,
    payload := some { id := some "t1".toList, task_id := none, name := none,
                      description := none, text_content := none, url := none,
                      status := .absent, task := none, history_items := some [doneEntry],
                      date_created := some 1700000000000, date_updated := some 1700000002000,
                      attachments := [] },
    history_items := some [commentEntry "hello".toList] }

/-! # Theorems -/

/-! ## Characters -/

theorem toUpper_low (n : Nat) (h1 : 97 ≤ n) (h2 : n ≤ 122) :
    (Char.ofNat (n - 32)).toNat = n - 32 := by
  interval_cases n <;> decide

theorem toNat_toUpper (c : Char) :
    c.toUpper.toNat = if 97 ≤ c.toNat ∧ c.toNat ≤ 122 then c.toNat - 32 else c.toNat := by
  unfold Char.toUpper
  by_cases h : 97 ≤ c.toNat ∧ c.toNat ≤ 122
  · simp only [ge_iff_le, h, and_self, if_true]
    exact toUpper_low _ h.1 h.2
  · simp only [ge_iff_le, h, if_false]

theorem char_eq_of_toNat {c d : Char} (h : c.toNat = d.toNat) : c = d := by
  rw [← Char.ofNat_toNat c, ← Char.ofNat_toNat d, h]

theorem toUpper_toUpper (c : Char) : c.toUpper.toUpper = c.toUpper := by
  apply char_eq_of_toNat
  rw [toNat_toUpper c.toUpper, toNat_toUpper c]
  split_ifs <;> omega

theorem isJsSpace_iff (c : Char) : isJsSpace c = true ↔
    (c.toNat = 9 ∨ c.toNat = 10 ∨ c.toNat = 11 ∨ c.toNat = 12 ∨ c.toNat = 13 ∨ c.toNat = 32 ∨
     c.toNat = 160 ∨ c.toNat = 0x1680 ∨ (0x2000 ≤ c.toNat ∧ c.toNat ≤ 0x200A) ∨
     c.toNat = 0x2028 ∨ c.toNat = 0x2029 ∨ c.toNat = 0x202F ∨ c.toNat = 0x205F ∨
     c.toNat = 0x3000 ∨ c.toNat = 0xFEFF) := by
  simp [isJsSpace, or_assoc]

theorem isJsSpace_toUpper (c : Char) : isJsSpace c.toUpper = isJsSpace c := by
  rw [Bool.eq_iff_iff, isJsSpace_iff, isJsSpace_iff, toNat_toUpper]
  split_ifs <;> omega

theorem toUpper_of_space {c : Char} (h : isJsSpace c = true) : c.toUpper = c := by
  apply char_eq_of_toNat
  rw [isJsSpace_iff] at h
  rw [toNat_toUpper]
  split_ifs <;> omega

theorem toUpper_of_nonascii {c : Char} (h : 128 ≤ c.toNat) : c.toUpper = c := by
  apply char_eq_of_toNat
  rw [toNat_toUpper]
  split_ifs <;> omega

theorem isAsciiUpper_iff (c : Char) : isAsciiUpper c = true ↔ 65 ≤ c.toNat ∧ c.toNat ≤ 90 := by
  simp [isAsciiUpper]

theorem isAsciiLower_iff (c : Char) : isAsciiLower c = true ↔ 97 ≤ c.toNat ∧ c.toNat ≤ 122 := by
  simp [isAsciiLower]

/-- The ASCII table satisfies the assumptions made on the upper-case table. -/
theorem asciiUp_spec : UpperSpec asciiUp where
  ascii := fun _ _ => rfl
  space := fun c h => by simp [asciiUp, toUpper_of_space h]
  nonempty := fun c => by simp [asciiUp]
  fixed := fun c d h => by
    simp only [asciiUp, List.mem_singleton] at h
    simp [asciiUp, h, toUpper_toUpper]
  asciiOut := fun c d h h1 h2 => by
    simp only [asciiUp, List.mem_singleton] at h
    rw [h, toUpper_of_nonascii h1] at h2
    omega
  spaceOut := fun c d h hd => by
    simp only [asciiUp, List.mem_singleton] at h
    rw [h, isJsSpace_toUpper] at hd
    exact hd

/-- No separator is produced by upper-casing another character. -/
theorem UpperSpec.sep_out {up : Char → List Char} (hup : UpperSpec up) {c d : Char}
    (hd : d ∈ up c) (hsep : d = '_' ∨ d = '-') : c = d := by
  by_cases hc : c.toNat < 128
  · rw [hup.ascii c hc, List.mem_singleton] at hd
    apply char_eq_of_toNat
    have h := toNat_toUpper c
    rw [← hd] at h
    rcases hsep with rfl | rfl <;> (split_ifs at h with h' <;> revert h <;> revert h' <;>
      simp only [show ('_' : Char).toNat = 95 from rfl, show ('-' : Char).toNat = 45 from rfl] <;>
      omega)
  · have h := hup.asciiOut c d hd (by omega)
      (by rcases hsep with rfl | rfl <;> decide)
    rcases hsep with rfl | rfl <;> exact absurd h (by decide)

/-! ## The status normalizer is idempotent -/

theorem flatMap_fixed {up : Char → List Char} {l : List Char} (h : ∀ d ∈ l, up d = [d]) :
    l.flatMap up = l := by
  induction l with
  | nil => rfl
  | cons a t ih =>
    rw [List.flatMap_cons, h a (List.mem_cons_self _ _),
      ih (fun d hd => h d (List.mem_cons_of_mem _ hd))]
    rfl

theorem toUpperCase_idem {up : Char → List Char} (hup : UpperSpec up) (s : Str) :
    toUpperCase up (toUpperCase up s) = toUpperCase up s := by
  unfold toUpperCase
  apply flatMap_fixed
  intro d hd
  obtain ⟨c, _, hc⟩ := List.mem_flatMap.1 hd
  exact hup.fixed c d hc

theorem map_upper_comm {up : Char → List Char} (f : Char → Char)
    (h : ∀ c, (up c).map f = up (f c)) (s : Str) :
    (s.flatMap up).map f = (s.map f).flatMap up := by
  induction s with
  | nil => rfl
  | cons a t ih => simp [List.flatMap_cons, List.map_append, ih, h]

theorem replaceNbsp_upper {up : Char → List Char} (hup : UpperSpec up) (s : Str) :
    replaceNbsp (toUpperCase up s) = toUpperCase up (replaceNbsp s) := by
  unfold replaceNbsp toUpperCase
  apply map_upper_comm
  intro c
  by_cases hc : c = nbsp
  · subst hc
    rw [hup.space nbsp (by decide)]
    simp [hup.space ' ' (by decide)]
  · rw [if_neg hc]
    conv_rhs => rw [← List.map_id (up c)]
    apply List.map_congr_left
    intro d hd
    by_cases hdn : d = nbsp
    · exfalso
      subst hdn
      have hs := hup.spaceOut c _ hd (by decide)
      rw [hup.space c hs, List.mem_singleton] at hd
      exact hc hd.symm
    · simp [hdn]

theorem replaceSeparators_upper {up : Char → List Char} (hup : UpperSpec up) (s : Str) :
    replaceSeparators (toUpperCase up s) = toUpperCase up (replaceSeparators s) := by
  unfold replaceSeparators toUpperCase
  apply map_upper_comm
  intro c
  by_cases hc : c = '_' ∨ c = '-'
  · rw [if_pos hc]
    have e : up c = [c] := by
      rcases hc with rfl | rfl
      · exact hup.ascii _ (by decide)
      · exact hup.ascii _ (by decide)
    rw [e, hup.space ' ' (by decide)]
    simp [hc]
  · rw [if_neg hc]
    conv_rhs => rw [← List.map_id (up c)]
    apply List.map_congr_left
    intro d hd
    by_cases hdn : d = '_' ∨ d = '-'
    · exfalso
      have := hup.sep_out hd hdn
      exact hc (this ▸ hdn)
    · simp [hdn]

theorem collapseWsAux_nonspace_append (b : Bool) (l r : Str) (hl : l ≠ [])
    (h : ∀ d ∈ l, isJsSpace d = false) :
    collapseWsAux b (l ++ r) = l ++ collapseWsAux false r := by
  induction l generalizing b with
  | nil => exact absurd rfl hl
  | cons a t ih =>
    have ha : isJsSpace a = false := h a (List.mem_cons_self _ _)
    by_cases ht : t = []
    · subst ht
      simp [collapseWsAux, ha]
    · have := ih false ht (fun d hd => h d (List.mem_cons_of_mem _ hd))
      simp [collapseWsAux, ha, this]

theorem UpperSpec.nonspace {up : Char → List Char} (hup : UpperSpec up) {c : Char}
    (hc : isJsSpace c = false) : ∀ d ∈ up c, isJsSpace d = false := by
  intro d hd
  by_contra h
  have := hup.spaceOut c d hd (by simpa using h)
  simp [this] at hc

theorem collapseWsAux_upper {up : Char → List Char} (hup : UpperSpec up) (b : Bool) (s : Str) :
    collapseWsAux b (toUpperCase up s) = toUpperCase up (collapseWsAux b s) := by
  unfold toUpperCase
  induction s generalizing b with
  | nil => rfl
  | cons a t ih =>
    by_cases ha : isJsSpace a = true
    · rw [List.flatMap_cons, hup.space a ha]
      cases b <;> simp [collapseWsAux, ha, ih, hup.space ' ' (by decide)]
    · have ha' : isJsSpace a = false := by simpa using ha
      rw [List.flatMap_cons,
        collapseWsAux_nonspace_append b _ _ (hup.nonempty a) (hup.nonspace ha')]
      simp [collapseWsAux, ha', ih]

theorem dropWhile_upper {up : Char → List Char} (hup : UpperSpec up) (s : Str) :
    (toUpperCase up s).dropWhile isJsSpace = toUpperCase up (s.dropWhile isJsSpace) := by
  unfold toUpperCase
  induction s with
  | nil => rfl
  | cons a t ih =>
    by_cases ha : isJsSpace a = true
    · rw [List.flatMap_cons, hup.space a ha]
      simp [List.dropWhile, ha, ih]
    · have ha' : isJsSpace a = false := by simpa using ha
      rw [List.dropWhile_cons_of_neg ha, List.flatMap_cons]
      cases hu : up a with
      | nil => exact absurd hu (hup.nonempty a)
      | cons d ds =>
        have hd : isJsSpace d = false := hup.nonspace ha' d (by simp [hu])
        simp [List.dropWhile, hd]

theorem rdropWhile_upper {up : Char → List Char} (hup : UpperSpec up) (s : Str) :
    (toUpperCase up s).rdropWhile isJsSpace = toUpperCase up (s.rdropWhile isJsSpace) := by
  unfold toUpperCase
  induction s using List.reverseRecOn with
  | nil => rfl
  | append_singleton t a ih =>
    by_cases ha : isJsSpace a = true
    · rw [List.flatMap_append, List.rdropWhile_concat_pos _ _ _ ha]
      simp only [List.flatMap_cons, List.flatMap_nil, List.append_nil, hup.space a ha]
      rw [List.rdropWhile_concat_pos _ _ _ ha, ih]
    · have ha' : isJsSpace a = false := by simpa using ha
      rw [List.rdropWhile_concat_neg _ _ _ ha, List.flatMap_append]
      simp only [List.flatMap_cons, List.flatMap_nil, List.append_nil]
      rcases List.eq_nil_or_concat (up a) with hu | ⟨ds, d, hu⟩
      · exact absurd hu (hup.nonempty a)
      · have hd : isJsSpace d = false := hup.nonspace ha' d (by simp [hu])
        rw [hu, List.concat_eq_append, ← List.append_assoc]
        exact List.rdropWhile_concat_neg _ _ _ (by simp [hd])

theorem normalizeCore_upper {up : Char → List Char} (hup : UpperSpec up) (s : Str) :
    normalizeCore (toUpperCase up s) = toUpperCase up (normalizeCore s) := by
  unfold normalizeCore jsTrim collapseWs
  rw [replaceNbsp_upper hup, replaceSeparators_upper hup, collapseWsAux_upper hup,
    dropWhile_upper hup, rdropWhile_upper hup]

theorem Tidy.weaken : ∀ {b : Bool} {s : Str}, Tidy b s → Tidy false s
  | _, [], _ => trivial
  | _, _ :: _, h => ⟨fun hc => ⟨(h.1 hc).1, rfl⟩, h.2⟩

theorem Tidy.suffix {b : Bool} {s t : Str} (h : Tidy b s) (hs : t <:+ s) : Tidy false t := by
  induction s generalizing b with
  | nil =>
    rw [List.suffix_nil] at hs
    subst hs
    trivial
  | cons a s ih =>
    rcases List.suffix_cons_iff.1 hs with rfl | h'
    · exact h.weaken
    · exact ih h.2 h'

theorem Tidy.prefix_of {b : Bool} {s t : Str} (h : Tidy b s) (hs : t <+: s) : Tidy b t := by
  induction t generalizing b s with
  | nil => trivial
  | cons a t ih =>
    obtain ⟨r, rfl⟩ := hs
    exact ⟨h.1, ih h.2 ⟨r, rfl⟩⟩

theorem Tidy.space_eq {b : Bool} {s : Str} (h : Tidy b s) :
    ∀ c ∈ s, isJsSpace c = true → c = ' ' := by
  induction s generalizing b with
  | nil => intro c hc; cases hc
  | cons a s ih =>
    intro c hc hsp
    rcases List.mem_cons.1 hc with rfl | hc
    · exact (h.1 hsp).1
    · exact ih h.2 c hc hsp

theorem isJsSpace_space : isJsSpace ' ' = true := by decide

theorem collapseWsAux_tidy (b : Bool) (s : Str) : Tidy b (collapseWsAux b s) := by
  induction s generalizing b with
  | nil => trivial
  | cons a s ih =>
    by_cases ha : isJsSpace a = true
    · cases b
      · simp only [collapseWsAux, ha, if_true, Bool.false_eq_true, if_false]
        exact ⟨fun _ => ⟨rfl, rfl⟩, ih true⟩
      · simp only [collapseWsAux, ha, if_true]
        exact ih true
    · have ha' : isJsSpace a = false := by simpa using ha
      simp only [collapseWsAux, ha', Bool.false_eq_true, if_false]
      exact ⟨fun h => by simp [ha'] at h, by rw [ha']; exact ih false⟩

theorem collapseWsAux_of_tidy {b : Bool} {s : Str} (h : Tidy b s) : collapseWsAux b s = s := by
  induction s generalizing b with
  | nil => rfl
  | cons a s ih =>
    by_cases ha : isJsSpace a = true
    · obtain ⟨rfl, rfl⟩ := h.1 ha
      have h2 := h.2
      rw [ha] at h2
      simp [collapseWsAux, ih h2, isJsSpace_space]
    · have ha' : isJsSpace a = false := by simpa using ha
      have h2 := h.2
      rw [ha'] at h2
      simp [collapseWsAux, ha', ih h2]

theorem collapseWsAux_mem (b : Bool) (s : Str) :
    ∀ c ∈ collapseWsAux b s, c ∈ s ∨ c = ' ' := by
  induction s generalizing b with
  | nil => intro c hc; cases hc
  | cons a s ih =>
    intro c hc
    by_cases ha : isJsSpace a = true
    · cases b
      · simp only [collapseWsAux, ha, if_true, Bool.false_eq_true, if_false,
          List.mem_cons] at hc
        rcases hc with rfl | hc
        · exact Or.inr rfl
        · exact (ih true c hc).imp (List.mem_cons_of_mem _) id
      · simp only [collapseWsAux, ha, if_true] at hc
        exact (ih true c hc).imp (List.mem_cons_of_mem _) id
    · have ha' : isJsSpace a = false := by simpa using ha
      simp only [collapseWsAux, ha', Bool.false_eq_true, if_false, List.mem_cons] at hc
      rcases hc with rfl | hc
      · exact Or.inl (List.mem_cons_self _ _)
      · exact (ih false c hc).imp (List.mem_cons_of_mem _) id

theorem jsTrim_infix (s : Str) : ∃ a b, s = a ++ jsTrim s ++ b := by
  obtain ⟨a, ha⟩ := List.dropWhile_suffix (l := s) isJsSpace
  obtain ⟨b, hb⟩ := List.rdropWhile_prefix isJsSpace (s.dropWhile isJsSpace)
  refine ⟨a, b, ?_⟩
  unfold jsTrim
  rw [List.append_assoc, hb, ha]

theorem jsTrim_mem (s : Str) : ∀ c ∈ jsTrim s, c ∈ s := by
  intro c hc
  obtain ⟨a, b, h⟩ := jsTrim_infix s
  rw [h]
  simp [hc]

theorem jsTrim_tidy {b : Bool} {s : Str} (h : Tidy b s) : Tidy false (jsTrim s) :=
  (h.suffix (List.dropWhile_suffix isJsSpace)).prefix_of (List.rdropWhile_prefix _ _)

theorem jsTrim_idem (s : Str) : jsTrim (jsTrim s) = jsTrim s := by
  unfold jsTrim
  have hb : List.dropWhile isJsSpace (List.rdropWhile isJsSpace (List.dropWhile isJsSpace s))
      = List.rdropWhile isJsSpace (List.dropWhile isJsSpace s) := by
    obtain ⟨r, hr⟩ := List.rdropWhile_prefix isJsSpace (List.dropWhile isJsSpace s)
    cases hb : List.rdropWhile isJsSpace (List.dropWhile isJsSpace s) with
    | nil => rfl
    | cons x b =>
      rw [hb] at hr
      have h := List.head?_dropWhile_not isJsSpace s
      rw [← hr] at h
      simp only [List.cons_append, List.head?_cons] at h
      exact List.dropWhile_cons_of_neg (by simp [h])
  rw [hb, List.rdropWhile_idempotent]

theorem map_eq_self {f : Char → Char} {l : Str} (h : ∀ c ∈ l, f c = c) : l.map f = l := by
  conv_rhs => rw [← List.map_id l]
  exact List.map_congr_left h

theorem normalizeCore_tidy (s : Str) : Tidy false (normalizeCore s) :=
  jsTrim_tidy (collapseWsAux_tidy false _)

theorem normalizeCore_no_sep (s : Str) : ∀ c ∈ normalizeCore s, ¬(c = '_' ∨ c = '-') := by
  intro c hc
  rcases collapseWsAux_mem _ _ c (jsTrim_mem _ c hc) with h | rfl
  · unfold replaceSeparators at h
    obtain ⟨x, _, hx⟩ := List.mem_map.1 h
    by_cases hs : x = '_' ∨ x = '-'
    · rw [if_pos hs] at hx
      subst hx
      decide
    · rw [if_neg hs] at hx
      subst hx
      exact hs
  · decide

theorem normalizeCore_idem (s : Str) : normalizeCore (normalizeCore s) = normalizeCore s := by
  have hT := normalizeCore_tidy s
  have hsep := normalizeCore_no_sep s
  have e1 : replaceNbsp (normalizeCore s) = normalizeCore s := by
    apply map_eq_self
    intro c hc
    by_cases hn : c = nbsp
    · have := hT.space_eq c hc (by rw [hn]; decide)
      rw [hn] at this
      exact absurd this (by decide)
    · rw [if_neg hn]
  have e2 : replaceSeparators (normalizeCore s) = normalizeCore s := by
    apply map_eq_self
    intro c hc
    rw [if_neg (hsep c hc)]
  have e3 : collapseWs (normalizeCore s) = normalizeCore s := collapseWsAux_of_tidy hT
  have e4 : jsTrim (normalizeCore s) = normalizeCore s := jsTrim_idem _
  show jsTrim (collapseWs (replaceSeparators (replaceNbsp (normalizeCore s)))) = normalizeCore s
  rw [e1, e2, e3, e4]

/-- Normalising a normalised label changes nothing, for every upper-case
table that satisfies `UpperSpec`. -/
theorem normalizeStatusLabel_fixed {up : Char → List Char} (hup : UpperSpec up)
    (x : Option Str) :
    normalizeStatusLabel_ up (some (normalizeStatusLabel_ up x)) = normalizeStatusLabel_ up x := by
  cases x with
  | none => rfl
  | some s =>
    by_cases hs : s = []
    · simp [normalizeStatusLabel_, hs]
    · simp only [normalizeStatusLabel_, hs, if_false]
      split_ifs with h
      · exact h.symm
      · rw [normalizeCore_upper hup, normalizeCore_idem, toUpperCase_idem hup]

/-- C1. `normalizeStatusLabel_` is idempotent: for every input label `x`
(`none` is `null`, `some []` the empty label, any characters otherwise,
non-breaking spaces, underscores, hyphens and repeated white space included),
`normalizeStatusLabel_(normalizeStatusLabel_(x)) = normalizeStatusLabel_(x)`,
whatever upper-case table satisfying `UpperSpec` the runtime uses. -/
theorem C1_normalize_idempotent (up : Char → List Char) (hup : UpperSpec up) (x : Option Str) :
    normalizeStatusLabel_ up (some (normalizeStatusLabel_ up x)) = normalizeStatusLabel_ up x :=
  normalizeStatusLabel_fixed hup x

/-- C1 at the ASCII table and the label `" in_progress - QA "` with a
non-breaking space in front. -/
theorem C1_normalize_idempotent_witness :
    UpperSpec asciiUp ∧
    normalizeStatusLabel_ asciiUp
        (some (normalizeStatusLabel_ asciiUp (some (nbsp :: " in_progress -  QA ".toList))))
      = normalizeStatusLabel_ asciiUp (some (nbsp :: " in_progress -  QA ".toList)) :=
  ⟨asciiUp_spec, C1_normalize_idempotent asciiUp asciiUp_spec _⟩


/-! ## The status normalizer is case and separator insensitive -/

theorem toLower_up (n : Nat) (h1 : 65 ≤ n) (h2 : n ≤ 90) :
    (Char.ofNat (n + 32)).toNat = n + 32 := by
  interval_cases n <;> decide

theorem toNat_toLower (c : Char) :
    c.toLower.toNat = if 65 ≤ c.toNat ∧ c.toNat ≤ 90 then c.toNat + 32 else c.toNat := by
  unfold Char.toLower
  by_cases h : 65 ≤ c.toNat ∧ c.toNat ≤ 90
  · simp only [ge_iff_le, h, and_self, if_true]
    exact toLower_up _ h.1 h.2
  · simp only [ge_iff_le, h, if_false]

theorem toUpper_toLower (c : Char) : c.toLower.toUpper = c.toUpper := by
  apply char_eq_of_toNat
  rw [toNat_toUpper c.toLower, toNat_toLower c, toNat_toUpper c]
  split_ifs <;> omega

theorem isJsSpace_toLower (c : Char) : isJsSpace c.toLower = isJsSpace c := by
  rw [Bool.eq_iff_iff, isJsSpace_iff, isJsSpace_iff, toNat_toLower]
  split_ifs <;> omega

theorem toLower_sep (c : Char) : (c.toLower = '_' ∨ c.toLower = '-') ↔ (c = '_' ∨ c = '-') := by
  have h := toNat_toLower c
  have e1 : ∀ d : Char, d = '_' ↔ d.toNat = 95 :=
    fun d => ⟨fun h => by rw [h]; rfl, fun h => char_eq_of_toNat (by rw [h]; rfl)⟩
  have e2 : ∀ d : Char, d = '-' ↔ d.toNat = 45 :=
    fun d => ⟨fun h => by rw [h]; rfl, fun h => char_eq_of_toNat (by rw [h]; rfl)⟩
  rw [e1, e2, e1, e2, h]
  split_ifs <;> omega

theorem replaceSeparators_map_toLower (s : Str) :
    replaceSeparators (s.map Char.toLower) = (replaceSeparators s).map Char.toLower := by
  unfold replaceSeparators
  rw [List.map_map, List.map_map]
  apply List.map_congr_left
  intro c _
  simp only [Function.comp]
  by_cases hc : c = '_' ∨ c = '-'
  · rw [if_pos hc, if_pos ((toLower_sep c).2 hc)]
    rfl
  · rw [if_neg hc, if_neg (fun h => hc ((toLower_sep c).1 h))]

theorem collapseWsAux_map_toLower (b : Bool) (s : Str) :
    collapseWsAux b (s.map Char.toLower) = (collapseWsAux b s).map Char.toLower := by
  induction s generalizing b with
  | nil => rfl
  | cons a t ih =>
    by_cases ha : isJsSpace a = true
    · cases b <;> simp [collapseWsAux, isJsSpace_toLower, ha, ih]
    · have ha' : isJsSpace a = false := by simpa using ha
      simp [collapseWsAux, isJsSpace_toLower, ha', ih]

theorem dropWhile_map_toLower (s : Str) :
    (s.map Char.toLower).dropWhile isJsSpace = (s.dropWhile isJsSpace).map Char.toLower := by
  induction s with
  | nil => rfl
  | cons a t ih =>
    by_cases ha : isJsSpace a = true
    · simp [List.dropWhile, isJsSpace_toLower, ha, ih]
    · have ha' : isJsSpace a = false := by simpa using ha
      simp [List.dropWhile, isJsSpace_toLower, ha']

theorem rdropWhile_map_toLower (s : Str) :
    (s.map Char.toLower).rdropWhile isJsSpace = (s.rdropWhile isJsSpace).map Char.toLower := by
  induction s using List.reverseRecOn with
  | nil => rfl
  | append_singleton t a ih =>
    by_cases ha : isJsSpace a = true
    · rw [List.map_append, List.map_singleton,
        List.rdropWhile_concat_pos _ _ _ (by rw [isJsSpace_toLower]; exact ha),
        List.rdropWhile_concat_pos _ _ _ ha, ih]
    · rw [List.map_append, List.map_singleton,
        List.rdropWhile_concat_neg _ _ _ (by rw [isJsSpace_toLower]; exact ha),
        List.rdropWhile_concat_neg _ _ _ ha, List.map_append, List.map_singleton]

theorem specCanonical_eq (s : Str) :
    specCanonical s = (jsTrim (collapseWs (replaceSeparators s))).map Char.toLower := by
  unfold specCanonical jsTrim collapseWs
  rw [replaceSeparators_map_toLower, collapseWsAux_map_toLower, dropWhile_map_toLower,
    rdropWhile_map_toLower]

theorem toUpperCase_ascii {up : Char → List Char} (hup : UpperSpec up) {s : Str}
    (hs : ∀ c ∈ s, c.toNat < 128) : toUpperCase up s = s.map Char.toUpper := by
  unfold toUpperCase
  induction s with
  | nil => rfl
  | cons a t ih =>
    rw [List.flatMap_cons, hup.ascii a (hs a (List.mem_cons_self _ _)),
      ih (fun c hc => hs c (List.mem_cons_of_mem _ hc))]
    rfl

theorem replaceNbsp_ascii {s : Str} (hs : ∀ c ∈ s, c.toNat < 128) : replaceNbsp s = s := by
  apply map_eq_self
  intro c hc
  have : c ≠ nbsp := by
    intro h
    have := hs c hc
    rw [h] at this
    exact absurd this (by decide)
  rw [if_neg this]

theorem normalizeCore_ascii {s : Str} (hs : ∀ c ∈ s, c.toNat < 128) :
    ∀ c ∈ normalizeCore s, c.toNat < 128 := by
  intro c hc
  rcases collapseWsAux_mem _ _ c (jsTrim_mem _ c hc) with h | rfl
  · rw [replaceNbsp_ascii hs] at h
    unfold replaceSeparators at h
    obtain ⟨x, hx, hxc⟩ := List.mem_map.1 h
    split_ifs at hxc
    · subst hxc
      decide
    · subst hxc
      exact hs _ hx
  · decide

/-- On an ASCII label the normalizer is the upper-cased canonical form of
the specification. -/
theorem normalizeStatusLabel_ascii {up : Char → List Char} (hup : UpperSpec up) {s : Str}
    (hs : ∀ c ∈ s, c.toNat < 128) :
    normalizeStatusLabel_ up (some s) = (specCanonical s).map Char.toUpper := by
  have e : normalizeCore s = jsTrim (collapseWs (replaceSeparators s)) := by
    unfold normalizeCore
    rw [replaceNbsp_ascii hs]
  rw [specCanonical_eq, List.map_map]
  have e2 : (Char.toUpper ∘ Char.toLower) = Char.toUpper := funext toUpper_toLower
  rw [e2, ← e]
  by_cases h : s = []
  · subst h
    rfl
  · simp only [normalizeStatusLabel_, h, if_false]
    exact toUpperCase_ascii hup (normalizeCore_ascii hs)

/-- C2. `normalizeStatusLabel_` is case and separator insensitive: two ASCII
labels `x` and `y` with the same canonical form of the specification
(lower-cased, `_` and `-` replaced by a space, white space collapsed, trimmed)
have the same normal form, and `"in_progress"` and `"In   Progress"` both
normalise to `"IN PROGRESS"`. -/
theorem C2_normalize_case_separator_insensitive (up : Char → List Char) (hup : UpperSpec up)
    (x y : Str) (hx : ∀ c ∈ x, c.toNat < 128) (hy : ∀ c ∈ y, c.toNat < 128)
    (h : specCanonical x = specCanonical y) :
    normalizeStatusLabel_ up (some x) = normalizeStatusLabel_ up (some y) ∧
    normalizeStatusLabel_ up (some "in_progress".toList) = "IN PROGRESS".toList ∧
    normalizeStatusLabel_ up (some "In   Progress".toList) = "IN PROGRESS".toList := by
  refine ⟨?_, ?_, ?_⟩
  · rw [normalizeStatusLabel_ascii hup hx, normalizeStatusLabel_ascii hup hy, h]
  · rw [normalizeStatusLabel_ascii hup (by decide)]
    decide
  · rw [normalizeStatusLabel_ascii hup (by decide)]
    decide

/-- C2 at the ASCII table, `x = "ready-for_QA"` and `y = " Ready  for qa"`. -/
theorem C2_normalize_case_separator_insensitive_witness :
    normalizeStatusLabel_ asciiUp (some "ready-for_QA".toList)
      = normalizeStatusLabel_ asciiUp (some " Ready  for\tqa".toList) ∧
    normalizeStatusLabel_ asciiUp (some "in_progress".toList) = "IN PROGRESS".toList ∧
    normalizeStatusLabel_ asciiUp (some "In   Progress".toList) = "IN PROGRESS".toList :=
  C2_normalize_case_separator_insensitive asciiUp asciiUp_spec
    "ready-for_QA".toList " Ready  for\tqa".toList (by decide) (by decide) (by decide)

/-! ## Status translation -/

theorem toUpperCase_no_lower {up : Char → List Char} (hup : UpperSpec up) (s : Str) :
    ∀ d ∈ toUpperCase up s, isAsciiLower d = false := by
  intro d hd
  obtain ⟨c, _, hc⟩ := List.mem_flatMap.1 hd
  by_cases hca : c.toNat < 128
  · rw [hup.ascii c hca, List.mem_singleton] at hc
    have h := toNat_toUpper c
    rw [← hc] at h
    rw [← Bool.not_eq_true, isAsciiLower_iff]
    split_ifs at h <;> omega
  · by_cases hda : d.toNat < 128
    · have := (isAsciiUpper_iff d).1 (hup.asciiOut c d hc (by omega) hda)
      rw [← Bool.not_eq_true, isAsciiLower_iff]
      omega
    · rw [← Bool.not_eq_true, isAsciiLower_iff]
      omega

theorem normalizeStatusLabel_no_lower {up : Char → List Char} (hup : UpperSpec up)
    (x : Option Str) : ∀ d ∈ normalizeStatusLabel_ up x, isAsciiLower d = false := by
  intro d hd
  cases x with
  | none => cases hd
  | some s =>
    simp only [normalizeStatusLabel_] at hd
    split_ifs at hd
    · cases hd
    · exact toUpperCase_no_lower hup _ d hd

theorem objectPrototypeKeys_lower : ∀ k ∈ objectPrototypeKeys, ∃ c ∈ k, isAsciiLower c = true := by
  decide

/-- A normalized label is never the name of a member of `Object.prototype`:
these names contain small letters. -/
theorem normalizeStatusLabel_not_inherited {up : Char → List Char} (hup : UpperSpec up)
    (x : Option Str) : normalizeStatusLabel_ up x ∉ objectPrototypeKeys := by
  intro h
  obtain ⟨c, hc, hl⟩ := objectPrototypeKeys_lower _ h
  rw [normalizeStatusLabel_no_lower hup x c hc] at hl
  cases hl

theorem run_lit (w : Str) (st : MState) :
    (Re.lit false w).run st =
      if w.isPrefixOf st.rest then [st.advance w.length] else [] := by
  induction w generalizing st with
  | nil =>
    cases st
    simp [Re.lit, Re.run, MState.advance]
  | cons x xs ih =>
    obtain ⟨prev, rest, caps⟩ := st
    cases rest with
    | nil => simp [Re.lit, Re.run, Re.char]
    | cons c cs =>
      by_cases hcx : c = x
      · subst hcx
        simp [Re.lit, Re.run, Re.char, ih, MState.advance, List.isPrefixOf]
      · have : (x == c) = false := by simp [Ne.symm hcx]
        simp [Re.lit, Re.run, Re.char, hcx, List.isPrefixOf, this]

theorem search_isSome_cons (re : Re) (prev : Option Char) (c : Char) (cs : Str) :
    (re.search prev (c :: cs)).isSome =
      ((re.exec { prev := prev, rest := c :: cs, caps := [] }).isSome ||
        (re.search (some c) cs).isSome) := by
  rw [Re.search]
  cases re.exec { prev := prev, rest := c :: cs, caps := [] } <;> simp

theorem exec_lit_isSome (w : Str) (st : MState) :
    ((Re.lit false w).exec st).isSome = w.isPrefixOf st.rest := by
  rw [Re.exec, run_lit]
  cases w.isPrefixOf st.rest <;> rfl

theorem containsSub_nil (w : Str) : containsSub w [] = w.isPrefixOf [] := by
  unfold containsSub
  rw [List.tails, List.any_cons, List.any_nil, Bool.or_false]

theorem containsSub_cons (w : Str) (c : Char) (cs : Str) :
    containsSub w (c :: cs) = (w.isPrefixOf (c :: cs) || containsSub w cs) := by
  unfold containsSub
  rw [List.tails, List.any_cons]

theorem search_lit (w : Str) (prev : Option Char) (s : Str) :
    ((Re.lit false w).search prev s).isSome = containsSub w s := by
  induction s generalizing prev with
  | nil => rw [Re.search, Option.isSome_map', exec_lit_isSome, containsSub_nil]
  | cons c cs ih => rw [search_isSome_cons, ih, exec_lit_isSome, containsSub_cons]

theorem search_alt (a b : Re) (prev : Option Char) (s : Str) :
    ((Re.alt a b).search prev s).isSome = ((a.search prev s).isSome || (b.search prev s).isSome) := by
  have hexec : ∀ st, ((Re.alt a b).exec st).isSome = ((a.exec st).isSome || (b.exec st).isSome) := by
    intro st
    simp only [Re.exec, Re.run]
    cases a.run st <;> simp
  induction s generalizing prev with
  | nil => simp only [Re.search, Option.isSome_map', hexec]
  | cons c cs ih =>
    rw [search_isSome_cons, search_isSome_cons, search_isSome_cons, ih, hexec]
    cases (a.exec { prev := prev, rest := c :: cs, caps := [] }).isSome <;>
      cases (b.exec { prev := prev, rest := c :: cs, caps := [] }).isSome <;>
      cases (a.search (some c) cs).isSome <;> simp

theorem test_reSolved (s : Str) :
    reSolved.test s = (containsSub "COMPLETE".toList s || containsSub "DONE".toList s
      || containsSub "RESOLVED".toList s) := by
  simp only [Re.test, reSolved, search_alt, search_lit, Bool.or_assoc]

theorem test_reHold (s : Str) :
    reHold.test s = (containsSub "HOLD".toList s || containsSub "BLOCK".toList s) := by
  simp only [Re.test, reHold, search_alt, search_lit]

theorem test_rePending (s : Str) :
    rePending.test s = (containsSub "REVIEW".toList s || containsSub "QA".toList s) := by
  simp only [Re.test, rePending, search_alt, search_lit]

theorem lookup_mem {k v : Str} {l : List (Str × Str)} (h : l.lookup k = some v) :
    (k, v) ∈ l := by
  induction l with
  | nil => cases h
  | cons e es ih =>
    obtain ⟨a, b⟩ := e
    by_cases hk : k = a
    · subst hk
      simp only [List.lookup, beq_self_eq_true] at h
      cases h
      exact List.mem_cons_self _ _
    · have : (k == a) = false := by simp [hk]
      simp only [List.lookup, this] at h
      exact List.mem_cons_of_mem _ (ih h)

theorem lookup_none {k : Str} {l : List (Str × Str)} (h : l.lookup k = none) :
    ∀ e ∈ l, e.1 ≠ k := by
  induction l with
  | nil => intro e he; cases he
  | cons e es ih =>
    obtain ⟨a, b⟩ := e
    by_cases hk : k = a
    · subst hk
      simp only [List.lookup, beq_self_eq_true] at h
      cases h
    · have : (k == a) = false := by simp [hk]
      simp only [List.lookup, this] at h
      intro e he
      rcases List.mem_cons.1 he with rfl | he
      · exact Ne.symm hk
      · exact ih h e he

/-- The five Zendesk statuses. -/
theorem explicitTable_values :
    ∀ e ∈ explicitTable, e.2 ∈ ["solved".toList, "pending".toList, "open".toList,
      "new".toList, "hold".toList] := by
  decide

/-- On a key of the explicit table the reference translation is the value
of the table. -/
theorem referenceTranslation_table : ∀ e ∈ explicitTable, referenceTranslation e.1 = e.2 := by
  decide

theorem referenceTranslation_off_table {n : Str} (h : ∀ e ∈ explicitTable, e.1 ≠ n) :
    referenceTranslation n =
      if containsSub "COMPLETE".toList n || containsSub "DONE".toList n
          || containsSub "RESOLVED".toList n then "solved".toList
      else if containsSub "HOLD".toList n || containsSub "BLOCK".toList n then "hold".toList
      else if containsSub "REVIEW".toList n || containsSub "QA".toList n then "pending".toList
      else "open".toList := by
  have hk : ∀ k v, (k, v) ∈ explicitTable → n ≠ k := fun k v hm => Ne.symm (h (k, v) hm)
  unfold referenceTranslation
  rw [if_neg, if_neg, if_neg, if_neg, if_neg]
  · intro hm
    simp only [List.mem_cons, List.mem_singleton, List.not_mem_nil, or_false] at hm
    rcases hm with e | e | e
    · exact hk _ "hold".toList (by decide) e
    · exact hk _ "hold".toList (by decide) e
    · exact hk _ "hold".toList (by decide) e
  · exact hk _ "new".toList (by decide)
  · intro hm
    simp only [List.mem_cons, List.mem_singleton, List.not_mem_nil, or_false] at hm
    rcases hm with e | e | e
    · exact hk _ "open".toList (by decide) e
    · exact hk _ "open".toList (by decide) e
    · exact hk _ "open".toList (by decide) e
  · intro hm
    simp only [List.mem_cons, List.mem_singleton, List.not_mem_nil, or_false] at hm
    rcases hm with e | e | e | e | e
    · exact hk _ "pending".toList (by decide) e
    · exact hk _ "pending".toList (by decide) e
    · exact hk _ "pending".toList (by decide) e
    · exact hk _ "pending".toList (by decide) e
    · exact hk _ "pending".toList (by decide) e
  · intro hm
    simp only [List.mem_cons, List.mem_singleton, List.not_mem_nil, or_false] at hm
    rcases hm with e | e | e | e | e
    · exact hk _ "solved".toList (by decide) e
    · exact hk _ "solved".toList (by decide) e
    · exact hk _ "solved".toList (by decide) e
    · exact hk _ "solved".toList (by decide) e
    · exact hk _ "solved".toList (by decide) e

/-- The translation of a label with a non-empty normal form is the
reference translation of the normal form. -/
theorem mapClickUpStatusToZendesk_eq_reference {up : Char → List Char} (hup : UpperSpec up)
    (status : Option Str) (h : normalizeStatusLabel_ up status ≠ []) :
    mapClickUpStatusToZendesk_ up status
      = .status (referenceTranslation (normalizeStatusLabel_ up status)) := by
  unfold mapClickUpStatusToZendesk_
  simp only [h, if_false]
  cases hl : explicitTable.lookup (normalizeStatusLabel_ up status) with
  | some v =>
    simp only
    rw [referenceTranslation_table _ (lookup_mem hl)]
  | none =>
    simp only [normalizeStatusLabel_not_inherited hup status, if_false]
    rw [referenceTranslation_off_table (lookup_none hl), test_reSolved, test_reHold,
      test_rePending]
    split_ifs <;> rfl

/-- The reference translation is one of the five Zendesk statuses. -/
theorem referenceTranslation_mem (n : Str) :
    referenceTranslation n ∈ ["solved".toList, "pending".toList, "open".toList,
      "new".toList, "hold".toList] := by
  unfold referenceTranslation
  split_ifs <;> decide

theorem mapClickUpStatusToZendesk_null {up : Char → List Char} (status : Option Str)
    (h : normalizeStatusLabel_ up status = []) :
    mapClickUpStatusToZendesk_ up status = .null := by
  unfold mapClickUpStatusToZendesk_
  simp only [h, if_true]

theorem processClickUpStatusChange_calls_unmapped {up : Char → List Char} (env : Env)
    (taskId : Option Str) (ticketId subdomain taskUrl userName : Str) (change : StatusChange)
    (w : World) (h : normalizeStatusLabel_ up (some change.toStatus) = []) :
    ∃ body, (processClickUpStatusChange_ up env taskId ticketId subdomain taskUrl userName
        change w).2.calls = w.calls ++ [Call.addZendeskInternalNote subdomain ticketId body] := by
  simp only [processClickUpStatusChange_, mapClickUpStatusToZendesk_null _ h,
    addZendeskInternalNote_, perform]
  exact ⟨_, rfl⟩

/-- C3. Status translation is total: a label with a non-empty normal form
is translated to one of `solved`, `pending`, `open`, `new`, `hold`; the result
is `null` exactly when the normal form is empty; and for a change whose target
has an empty normal form `processClickUpStatusChange_` makes one call only,
the internal note, hence no status call. -/
theorem C3_translation_total (up : Char → List Char) (hup : UpperSpec up) (status : Option Str)
    (env : Env) (taskId : Option Str) (ticketId subdomain taskUrl userName : Str)
    (change : StatusChange) (w : World) :
    (normalizeStatusLabel_ up status ≠ [] →
      ∃ s ∈ zendeskStatuses, mapClickUpStatusToZendesk_ up status = .status s) ∧
    (mapClickUpStatusToZendesk_ up status = .null ↔ normalizeStatusLabel_ up status = []) ∧
    (normalizeStatusLabel_ up (some change.toStatus) = [] →
      ∃ body, (processClickUpStatusChange_ up env taskId ticketId subdomain taskUrl userName
        change w).2.calls = w.calls ++ [Call.addZendeskInternalNote subdomain ticketId body]) := by
  refine ⟨fun h => ⟨_, referenceTranslation_mem _, mapClickUpStatusToZendesk_eq_reference hup _ h⟩,
    ⟨fun h => ?_, mapClickUpStatusToZendesk_null _⟩,
    processClickUpStatusChange_calls_unmapped env taskId ticketId subdomain taskUrl userName
      change w⟩
  by_contra hne
  rw [mapClickUpStatusToZendesk_eq_reference hup _ hne] at h
  cases h

/-- C3 at the ASCII table: `"Waiting on customer"` translates to one of the
five statuses, and a change to the blank status `" - "` makes the note call
only. -/
theorem C3_translation_total_witness :
    (∃ s ∈ zendeskStatuses,
      mapClickUpStatusToZendesk_ asciiUp (some "Waiting on customer".toList) = .status s) ∧
    (∃ body, (processClickUpStatusChange_ asciiUp quietEnv (some "t1".toList) "42".toList
        "acme".toList [] "Ann".toList
        { source := "taskUpdated".toList, fromStatus := "OPEN".toList, toStatus := " - ".toList,
          rawFrom := [], rawTo := [] } emptyWorld).2.calls
      = emptyWorld.calls ++ [Call.addZendeskInternalNote "acme".toList "42".toList body]) :=
  have h := C3_translation_total asciiUp asciiUp_spec (some "Waiting on customer".toList)
    quietEnv (some "t1".toList) "42".toList "acme".toList [] "Ann".toList
    { source := "taskUpdated".toList, fromStatus := "OPEN".toList, toStatus := " - ".toList,
      rawFrom := [], rawTo := [] } emptyWorld
  ⟨h.1 (by decide), h.2.2 (by decide)⟩

/-- C4, as stated, fails: the empty label has no translation (`null`),
where the reference translation of its (empty) normal form is `open`. -/
theorem C4_reference_fails_on_empty :
    ¬ (∀ (up : Char → List Char) (status : Option Str), UpperSpec up →
        mapClickUpStatusToZendesk_ up status
          = .status (referenceTranslation (normalizeStatusLabel_ up status))) := by
  intro h
  have := h asciiUp (some []) asciiUp_spec
  revert this
  decide

/-- C4, amended. For a label whose normal form is not empty,
`mapClickUpStatusToZendesk_` is the reference translation of the normal form
(the value of the explicit table on its keys, otherwise `solved` when the
label contains COMPLETE, DONE or RESOLVED, else `hold` for HOLD or BLOCK, else
`pending` for REVIEW or QA, else `open`); for a label whose normal form is
empty the result is `null`. -/
theorem C4_translation_reference (up : Char → List Char) (hup : UpperSpec up)
    (status : Option Str) :
    (normalizeStatusLabel_ up status ≠ [] →
      mapClickUpStatusToZendesk_ up status
        = .status (referenceTranslation (normalizeStatusLabel_ up status))) ∧
    (normalizeStatusLabel_ up status = [] → mapClickUpStatusToZendesk_ up status = .null) :=
  ⟨mapClickUpStatusToZendesk_eq_reference hup status, mapClickUpStatusToZendesk_null status⟩

/-- C4 amended, at the ASCII table: `"qa-review"` is a key of the table
after normalisation, `"Blocked by vendor"` falls to the HOLD|BLOCK rule. -/
theorem C4_translation_reference_witness :
    mapClickUpStatusToZendesk_ asciiUp (some "qa-review".toList) = .status "pending".toList ∧
    mapClickUpStatusToZendesk_ asciiUp (some "Blocked by vendor".toList)
      = .status "hold".toList :=
  ⟨((C4_translation_reference asciiUp asciiUp_spec (some "qa-review".toList)).1
      (by decide)).trans (by decide),
   ((C4_translation_reference asciiUp asciiUp_spec (some "Blocked by vendor".toList)).1
      (by decide)).trans (by decide)⟩

/-! ## The matcher -/

theorem advance_rest (st : MState) (k : Nat) : (st.advance k).rest = st.rest.drop k := by
  induction k generalizing st with
  | zero => rfl
  | succ k ih =>
    obtain ⟨prev, rest, caps⟩ := st
    cases rest with
    | nil => simp [MState.advance]
    | cons c cs => simp [MState.advance, ih]

theorem advance_caps (st : MState) (k : Nat) : (st.advance k).caps = st.caps := by
  induction k generalizing st with
  | zero => rfl
  | succ k ih =>
    obtain ⟨prev, rest, caps⟩ := st
    cases rest with
    | nil => simp [MState.advance]
    | cons c cs => simp [MState.advance, ih]

theorem spanLen_le (p : Char → Bool) (s : Str) : spanLen p s ≤ s.length := by
  induction s with
  | nil => simp [spanLen]
  | cons c cs ih =>
    simp only [spanLen]
    split_ifs
    · simp only [List.length_cons]
      omega
    · simp

theorem spanLen_append {p : Char → Bool} {a : Str} (h : ∀ c ∈ a, p c = true) (b : Str) :
    spanLen p (a ++ b) = a.length + spanLen p b := by
  induction a with
  | nil => simp
  | cons c cs ih =>
    simp [spanLen, h c (List.mem_cons_self _ _),
      ih (fun d hd => h d (List.mem_cons_of_mem _ hd))]
    omega

theorem spanLen_all {p : Char → Bool} {a : Str} (h : ∀ c ∈ a, p c = true) :
    spanLen p a = a.length := by
  have := spanLen_append h []
  simpa [spanLen] using this

theorem drop_spanLen (p : Char → Bool) (s : Str) : s.drop (spanLen p s) = s.dropWhile p := by
  induction s with
  | nil => rfl
  | cons c cs ih =>
    by_cases hc : p c = true
    · simp [spanLen, hc, List.dropWhile, ih]
    · simp [spanLen, hc, List.dropWhile]

theorem repCounts_greedy_succ (lo n : Nat) (h : lo ≤ n) :
    ∃ l, repCounts lo n true = n :: l := by
  refine ⟨(List.range (n - lo)).map (fun i => n - (i + 1)), ?_⟩
  unfold repCounts
  rw [if_neg (by omega), List.range_succ_eq_map]
  simp [List.map_map, Function.comp]

theorem run_seq (a b : Re) (st : MState) :
    (Re.seq a b).run st = (a.run st).flatMap (fun s => b.run s) := rfl

theorem run_cat_cons (r : Re) (rs : List Re) (st : MState) :
    (Re.cat (r :: rs)).run st = (r.run st).flatMap (fun s => (Re.cat rs).run s) := rfl

theorem run_cat_nil (st : MState) : (Re.cat []).run st = [st] := rfl

theorem run_rep (p : Char → Bool) (lo : Nat) (g : Bool) (st : MState) :
    (Re.rep p lo none g).run st = (repCounts lo (spanLen p st.rest) g).map (fun k => st.advance k) :=
  rfl

/-- A quantified class that may match nothing does not move when the next
character is outside the class. -/
theorem run_rep_zero_stuck (p : Char → Bool) (g : Bool) (st : MState)
    (h : spanLen p st.rest = 0) : (Re.rep p 0 none g).run st = [st] := by
  rw [run_rep, h]
  cases g <;> simp [repCounts, MState.advance, List.range_succ]

theorem run_char_cons (ci : Bool) (x c : Char) (prev : Option Char) (cs : Str) (caps : List Str) :
    (Re.char ci x).run { prev := prev, rest := c :: cs, caps := caps } =
      if (if ci then c.toLower == x.toLower else c == x) = true then
        [{ prev := some c, rest := cs, caps := caps }] else [] := rfl

theorem run_char_ne (ci : Bool) (x : Char) (st : MState)
    (h : ∀ c ∈ st.rest.head?, (if ci then c.toLower == x.toLower else c == x) = false) :
    (Re.char ci x).run st = [] := by
  obtain ⟨prev, rest, caps⟩ := st
  cases rest with
  | nil => rfl
  | cons c cs =>
    rw [run_char_cons, if_neg]
    rw [h c (by simp)]
    simp

/-! ## Parsing a note -/

theorem repCounts_greedy (lo n : Nat) (h : lo ≤ n) :
    repCounts lo n true = n :: (List.range (n - lo)).map (fun i => n - (i + 1)) := by
  unfold repCounts
  rw [if_neg (by omega), List.range_succ_eq_map]
  simp [List.map_map, Function.comp]

theorem repCounts_lazy (lo n : Nat) (h : lo ≤ n) :
    repCounts lo n false = (List.range (n - lo + 1)).map (fun i => lo + i) := by
  unfold repCounts
  rw [if_neg (by omega)]
  simp

theorem repCounts_short (lo n : Nat) (g : Bool) (h : n < lo) : repCounts lo n g = [] := by
  unfold repCounts
  rw [if_pos h]

theorem jsTrim_all_space {s : Str} (h : ∀ c ∈ s, isJsSpace c = true) : jsTrim s = [] := by
  unfold jsTrim
  rw [List.dropWhile_eq_nil_iff.2 h]
  rfl

theorem jsTrim_dropWhile (s : Str) : jsTrim (s.dropWhile isJsSpace) = jsTrim s := by
  unfold jsTrim
  rw [List.dropWhile_idempotent]

/-- `([\s\S]+)$` at a position: it takes all that remains, and fails at the
end of the input. -/
theorem run_restGroup_nil (s : MState) (h : s.rest = []) :
    (Re.cat [.grp (.rep (fun _ => true) 1 none true), .eol]).run s = [] := by
  rw [run_cat_cons]
  simp only [Re.run, h, spanLen]
  simp [repCounts]

theorem run_restGroup (s : MState) (h : s.rest ≠ []) :
    ∃ m, ((Re.cat [.grp (.rep (fun _ => true) 1 none true), .eol]).run s).head? = some m ∧
      m.caps = s.caps ++ [s.rest] := by
  have hn : spanLen (fun _ => true) s.rest = s.rest.length := spanLen_all (fun _ _ => rfl)
  have hlen : 1 ≤ s.rest.length := by
    cases hr : s.rest with
    | nil => exact absurd hr h
    | cons c cs => simp
  refine ⟨{ (s.advance s.rest.length) with caps := s.caps ++ [s.rest] }, ?_, rfl⟩
  rw [run_cat_cons]
  simp only [Re.run, MState.capture, hn, repCounts_greedy 1 _ hlen, List.map_cons,
    List.flatMap_cons, advance_rest, List.drop_length, List.length_nil, Nat.sub_zero,
    List.take_length, advance_caps, List.isEmpty_nil, if_true, run_cat_nil, List.map_map]
  simp

/-- `\s*([\s\S]+)$` after a white-space character: the group is what follows
the white space, or the last character when nothing follows. -/
theorem run_spaces_restGroup (s : MState) (c : Char) (n : Str) (hc : isJsSpace c = true)
    (h : s.rest = c :: n) :
    ∃ m g2, ((Re.cat [Re.spaces, .grp (.rep (fun _ => true) 1 none true), .eol]).run s).head?
        = some m ∧ m.caps = s.caps ++ [g2] ∧ jsTrim g2 = jsTrim n := by
  have hsp : spanLen isJsSpace s.rest = spanLen isJsSpace n + 1 := by
    rw [h]
    simp [spanLen, hc]
  rw [run_cat_cons, Re.spaces, run_rep, hsp, repCounts_greedy 0 _ (Nat.zero_le _)]
  simp only [List.map_cons, List.flatMap_cons, Nat.sub_zero]
  by_cases hd : n.dropWhile isJsSpace = []
  · -- only white space follows
    have hall : ∀ x ∈ n, isJsSpace x = true := List.dropWhile_eq_nil_iff.1 hd
    have hlen : spanLen isJsSpace n = n.length := spanLen_all hall
    have h0 : (s.advance (spanLen isJsSpace n + 1)).rest = [] := by
      rw [advance_rest, h, hlen]
      simp
    rw [run_restGroup_nil _ h0, List.nil_append, List.range_succ_eq_map]
    simp only [List.map_cons, List.flatMap_cons, Nat.zero_add, Nat.add_sub_cancel]
    have h1 : (s.advance (spanLen isJsSpace n)).rest ≠ [] := by
      rw [advance_rest, h, hlen]
      intro e
      have := congrArg List.length e
      simp at this
    obtain ⟨m, hm, hcaps⟩ := run_restGroup _ h1
    refine ⟨m, (s.advance (spanLen isJsSpace n)).rest, ?_, ?_, ?_⟩
    · rw [List.head?_append, hm]
      rfl
    · rw [hcaps, advance_caps]
    · rw [jsTrim_all_space hall, jsTrim_all_space]
      intro x hx
      rw [advance_rest, h] at hx
      have := List.mem_of_mem_drop hx
      rcases List.mem_cons.1 this with rfl | hx'
      · exact hc
      · exact hall x hx'
  · have h0 : (s.advance (spanLen isJsSpace n + 1)).rest = n.dropWhile isJsSpace := by
      rw [advance_rest, h, List.drop_succ_cons, drop_spanLen]
    have h0' : (s.advance (spanLen isJsSpace n + 1)).rest ≠ [] := by
      rw [h0]
      exact hd
    obtain ⟨m, hm, hcaps⟩ := run_restGroup _ h0'
    refine ⟨m, n.dropWhile isJsSpace, ?_, ?_, jsTrim_dropWhile n⟩
    · rw [List.head?_append, hm]
      rfl
    · rw [hcaps, advance_caps, h0]

theorem run_bol_start (r : Str) (caps : List Str) :
    Re.bol.run { prev := none, rest := r, caps := caps } = [{ prev := none, rest := r, caps := caps }] :=
  rfl

theorem run_spaces_stuck (p : Option Char) (c : Char) (r : Str) (caps : List Str)
    (h : isJsSpace c = false) :
    Re.spaces.run { prev := p, rest := c :: r, caps := caps }
      = [{ prev := p, rest := c :: r, caps := caps }] :=
  run_rep_zero_stuck _ _ _ (by simp [spanLen, h])

theorem run_spaces_one (p : Option Char) (c d : Char) (r : Str) (caps : List Str)
    (hc : isJsSpace c = true) (hd : isJsSpace d = false) :
    Re.spaces.run { prev := p, rest := c :: d :: r, caps := caps }
      = [{ prev := some c, rest := d :: r, caps := caps },
         { prev := p, rest := c :: d :: r, caps := caps }] := by
  rw [Re.spaces, run_rep]
  simp [spanLen, hc, hd, repCounts, List.range_succ, MState.advance]

theorem run_lit_self (w : Str) (p : Option Char) (r : Str) (caps : List Str) :
    (Re.lit true w).run { prev := p, rest := w ++ r, caps := caps }
      = [({ prev := p, rest := w ++ r, caps := caps } : MState).advance w.length] := by
  induction w generalizing p with
  | nil => rfl
  | cons x xs ih =>
    rw [Re.lit, run_seq, List.cons_append, run_char_cons]
    simp only [if_true, beq_self_eq_true, List.flatMap_cons, List.flatMap_nil, List.append_nil, ih]
    rfl

theorem run_hyphen_hit (p : Option Char) (r : Str) (caps : List Str) :
    (Re.char true '-').run { prev := p, rest := '-' :: r, caps := caps }
      = [{ prev := some '-', rest := r, caps := caps }] := rfl

theorem toLower_eq_hyphen {c : Char} (h : c ≠ '-') : (c.toLower == '-'.toLower) = false := by
  have e : ('-' : Char).toLower = '-' := by decide
  rw [e]
  have := (toLower_sep c).1
  by_contra hc
  have hc' : c.toLower = '-' := by simpa using hc
  rcases this (Or.inr hc') with h1 | h1
  · rw [h1] at hc'
    revert hc'
    decide
  · exact h h1

theorem run_hyphen_miss (p : Option Char) (c : Char) (r : Str) (caps : List Str) (h : c ≠ '-') :
    (Re.char true '-').run { prev := p, rest := c :: r, caps := caps } = [] := by
  simp only [run_char_cons, if_true, toLower_eq_hyphen h, Bool.false_eq_true, if_false]

theorem noteRe_run_prefix (t0 : Char) (t : Str) (h0 : isJsSpace t0 = false) :
    noteRe.run { prev := none, rest := "clickup - ".toList ++ t0 :: t, caps := [] } =
      noteTail.run { prev := some ' ', rest := t0 :: t, caps := [] } ++
      noteTail.run { prev := some '-', rest := ' ' :: t0 :: t, caps := [] } := by
  have hb : "clickup - ".toList ++ t0 :: t = "clickup".toList ++ (' ' :: '-' :: ' ' :: t0 :: t) := rfl
  have hsp : Re.spaces.run (MState.mk none ("clickup".toList ++ (' ' :: '-' :: ' ' :: t0 :: t)) [])
      = [MState.mk none ("clickup".toList ++ (' ' :: '-' :: ' ' :: t0 :: t)) []] :=
    run_spaces_stuck none 'c' _ [] (by decide)
  rw [hb, noteRe, run_cat_cons, run_bol_start, List.flatMap_singleton,
    run_cat_cons, hsp, List.flatMap_singleton,
    run_cat_cons, run_lit_self, List.flatMap_singleton]
  have hadv : (MState.mk none ("clickup".toList ++ (' ' :: '-' :: ' ' :: t0 :: t)) []).advance
      "clickup".toList.length = MState.mk (some 'p') (' ' :: '-' :: ' ' :: t0 :: t) [] := rfl
  have hA : (Re.cat [Re.char true '-', Re.spaces,
      .grp (.rep (fun c => !(c == '-' || c == '\n')) 1 none false), Re.spaces,
      Re.char true '-', Re.spaces, .grp (.rep (fun _ => true) 1 none true), .eol]).run
        (MState.mk (some ' ') ('-' :: ' ' :: t0 :: t) [])
      = noteTail.run (MState.mk (some ' ') (t0 :: t) []) ++
        noteTail.run (MState.mk (some '-') (' ' :: t0 :: t) []) := by
    rw [run_cat_cons, run_hyphen_hit, List.flatMap_singleton, run_cat_cons,
      run_spaces_one _ _ _ _ _ (by decide) h0]
    simp only [List.flatMap_cons, List.flatMap_nil, List.append_nil]
    rfl
  have hB : (Re.cat [Re.char true '-', Re.spaces,
      .grp (.rep (fun c => !(c == '-' || c == '\n')) 1 none false), Re.spaces,
      Re.char true '-', Re.spaces, .grp (.rep (fun _ => true) 1 none true), .eol]).run
        (MState.mk (some 'p') (' ' :: '-' :: ' ' :: t0 :: t) []) = [] := by
    rw [run_cat_cons, run_hyphen_miss _ _ _ _ (by decide), List.flatMap_nil]
  rw [hadv, run_cat_cons, run_spaces_one _ _ _ _ _ (by decide) (by decide)]
  simp only [List.flatMap_cons, List.flatMap_nil, List.append_nil]
  rw [hA, hB, List.append_nil]

/-- The class `[^-\n]` of the first group of `noteRe`. -/
theorem notHyphen_of_word {c : Char} (h : isWordChar c = true) :
    (!(c == '-' || c == '\n')) = true ∧ isJsSpace c = false ∧ c ≠ '-' := by
  have hn : (65 ≤ c.toNat ∧ c.toNat ≤ 90) ∨ (97 ≤ c.toNat ∧ c.toNat ≤ 122) ∨
      (48 ≤ c.toNat ∧ c.toNat ≤ 57) ∨ c.toNat = 95 := by
    simp only [isWordChar, isAsciiLower, isAsciiUpper, Bool.or_eq_true, Bool.and_eq_true,
      decide_eq_true_eq, beq_iff_eq] at h
    rcases h with ((h | h) | h) | h
    · exact Or.inr (Or.inl h)
    · exact Or.inl h
    · exact Or.inr (Or.inr (Or.inl h))
    · subst h
      exact Or.inr (Or.inr (Or.inr rfl))
  have h1 : c ≠ '-' := by
    intro e
    subst e
    revert hn
    decide
  have h2 : c ≠ '\n' := by
    intro e
    subst e
    revert hn
    decide
  refine ⟨by simp [h1, h2], ?_, h1⟩
  rw [← Bool.not_eq_true, isJsSpace_iff]
  omega

/-- After the order token, `\s*-\s*([\s\S]+)$` cannot start at a word character. -/
theorem run_afterToken_word (s : MState) (c : Char) (r : Str) (hr : s.rest = c :: r)
    (hc : isWordChar c = true) :
    (Re.cat [Re.spaces, Re.char true '-', Re.spaces, .grp (.rep (fun _ => true) 1 none true),
      .eol]).run s = [] := by
  obtain ⟨p, rest, caps⟩ := s
  simp only at hr
  subst hr
  obtain ⟨_, hsp, hne⟩ := notHyphen_of_word hc
  rw [run_cat_cons, run_spaces_stuck _ _ _ _ hsp, List.flatMap_singleton, run_cat_cons,
    run_hyphen_miss _ _ _ _ hne, List.flatMap_nil]

/-- After the order token, `\s*-\s*([\s\S]+)$` on `" - N"`: the second group
is `N` up to white space at its ends. -/
theorem run_afterToken_sep (s : MState) (n : Str) (hr : s.rest = ' ' :: '-' :: ' ' :: n) :
    ∃ m g2, ((Re.cat [Re.spaces, Re.char true '-', Re.spaces,
      .grp (.rep (fun _ => true) 1 none true), .eol]).run s).head? = some m ∧
      m.caps = s.caps ++ [g2] ∧ jsTrim g2 = jsTrim n := by
  obtain ⟨p, rest, caps⟩ := s
  simp only at hr
  subst hr
  obtain ⟨m, g2, hm, hcaps, htrim⟩ := run_spaces_restGroup
    (MState.mk (some '-') (' ' :: n) caps) ' ' n (by decide) rfl
  refine ⟨m, g2, ?_, hcaps, htrim⟩
  rw [run_cat_cons, run_spaces_one _ _ _ _ _ (by decide) (by decide)]
  simp only [List.flatMap_cons, List.flatMap_nil, List.append_nil]
  have hA : (Re.cat [Re.char true '-', Re.spaces, .grp (.rep (fun _ => true) 1 none true),
      .eol]).run (MState.mk (some ' ') ('-' :: ' ' :: n) caps)
      = (Re.cat [Re.spaces, .grp (.rep (fun _ => true) 1 none true), .eol]).run
          (MState.mk (some '-') (' ' :: n) caps) := by
    rw [run_cat_cons, run_hyphen_hit, List.flatMap_singleton]
  rw [hA, List.head?_append, hm]
  rfl

theorem head?_flatMap_range {α : Type} (F : Nat → List α) (n j : Nat) (hj : j < n)
    (h0 : ∀ i, i < j → F i = []) :
    ((List.range n).flatMap F).head? = (F j ++ ((List.range (n - j - 1)).flatMap
      (fun i => F (j + 1 + i)))).head? := by
  have e : n = j + ((n - j - 1) + 1) := by omega
  conv_lhs => rw [e, List.range_add, List.flatMap_append]
  have e0 : (List.range j).flatMap F = [] := by
    rw [List.flatMap_eq_nil_iff]
    intro i hi
    exact h0 i (List.mem_range.1 hi)
  rw [e0, List.nil_append, List.range_succ_eq_map, List.map_cons, List.flatMap_cons]
  simp [List.flatMap_map, Function.comp, Nat.add_assoc, Nat.add_comm 1]

theorem run_grp_rep (p : Char → Bool) (lo : Nat) (g : Bool) (st : MState) :
    (Re.grp (Re.rep p lo none g)).run st =
      (repCounts lo (spanLen p st.rest) g).map (fun k => st.capture (st.advance k)) := by
  simp only [Re.run, List.map_map]
  rfl

/-- The lazy first group of `noteRe` on a token of word characters followed
by `" - N"`: the group is the whole token. -/
theorem run_noteTail (s : MState) (t n : Str) (ht : t ≠ []) (hw : ∀ c ∈ t, isWordChar c = true)
    (hr : s.rest = t ++ ' ' :: '-' :: ' ' :: n) :
    ∃ m g2, (noteTail.run s).head? = some m ∧ m.caps = s.caps ++ [t, g2] ∧
      jsTrim g2 = jsTrim n := by
  have hlen : 1 ≤ t.length := by
    cases t with
    | nil => exact absurd rfl ht
    | cons c cs => simp
  have hspan : spanLen (fun c => !(c == '-' || c == '\n')) s.rest = t.length + 1 := by
    have e : s.rest = (t ++ [' ']) ++ ('-' :: ' ' :: n) := by rw [hr]; simp
    rw [e, spanLen_append]
    · simp [spanLen]
    · intro c hc
      rcases List.mem_append.1 hc with h | h
      · exact (notHyphen_of_word (hw c h)).1
      · rw [List.mem_singleton.1 h]
        decide
  -- the state reached with the token in the group
  have hdrop : (s.capture (s.advance (1 + (t.length - 1)))).rest = ' ' :: '-' :: ' ' :: n := by
    show (s.advance (1 + (t.length - 1))).rest = _
    rw [advance_rest, hr, show 1 + (t.length - 1) = t.length by omega, List.drop_left]
  obtain ⟨m, g2, hm, hcaps, htrim⟩ := run_afterToken_sep _ n hdrop
  refine ⟨m, g2, ?_, ?_, htrim⟩
  · rw [noteTail, run_cat_cons, run_grp_rep, hspan, repCounts_lazy 1 _ (Nat.le_add_left 1 _),
      List.map_map, List.flatMap_map, Nat.add_sub_cancel,
      head?_flatMap_range _ _ (t.length - 1) (by omega), List.head?_append]
    · simp only [Function.comp]
      rw [hm]
      rfl
    · intro i hi
      simp only [Function.comp]
      have hd : (s.capture (s.advance (1 + i))).rest
          = t.drop (1 + i) ++ ' ' :: '-' :: ' ' :: n := by
        show (s.advance (1 + i)).rest = _
        rw [advance_rest, hr, List.drop_append_of_le_length (by omega)]
      cases htd : t.drop (1 + i) with
      | nil =>
        have := congrArg List.length htd
        simp at this
        omega
      | cons c r =>
        have hc : c ∈ t := List.mem_of_mem_drop (by rw [htd]; exact List.mem_cons_self _ _)
        exact run_afterToken_word _ c _ (by rw [hd, htd]; rfl) (hw c hc)
  · rw [hcaps]
    have hd2 : (s.advance (1 + (t.length - 1))).rest = ' ' :: '-' :: ' ' :: n := hdrop
    simp only [MState.capture, advance_caps, hd2, hr, List.length_append, List.length_cons,
      List.append_assoc, List.singleton_append]
    congr 2
    rw [show t.length + (n.length + 1 + 1 + 1) - (n.length + 1 + 1 + 1) = t.length by omega,
      List.take_left]

/-! ## Order tokens -/

/-- A global replacement changes nothing when the expression matches at no
position of the input. -/
theorem replaceAux_noop (re : Re) (repl : Str) (s : Str)
    (h : ∀ prev s', s' <:+ s → re.exec { prev := prev, rest := s', caps := [] } = none) :
    ∀ fuel prev, s.length < fuel → Re.replaceAux re repl fuel prev s = s := by
  induction s with
  | nil =>
    intro fuel prev hf
    cases fuel with
    | zero => rfl
    | succ f => simp [Re.replaceAux, h prev [] (List.suffix_refl _)]
  | cons c cs ih =>
    intro fuel prev hf
    cases fuel with
    | zero => rfl
    | succ f =>
      have hcs := ih (fun p s' hs' => h p s' (hs'.trans (List.suffix_cons _ _)))
        f (some c) (by simp at hf; omega)
      simp [Re.replaceAux, h prev (c :: cs) (List.suffix_refl _), hcs]

theorem replaceAll_noop (re : Re) (repl : Str) (s : Str)
    (h : ∀ prev s', s' <:+ s → re.exec { prev := prev, rest := s', caps := [] } = none) :
    re.replaceAll repl s = s :=
  replaceAux_noop re repl s h _ _ (Nat.lt_succ_self _)

theorem exec_char_first (ci : Bool) (x : Char) (rs : List Re) (st : MState)
    (h : ∀ c ∈ st.rest.head?, (if ci then c.toLower == x.toLower else c == x) = false) :
    (Re.cat (Re.char ci x :: rs)).exec st = none := by
  rw [Re.exec, run_cat_cons, run_char_ne ci x st h]
  rfl

theorem word_facts {c : Char} (h : isWordChar c = true) :
    (c == '<') = false ∧ (c == '&') = false ∧
    (c == '[' || c == ']' || c == '(' || c == ')' || c == '{' || c == '}' ||
      c == '<' || c == '>' || c == '【' || c == '】') = false := by
  have hn : (65 ≤ c.toNat ∧ c.toNat ≤ 90) ∨ (97 ≤ c.toNat ∧ c.toNat ≤ 122) ∨
      (48 ≤ c.toNat ∧ c.toNat ≤ 57) ∨ c.toNat = 95 := by
    simp only [isWordChar, isAsciiLower, isAsciiUpper, Bool.or_eq_true, Bool.and_eq_true,
      decide_eq_true_eq, beq_iff_eq] at h
    rcases h with ((h | h) | h) | h
    · exact Or.inr (Or.inl h)
    · exact Or.inl h
    · exact Or.inr (Or.inr (Or.inl h))
    · subst h
      exact Or.inr (Or.inr (Or.inr rfl))
  have key : ∀ d : Char, ¬((65 ≤ d.toNat ∧ d.toNat ≤ 90) ∨ (97 ≤ d.toNat ∧ d.toNat ≤ 122) ∨
      (48 ≤ d.toNat ∧ d.toNat ≤ 57) ∨ d.toNat = 95) → (c == d) = false := by
    intro d hd
    rw [beq_eq_false_iff_ne]
    intro e
    exact hd (e ▸ hn)
  have k1 := key '<' (by decide)
  have k2 := key '&' (by decide)
  have k3 := key '[' (by decide)
  have k4 := key ']' (by decide)
  have k5 := key '(' (by decide)
  have k6 := key ')' (by decide)
  have k7 := key '{' (by decide)
  have k8 := key '}' (by decide)
  have k9 := key '>' (by decide)
  have k10 := key '【' (by decide)
  have k11 := key '】' (by decide)
  simp [k1, k2, k3, k4, k5, k6, k7, k8, k9, k10, k11]

theorem search_of_exec (re : Re) (prev : Option Char) (s : Str) (m : MState)
    (h : re.exec { prev := prev, rest := s, caps := [] } = some m) :
    re.search prev s = some ([], m) := by
  cases s with
  | nil => simp [Re.search, h]
  | cons c cs => simp [Re.search, h]

/-- A token of word characters is its own canonical item name. -/
theorem normalizeOrderToken_word (t : Str) (hw : ∀ c ∈ t, isWordChar c = true) :
    normalizeOrderToken_ t = t := by
  have hsuf : ∀ s', s' <:+ t → ∀ c ∈ s'.head?, isWordChar c = true := by
    intro s' hs c hc
    exact hw c (hs.subset (List.mem_of_mem_head? hc))
  have e1 : reAngleTag.replaceAll [] t = t := by
    apply replaceAll_noop
    intro prev s' hs
    exact exec_char_first false '<' _ _ (fun c hc => by
      simpa using (word_facts (hsuf s' hs c hc)).1)
  have e2 : reBracket.replaceAll [' '] t = t := by
    apply replaceAll_noop
    intro prev s' hs
    cases s' with
    | nil => rfl
    | cons c cs =>
      have := (word_facts (hsuf (c :: cs) hs c (by simp))).2.2
      simp only [reBracket, Re.exec, Re.run, this]
      rfl
  have e3 : reEntity.replaceAll [' '] t = t := by
    apply replaceAll_noop
    intro prev s' hs
    exact exec_char_first false '&' _ _ (fun c hc => by
      simpa using (word_facts (hsuf s' hs c hc)).2.1)
  have e4 : reNonToken.replaceAll [' '] t = t := by
    apply replaceAll_noop
    intro prev s' hs
    have hz : spanLen (fun c => !(isWordChar c || c == '-')) s' = 0 := by
      cases s' with
      | nil => rfl
      | cons c cs => simp [spanLen, hsuf (c :: cs) hs c (by simp)]
    rw [reNonToken, Re.exec, run_rep, hz]
    rfl
  have hns : ∀ c ∈ t, isJsSpace c = false := fun c hc => (notHyphen_of_word (hw c hc)).2.1
  have e5 : jsTrim t = t := by
    unfold jsTrim
    have : t.dropWhile isJsSpace = t := by
      cases t with
      | nil => rfl
      | cons c cs => exact List.dropWhile_cons_of_neg (by simp [hns c (List.mem_cons_self _ _)])
    rw [this, List.rdropWhile_eq_self_iff]
    intro hne
    simp [hns _ (List.getLast_mem hne)]
  have e6 : firstToken t = t := by
    unfold firstToken
    rw [List.takeWhile_eq_self_iff]
    intro c hc
    simp [hns c hc]
  unfold normalizeOrderToken_
  simp only [e1, e2, e3, e4, e5, e6]

/-- The parse of `"clickup - T - N"` for a token `T` of word characters. -/
theorem parseZendeskNote_token (t n : Str) (ht : t ≠ []) (hw : ∀ c ∈ t, isWordChar c = true) :
    parseZendeskNote ("clickup - ".toList ++ t ++ " - ".toList ++ n) = some (t, jsTrim n) := by
  cases t with
  | nil => exact absurd rfl ht
  | cons t0 t' =>
    have h0 : isJsSpace t0 = false := (notHyphen_of_word (hw t0 (List.mem_cons_self _ _))).2.1
    obtain ⟨m, g2, hm, hcaps, htrim⟩ := run_noteTail
      (MState.mk (some ' ') ((t0 :: t') ++ ' ' :: '-' :: ' ' :: n) []) (t0 :: t') n ht hw rfl
    have hbody : "clickup - ".toList ++ (t0 :: t') ++ " - ".toList ++ n
        = "clickup - ".toList ++ t0 :: (t' ++ ' ' :: '-' :: ' ' :: n) := by
      simp
    have hexec : noteRe.exec (MState.mk none ("clickup - ".toList ++ t0 ::
        (t' ++ ' ' :: '-' :: ' ' :: n)) []) = some m := by
      rw [Re.exec, noteRe_run_prefix t0 _ h0, List.head?_append]
      have : (noteTail.run (MState.mk (some ' ') (t0 :: (t' ++ ' ' :: '-' :: ' ' :: n)) [])).head?
          = some m := hm
      rw [this]
      rfl
    have hgroups : noteRe.matchGroups ("clickup - ".toList ++ t0 ::
        (t' ++ ' ' :: '-' :: ' ' :: n)) = some [t0 :: t', g2] := by
      rw [Re.matchGroups, search_of_exec _ _ _ _ hexec]
      simp only [Option.map_some', hcaps, List.nil_append]
    rw [hbody, parseZendeskNote, hgroups]
    simp only [normalizeOrderToken_word _ hw, htrim]

/-- C5, as stated, fails on its own example: the first group of `noteRe`
cannot hold a hyphen, so `"clickup - ORD-1234 - please expedite"` is parsed to
the item name `ORD` and the note text `1234 - please expedite`. -/
theorem C5_hyphen_token_is_cut :
    parseZendeskNote "clickup - ORD-1234 - please expedite".toList
      = some ("ORD".toList, "1234 - please expedite".toList) ∧
    parseZendeskNote "clickup - ORD-1234 - please expedite".toList
      ≠ some ("ORD-1234".toList, "please expedite".toList) := by
  decide

/-- C5, amended. For every non-empty order token `T` made of ASCII letters,
digits and underscores (no hyphen) and every note text `N`, the note body
`"clickup - T - N"` is parsed to the item name `T` and the note text `N`
trimmed; in particular `"clickup - ORD1234 - please expedite"` is parsed to
`ORD1234` and `please expedite`. -/
theorem C5_note_parse (t n : Str) (ht : t ≠ []) (hw : ∀ c ∈ t, isWordChar c = true) :
    parseZendeskNote ("clickup - ".toList ++ t ++ " - ".toList ++ n) = some (t, jsTrim n) ∧
    parseZendeskNote "clickup - ORD1234 - please expedite".toList
      = some ("ORD1234".toList, "please expedite".toList) :=
  ⟨parseZendeskNote_token t n ht hw, by decide⟩

/-- C5 amended at the token `A_17` and the note `"  call back \n"`. -/
theorem C5_note_parse_witness :
    parseZendeskNote ("clickup - ".toList ++ "A_17".toList ++ " - ".toList ++ "  call back \n".toList)
      = some ("A_17".toList, "call back".toList) :=
  (C5_note_parse "A_17".toList "  call back \n".toList (by decide) (by decide)).1.trans
    (by decide)

/-! ## Notes that are rejected or skipped -/

theorem zdFixTicketUrl_comment_body (p : ZdPayload) :
    (zdFixTicketUrl p).comment_body = p.comment_body := by
  unfold zdFixTicketUrl
  split_ifs <;> rfl

theorem zdMissingFields_fix (p : ZdPayload) :
    zdMissingFields (zdFixTicketUrl p) = zdMissingFields p := by
  unfold zdFixTicketUrl
  split_ifs with h
  · have h1 : truthy p.ticket_url = true := h.1
    have h2 : truthy (some ("https://".toList ++ p.ticket_url.getD [])) = true := rfl
    simp only [zdMissingFields, h1, h2]
  · rfl

theorem handleZendeskWebhook_bad_note (up : Char → List Char) (env : Env) (p : ZdPayload)
    (w : World) (hreq : zdMissingFields p = [])
    (hown : isOurOwnZendeskNote_ (p.comment_body.getD []) = false)
    (hfmt : parseZendeskNote (p.comment_body.getD []) = none) :
    handleZendeskWebhook_ up env p w = (badNoteResponse (p.comment_body.getD []), w) := by
  unfold handleZendeskWebhook_
  simp only [zdMissingFields_fix, hreq, zdFixTicketUrl_comment_body, hown, hfmt]
  rfl

theorem handleZendeskWebhook_own_note (up : Char → List Char) (env : Env) (p : ZdPayload)
    (w : World) (hreq : zdMissingFields p = [])
    (hown : isOurOwnZendeskNote_ (p.comment_body.getD []) = true) :
    handleZendeskWebhook_ up env p w = (skippedResponse, w) := by
  unfold handleZendeskWebhook_
  simp only [zdMissingFields_fix, hreq, zdFixTicketUrl_comment_body, hown]
  rfl

theorem mem_repCounts (lo n k : Nat) (g : Bool) : k ∈ repCounts lo n g ↔ lo ≤ k ∧ k ≤ n := by
  unfold repCounts
  by_cases h : n < lo
  · rw [if_pos h]
    simp only [List.not_mem_nil, false_iff]
    omega
  · rw [if_neg h, List.mem_map]
    cases g
    · constructor
      · rintro ⟨i, hi, rfl⟩
        rw [List.mem_range] at hi
        simp only [Bool.false_eq_true, if_false]
        omega
      · rintro ⟨h1, h2⟩
        refine ⟨k - lo, List.mem_range.2 (by omega), ?_⟩
        simp only [Bool.false_eq_true, if_false]
        omega
    · constructor
      · rintro ⟨i, hi, rfl⟩
        rw [List.mem_range] at hi
        simp only [if_true]
        omega
      · rintro ⟨h1, h2⟩
        refine ⟨n - k, List.mem_range.2 (by omega), ?_⟩
        simp only [if_true]
        omega

theorem advance_extends (r : Str) (k : Nat) : ∀ (st ste : MState), MState.Extends r st ste →
    k ≤ st.rest.length → MState.Extends r (st.advance k) (ste.advance k) := by
  induction k with
  | zero => intro st ste h _; exact h
  | succ k ih =>
    intro st ste h hk
    obtain ⟨p, rest, caps⟩ := st
    obtain ⟨pe, reste, capse⟩ := ste
    obtain ⟨h1, h2⟩ := h
    change reste = rest ++ r at h1
    change pe = p at h2
    change k + 1 ≤ rest.length at hk
    cases rest with
    | nil => simp at hk
    | cons c cs =>
      subst h1
      simp only [MState.advance, List.cons_append]
      refine ih (MState.mk (some c) cs caps) (MState.mk (some c) (cs ++ r) capse) ⟨rfl, rfl⟩ ?_
      change k ≤ cs.length
      simp only [List.length_cons] at hk
      omega

theorem spanLen_append_ge (p : Char → Bool) (a b : Str) : spanLen p a ≤ spanLen p (a ++ b) := by
  induction a with
  | nil => simp [spanLen]
  | cons c cs ih =>
    rw [List.cons_append]
    simp only [spanLen]
    split_ifs
    · exact Nat.succ_le_succ ih
    · exact Nat.le_refl _

/-- A match of a local expression is still a match when the input goes on. -/
theorem run_extends (r : Str) (re : Re) (hl : re.isLocal = true) :
    ∀ (st ste : MState), MState.Extends r st ste →
      ∀ s' ∈ re.run st, ∃ s'' ∈ re.run ste, MState.Extends r s' s'' := by
  induction re with
  | eps =>
    intro st ste h s' hs
    simp only [Re.run, List.mem_singleton] at hs ⊢
    subst hs
    exact ⟨ste, rfl, h⟩
  | chr p =>
    intro st ste h s' hs
    obtain ⟨pv, rest, caps⟩ := st
    obtain ⟨pe, reste, capse⟩ := ste
    obtain ⟨h1, h2⟩ := h
    change reste = rest ++ r at h1
    change pe = pv at h2
    subst h1
    cases rest with
    | nil => simp [Re.run] at hs
    | cons c cs =>
      simp only [Re.run] at hs
      split_ifs at hs with hp
      · simp only [List.mem_singleton] at hs
        subst hs
        exact ⟨MState.mk (some c) (cs ++ r) capse, by simp [Re.run, hp], rfl, rfl⟩
      · cases hs
  | rep p lo hi g =>
    intro st ste h s' hs
    simp only [Re.run, List.mem_map] at hs ⊢
    obtain ⟨k, hk, rfl⟩ := hs
    rw [mem_repCounts] at hk
    have hle := spanLen_append_ge p st.rest r
    have hlen := spanLen_le p st.rest
    refine ⟨_, ⟨k, ?_, rfl⟩, advance_extends r k st ste h ?_⟩
    · rw [mem_repCounts, h.1]
      cases hi with
      | none =>
        simp only at hk ⊢
        omega
      | some hmax =>
        simp only at hk ⊢
        omega
    · cases hi with
      | none =>
        simp only at hk
        omega
      | some hmax =>
        simp only at hk
        omega
  | seq a b iha ihb =>
    intro st ste h s' hs
    simp only [Re.isLocal, Bool.and_eq_true] at hl
    simp only [Re.run, List.mem_flatMap] at hs ⊢
    obtain ⟨s1, hs1, hs2⟩ := hs
    obtain ⟨e1, he1, hx1⟩ := iha hl.1 st ste h s1 hs1
    obtain ⟨e2, he2, hx2⟩ := ihb hl.2 s1 e1 hx1 s' hs2
    exact ⟨e2, ⟨e1, he1, he2⟩, hx2⟩
  | alt a b iha ihb =>
    intro st ste h s' hs
    simp only [Re.isLocal, Bool.and_eq_true] at hl
    simp only [Re.run, List.mem_append] at hs ⊢
    rcases hs with hs | hs
    · obtain ⟨e, he, hx⟩ := iha hl.1 st ste h s' hs
      exact ⟨e, Or.inl he, hx⟩
    · obtain ⟨e, he, hx⟩ := ihb hl.2 st ste h s' hs
      exact ⟨e, Or.inr he, hx⟩
  | grp a iha =>
    intro st ste h s' hs
    simp only [Re.isLocal] at hl
    simp only [Re.run, List.mem_map] at hs ⊢
    obtain ⟨s1, hs1, rfl⟩ := hs
    obtain ⟨e, he, hx⟩ := iha hl st ste h s1 hs1
    exact ⟨_, ⟨e, he, rfl⟩, hx⟩
  | bol =>
    intro st ste h s' hs
    simp only [Re.run] at hs ⊢
    rw [h.2]
    split_ifs at hs ⊢ with hp
    · simp only [List.mem_singleton] at hs
      subst hs
      exact ⟨ste, List.mem_singleton.2 rfl, h⟩
    · cases hs
  | eol => cases hl
  | wordb => cases hl

/-- A text recognised by a local expression at its start is recognised
whatever follows it. -/
theorem test_extends (re : Re) (hl : re.isLocal = true) (m r : Str)
    (h : (re.exec { prev := none, rest := m, caps := [] }).isSome = true) :
    re.test (m ++ r) = true := by
  obtain ⟨s', hs'⟩ := Option.isSome_iff_exists.1 h
  have hmem : s' ∈ re.run { prev := none, rest := m, caps := [] } :=
    List.mem_of_mem_head? hs'
  obtain ⟨e, he, _⟩ := run_extends r re hl (MState.mk none m []) (MState.mk none (m ++ r) [])
    ⟨rfl, rfl⟩ s' hmem
  cases hrun : re.run { prev := none, rest := m ++ r, caps := [] } with
  | nil => rw [hrun] at he; cases he
  | cons x xs =>
    have hexec : re.exec { prev := none, rest := m ++ r, caps := [] } = some x := by
      rw [Re.exec, hrun]
      rfl
    rw [Re.test, search_of_exec _ _ _ _ hexec]
    rfl

/-- Every marker is recognised by one of the expressions of
`isOurOwnZendeskNote_`, all of which are local. -/
theorem engineNoteMarkers_recognised :
    ∀ m ∈ engineNoteMarkers, ∃ re ∈ ownNoteRes, re.isLocal = true ∧
      (re.exec { prev := none, rest := m, caps := [] }).isSome = true := by
  decide

theorem isOurOwnZendeskNote_of_marker (body : Str) (m : Str) (hm : m ∈ engineNoteMarkers)
    (hpre : m <+: jsTrim body) : isOurOwnZendeskNote_ body = true := by
  obtain ⟨r, hr⟩ := hpre
  obtain ⟨re, hre, hl, hex⟩ := engineNoteMarkers_recognised m hm
  unfold isOurOwnZendeskNote_
  rw [List.any_eq_true]
  exact ⟨re, hre, by rw [← hr]; exact test_extends re hl m r hex⟩

/-- C6. A payload with all required fields whose comment body is not a note
of the engine and does not match `clickup - <ORDER_TOKEN> - <free text>` (the
expression `noteRe`) is answered with `ok = false`, reason `bad note format`,
and nothing else happens: no call to either platform, and the cache and the
script properties (Correlation Store, StatusState, Dedup Ledger) are as
before. -/
theorem C6_bad_note_rejected (up : Char → List Char) (env : Env) (p : ZdPayload) (w : World)
    (hreq : zdMissingFields p = [])
    (hown : isOurOwnZendeskNote_ (p.comment_body.getD []) = false)
    (hfmt : parseZendeskNote (p.comment_body.getD []) = none) :
    (handleZendeskWebhook_ up env p w).1.ok = false ∧
    (handleZendeskWebhook_ up env p w).1.reason = some "bad note format".toList ∧
    (handleZendeskWebhook_ up env p w).2.calls = w.calls ∧
    (handleZendeskWebhook_ up env p w).2.store = w.store := by
  rw [handleZendeskWebhook_bad_note up env p w hreq hown hfmt]
  exact ⟨rfl, rfl, rfl, rfl⟩

/-- C6 at a payload whose comment reads `"please call the customer"`. -/
theorem C6_bad_note_rejected_witness :
    (handleZendeskWebhook_ asciiUp quietEnv
      { ticket_id := some "7".toList, ticket_url := some "a.zendesk.com/agent/tickets/7".toList,
        ops_reason := some "fwd delay".toList,
        comment_body := some "please call the customer".toList,
        comment_id := some "9".toList, agent_name := none, account := none } emptyWorld).1.ok
      = false ∧
    (handleZendeskWebhook_ asciiUp quietEnv
      { ticket_id := some "7".toList, ticket_url := some "a.zendesk.com/agent/tickets/7".toList,
        ops_reason := some "fwd delay".toList,
        comment_body := some "please call the customer".toList,
        comment_id := some "9".toList, agent_name := none, account := none } emptyWorld).1.reason
      = some "bad note format".toList ∧
    (handleZendeskWebhook_ asciiUp quietEnv
      { ticket_id := some "7".toList, ticket_url := some "a.zendesk.com/agent/tickets/7".toList,
        ops_reason := some "fwd delay".toList,
        comment_body := some "please call the customer".toList,
        comment_id := some "9".toList, agent_name := none, account := none } emptyWorld).2.calls
      = emptyWorld.calls ∧
    (handleZendeskWebhook_ asciiUp quietEnv
      { ticket_id := some "7".toList, ticket_url := some "a.zendesk.com/agent/tickets/7".toList,
        ops_reason := some "fwd delay".toList,
        comment_body := some "please call the customer".toList,
        comment_id := some "9".toList, agent_name := none, account := none } emptyWorld).2.store
      = emptyWorld.store :=
  C6_bad_note_rejected asciiUp quietEnv _ emptyWorld (by decide) (by decide) (by decide)

/-- C7. Loop prevention on the ticketing side: when the comment body of a
payload with all required fields begins, once trimmed, with one of the
markers of the engine's own notes, `isOurOwnZendeskNote_` is true and
`handleZendeskWebhook_` answers `ok = true, skipped = true` without any call
to a platform (no task created or updated, no comment posted) and without any
write to the cache or the script properties. -/
theorem C7_own_note_skipped (up : Char → List Char) (env : Env) (p : ZdPayload) (w : World)
    (m : Str) (hreq : zdMissingFields p = []) (hm : m ∈ engineNoteMarkers)
    (hpre : m <+: jsTrim (p.comment_body.getD [])) :
    isOurOwnZendeskNote_ (p.comment_body.getD []) = true ∧
    (handleZendeskWebhook_ up env p w).1.ok = true ∧
    (handleZendeskWebhook_ up env p w).1.skipped = true ∧
    (handleZendeskWebhook_ up env p w).2.calls = w.calls ∧
    (handleZendeskWebhook_ up env p w).2.store = w.store := by
  have hown := isOurOwnZendeskNote_of_marker _ m hm hpre
  rw [handleZendeskWebhook_own_note up env p w hreq hown]
  exact ⟨hown, rfl, rfl, rfl, rfl⟩

/-- C7 at a payload whose comment is a mirrored comment of the engine,
`"  ClickUp update | A1 ..."`. -/
theorem C7_own_note_skipped_witness :
    isOurOwnZendeskNote_ "  ClickUp update | A1\nComment added by: Ann".toList = true ∧
    (handleZendeskWebhook_ asciiUp quietEnv
      { ticket_id := some "7".toList, ticket_url := some "a.zendesk.com/agent/tickets/7".toList,
        ops_reason := some "fwd delay".toList,
        comment_body := some "  ClickUp update | A1\nComment added by: Ann".toList,
        comment_id := some "9".toList, agent_name := none, account := none } emptyWorld).1.skipped
      = true ∧
    (handleZendeskWebhook_ asciiUp quietEnv
      { ticket_id := some "7".toList, ticket_url := some "a.zendesk.com/agent/tickets/7".toList,
        ops_reason := some "fwd delay".toList,
        comment_body := some "  ClickUp update | A1\nComment added by: Ann".toList,
        comment_id := some "9".toList, agent_name := none, account := none } emptyWorld).2.calls
      = [] :=
  have h := C7_own_note_skipped asciiUp quietEnv
    { ticket_id := some "7".toList, ticket_url := some "a.zendesk.com/agent/tickets/7".toList,
      ops_reason := some "fwd delay".toList,
      comment_body := some "  ClickUp update | A1\nComment added by: Ann".toList,
      comment_id := some "9".toList, agent_name := none, account := none } emptyWorld
    "ClickUp update |".toList (by decide) (by decide) (by decide)
  ⟨h.1, h.2.2.1, h.2.2.2.1⟩

/-! ## The live-fetch path -/

/-- C8 fails on the code. The note `sampleNotePayload` makes
`handleZendeskWebhook_` create the task `t1` and post the context comment
(header `ClickUp task created`, then `From Zendesk #7`, ...) on it; when the
task board returns that comment, `fetchLatestHumanClickUpComment_` does not
skip it: the test `/^\s*From Zendesk #/i` is anchored at the start of the
cleaned text, which begins with the header line, so the comment of the engine
is returned as the latest human comment. -/
theorem C8_context_comment_is_returned :
    Call.addClickUpTaskComment (some "t1".toList) sampleContextComment
      ∈ (handleZendeskWebhook_ asciiUp sampleEnv sampleNotePayload emptyWorld).2.calls ∧
    (fetchLatestHumanClickUpComment_ sampleEnv (some "t1".toList)
      (handleZendeskWebhook_ asciiUp sampleEnv sampleNotePayload emptyWorld).2).1
      = some { id := "c1".toList,
               text := ("ClickUp task created From Zendesk #7 By: Ann Lee Ops Reason: fwd delay " ++
                 "Note: hi Link: https://a.zendesk.com/agent/tickets/7 Zendesk Comment ID: 9").toList,
               userName := "bridge".toList,
               created := some 1700000000000,
               attachments := [] } := by
  decide!

/-! ## Links found in the description -/

/-- The leftmost match: when the expression matches at no position before
`j` and matches at `j`, the search reports the match at `j`. -/
theorem search_at (re : Re) (j : Nat) : ∀ (s : Str) (prev0 : Option Char) (m : MState),
    j ≤ s.length →
    (∀ k, k < j →
      re.exec (MState.mk (if k = 0 then prev0 else prevAt s k) (s.drop k) []) = none) →
    re.exec (MState.mk (if j = 0 then prev0 else prevAt s j) (s.drop j) []) = some m →
    re.search prev0 s = some (s.take j, m) := by
  induction j with
  | zero =>
    intro s prev0 m _ _ hm
    simp only [if_true, List.drop_zero] at hm
    rw [search_of_exec _ _ _ _ hm]
    rfl
  | succ j ih =>
    intro s prev0 m hlen hnone hm
    cases s with
    | nil => simp at hlen
    | cons c cs =>
      have h0 := hnone 0 (Nat.succ_pos _)
      simp only [if_true, List.drop_zero] at h0
      rw [Re.search, h0]
      have hprev : ∀ k, k ≤ cs.length →
          (if k = 0 then some c else prevAt cs k) = prevAt (c :: cs) (k + 1) := by
        intro k hk
        cases k with
        | zero => rfl
        | succ k =>
          simp only [prevAt, Nat.succ_ne_zero, if_false, List.take_succ_cons]
          cases hcs : cs.take (k + 1) with
          | nil =>
            cases cs with
            | nil => simp at hk
            | cons d ds => simp at hcs
          | cons d ds => rfl
      have hj : j ≤ cs.length := by simp at hlen; omega
      have := ih cs (some c) m hj
        (fun k hk => by
          have := hnone (k + 1) (Nat.succ_lt_succ hk)
          simp only [Nat.succ_ne_zero, if_false, List.drop_succ_cons] at this
          rw [hprev k (by omega)]
          exact this)
        (by
          simp only [Nat.succ_ne_zero, if_false, List.drop_succ_cons] at hm
          rw [hprev j hj]
          exact hm)
      rw [this]
      rfl

theorem run_lit_at (w : Str) (st : MState) (r : Str) (h : st.rest = w ++ r) :
    (Re.lit true w).run st = [st.advance w.length] := by
  obtain ⟨p, rest, caps⟩ := st
  change rest = w ++ r at h
  subst h
  exact run_lit_self w p r caps

theorem isSubdomainChar_dot : isSubdomainChar '.' = false := by decide

/-- A greedy group over a class takes the longest run first. -/
theorem run_grp_greedy (p : Char → Bool) (st : MState) (a b : Str) (hrest : st.rest = a ++ b)
    (ha : a ≠ []) (hall : ∀ c ∈ a, p c = true) (hb : ∀ c ∈ b.head?, p c = false) :
    ∃ X l, (Re.grp (.rep p 1 none true)).run st = X :: l ∧ X.rest = b ∧
      X.caps = st.caps ++ [a] := by
  have hlen : 1 ≤ a.length := by
    cases a with
    | nil => exact absurd rfl ha
    | cons c cs => simp
  have hspan : spanLen p st.rest = a.length := by
    rw [hrest, spanLen_append hall]
    cases b with
    | nil => rfl
    | cons c cs => simp [spanLen, hb c (by simp)]
  refine ⟨st.capture (st.advance a.length),
    ((List.range (a.length - 1)).map (fun i => a.length - (i + 1))).map
      (fun k => st.capture (st.advance k)), ?_, ?_, ?_⟩
  · rw [run_grp_rep, hspan, repCounts_greedy 1 _ hlen, List.map_cons]
  · show (st.advance a.length).rest = b
    rw [advance_rest, hrest, List.drop_left]
  · show (st.advance a.length).caps ++ [st.rest.take (st.rest.length -
      (st.advance a.length).rest.length)] = st.caps ++ [a]
    rw [advance_caps, advance_rest, hrest, List.drop_left, List.length_append,
      Nat.add_sub_cancel, List.take_left]

/-- `reTicketUrl` at the start of a ticket URL that is not followed by a
digit: the groups are the subdomain and the ticket id. -/
theorem exec_reTicketUrl (prev : Option Char) (s n post : Str) (hs : s ≠ [])
    (hsc : ∀ c ∈ s, isSubdomainChar c = true) (hn : n ≠ [])
    (hnd : ∀ c ∈ n, isDigit c = true) (hpost : ∀ c ∈ post.head?, isDigit c = false) :
    ∃ m, reTicketUrl.exec (MState.mk prev ("https://".toList ++ s ++
        ".zendesk.com/agent/tickets/".toList ++ n ++ post) []) = some m ∧ m.caps = [s, n] := by
  have hbody : "https://".toList ++ s ++ ".zendesk.com/agent/tickets/".toList ++ n ++ post
      = "https://".toList ++ (s ++ (".zendesk.com/agent/tickets/".toList ++ (n ++ post))) := by
    simp only [List.append_assoc]
  have hadv : (MState.mk prev ("https://".toList ++
      (s ++ (".zendesk.com/agent/tickets/".toList ++ (n ++ post)))) []).advance
        "https://".toList.length
      = MState.mk (some '/') (s ++ (".zendesk.com/agent/tickets/".toList ++ (n ++ post))) [] := rfl
  obtain ⟨X, l1, hrun1, hXrest, hXcaps⟩ := run_grp_greedy isSubdomainChar
    (MState.mk (some '/') (s ++ (".zendesk.com/agent/tickets/".toList ++ (n ++ post))) [])
    s (".zendesk.com/agent/tickets/".toList ++ (n ++ post)) rfl hs hsc
    (fun c hc => by
      have : c = '.' := by
        simp only [String.toList, List.cons_append, List.head?_cons, Option.mem_def,
          Option.some.injEq] at hc
        exact hc.symm
      rw [this]
      exact isSubdomainChar_dot)
  have hYrest : (X.advance ".zendesk.com/agent/tickets/".toList.length).rest = n ++ post := by
    rw [advance_rest, hXrest]
    exact List.drop_left _ _
  obtain ⟨Z, l2, hrun2, _, hZcaps⟩ := run_grp_greedy isDigit
    (X.advance ".zendesk.com/agent/tickets/".toList.length) n post hYrest hn hnd hpost
  refine ⟨Z, ?_, ?_⟩
  · rw [hbody, Re.exec, reTicketUrl, run_cat_cons, run_lit_self, List.flatMap_singleton, hadv,
      run_cat_cons, hrun1, List.flatMap_cons, run_cat_cons, run_lit_at _ X _ hXrest,
      List.flatMap_singleton, run_cat_cons, hrun2, List.flatMap_cons, run_cat_nil]
    rfl
  · rw [hZcaps, advance_caps, hXcaps]
    rfl

theorem buildZendeskTicketUrl_eq (s n : Str) (hs : s ≠ []) (hn : n ≠ []) :
    buildZendeskTicketUrl_ s n
      = "https://".toList ++ s ++ ".zendesk.com/agent/tickets/".toList ++ n := by
  unfold buildZendeskTicketUrl_
  rw [if_pos ⟨hs, hn⟩]

/-- A ticket URL in a text, with no match of `reTicketUrl` before it and no
digit right after it, is what `extractZendeskInfo_` finds. -/
theorem extractZendeskInfo_of_url (s n pre post : Str) (hs : s ≠ [])
    (hsc : ∀ c ∈ s, isSubdomainChar c = true) (hn : n ≠ [])
    (hnd : ∀ c ∈ n, isDigit c = true) (hpost : ∀ c ∈ post.head?, isDigit c = false)
    (hfirst : ∀ k, k < pre.length →
      reTicketUrl.exec (MState.mk (prevAt (pre ++ buildZendeskTicketUrl_ s n ++ post) k)
        ((pre ++ buildZendeskTicketUrl_ s n ++ post).drop k) []) = none) :
    extractZendeskInfo_ (some (pre ++ buildZendeskTicketUrl_ s n ++ post))
      = some { subdomain := s, ticketId := n, ticketUrl := buildZendeskTicketUrl_ s n,
               source := "description".toList } := by
  have hif : ∀ (t : Str) (k : Nat), (if k = 0 then none else prevAt t k) = prevAt t k := by
    intro t k
    cases k with
    | zero => rfl
    | succ k => rfl
  have hdrop : (pre ++ buildZendeskTicketUrl_ s n ++ post).drop pre.length
      = "https://".toList ++ s ++ ".zendesk.com/agent/tickets/".toList ++ n ++ post := by
    rw [List.append_assoc, List.drop_left, buildZendeskTicketUrl_eq s n hs hn]
  obtain ⟨m, hm, hcaps⟩ := exec_reTicketUrl
    (prevAt (pre ++ buildZendeskTicketUrl_ s n ++ post) pre.length) s n post hs hsc hn hnd hpost
  have hsearch := search_at reTicketUrl pre.length (pre ++ buildZendeskTicketUrl_ s n ++ post)
    none m (by simp only [List.length_append]; omega)
    (fun k hk => by rw [hif]; exact hfirst k hk)
    (by rw [hif, hdrop]; exact hm)
  unfold extractZendeskInfo_
  rw [Option.getD_some, Re.matchGroups, hsearch]
  simp only [Option.map_some', hcaps, buildZendeskTicketUrl_eq s n hs hn, List.append_assoc]

theorem cuHandleLinked_reason (up : Char → List Char) (env : Env) (p : CuPayload) (link : ZdLink)
    (w : World) : (cuHandleLinked up env p link w).1.reason = none := by
  unfold cuHandleLinked
  simp only []
  split
  · rfl
  · rfl

theorem handleClickUpWebhook_of_description (up : Char → List Char) (env : Env) (p : CuPayload)
    (w : World) (task : CuTask) (text : Str) (link : ZdLink) (ht : p.task = some task)
    (hd : task.description = some text) (hl : extractZendeskInfo_ (some text) = some link) :
    handleClickUpWebhook_ up env p w = cuHandleLinked up env p link w := by
  unfold handleClickUpWebhook_ resolveZendeskLink
  simp only [ht, hd, Option.getD_some, hl]

/-- C9, as stated, fails when a digit follows the URL: the text
`https://a.zendesk.com/agent/tickets/12` contains, at its very start, the URL
of ticket `1` of `a`, and the link found is that of ticket `12`. -/
theorem C9_longer_id_is_read :
    buildZendeskTicketUrl_ "a".toList "1".toList
      <+: "https://a.zendesk.com/agent/tickets/12".toList ∧
    extractZendeskInfo_ (some "https://a.zendesk.com/agent/tickets/12".toList)
      = some { subdomain := "a".toList, ticketId := "12".toList,
               ticketUrl := "https://a.zendesk.com/agent/tickets/12".toList,
               source := "description".toList } ∧
    extractZendeskInfo_ (some "https://a.zendesk.com/agent/tickets/12".toList)
      ≠ some { subdomain := "a".toList, ticketId := "1".toList,
               ticketUrl := buildZendeskTicketUrl_ "a".toList "1".toList,
               source := "description".toList } := by
  decide

/-- C9, amended. For every non-empty subdomain `s` of ASCII letters, digits
and hyphens and every non-empty decimal ticket id `n`, a description
`pre ++ url ++ post` with `url = buildZendeskTicketUrl_(s, n)
= "https://s.zendesk.com/agent/tickets/n"`, in which no ticket URL starts
before `url` and `url` is not followed by a further digit, makes
`extractZendeskInfo_` return `{subdomain: s, ticketId: n, ticketUrl: url}`;
hence an event for a task with that description is processed with that link
(whatever is stored for the task) and does not fail with `no zendesk link`. -/
theorem C9_description_link (up : Char → List Char) (env : Env) (p : CuPayload) (w : World)
    (task : CuTask) (s n pre post : Str) (hs : s ≠ [])
    (hsc : ∀ c ∈ s, isSubdomainChar c = true) (hn : n ≠ [])
    (hnd : ∀ c ∈ n, isDigit c = true) (hpost : ∀ c ∈ post.head?, isDigit c = false)
    (hfirst : ∀ k, k < pre.length →
      reTicketUrl.exec (MState.mk (prevAt (pre ++ buildZendeskTicketUrl_ s n ++ post) k)
        ((pre ++ buildZendeskTicketUrl_ s n ++ post).drop k) []) = none)
    (ht : p.task = some task)
    (hd : task.description = some (pre ++ buildZendeskTicketUrl_ s n ++ post)) :
    buildZendeskTicketUrl_ s n
      = "https://".toList ++ s ++ ".zendesk.com/agent/tickets/".toList ++ n ∧
    extractZendeskInfo_ (some (pre ++ buildZendeskTicketUrl_ s n ++ post))
      = some { subdomain := s, ticketId := n, ticketUrl := buildZendeskTicketUrl_ s n,
               source := "description".toList } ∧
    handleClickUpWebhook_ up env p w
      = cuHandleLinked up env p
          { subdomain := s, ticketId := n, ticketUrl := buildZendeskTicketUrl_ s n,
            source := "description".toList } w ∧
    (handleClickUpWebhook_ up env p w).1.reason = none := by
  have hx := extractZendeskInfo_of_url s n pre post hs hsc hn hnd hpost hfirst
  have hh := handleClickUpWebhook_of_description up env p w task _ _ ht hd hx
  exact ⟨buildZendeskTicketUrl_eq s n hs hn, hx, hh, by rw [hh]; exact cuHandleLinked_reason _ _ _ _ _⟩

/-- C9 amended at the description `"Ticket: https://acme-2.zendesk.com/agent/tickets/42 (urgent)"`. -/
theorem C9_description_link_witness :
    extractZendeskInfo_
        (some ("Ticket: ".toList ++ buildZendeskTicketUrl_ "acme-2".toList "42".toList
          ++ " (urgent)".toList))
      = some { subdomain := "acme-2".toList, ticketId := "42".toList,
               ticketUrl := "https://acme-2.zendesk.com/agent/tickets/42".toList,
               source := "description".toList } ∧
    (handleClickUpWebhook_ asciiUp quietEnv
      { event := some "taskUpdated".toList,
        task := some { id := some "t9".toList, name := some "A1".toList,
                       description := some ("Ticket: ".toList ++
                         buildZendeskTicketUrl_ "acme-2".toList "42".toList ++ " (urgent)".toList),
                       url := none, status := .absent, attachments := [] },
        history_items := [], payload := none } emptyWorld).1.reason = none :=
  have h := C9_description_link asciiUp quietEnv
    { event := some "taskUpdated".toList,
      task := some { id := some "t9".toList, name := some "A1".toList,
                     description := some ("Ticket: ".toList ++
                       buildZendeskTicketUrl_ "acme-2".toList "42".toList ++ " (urgent)".toList),
                     url := none, status := .absent, attachments := [] },
      history_items := [], payload := none } emptyWorld
    { id := some "t9".toList, name := some "A1".toList,
      description := some ("Ticket: ".toList ++
        buildZendeskTicketUrl_ "acme-2".toList "42".toList ++ " (urgent)".toList),
      url := none, status := .absent, attachments := [] }
    "acme-2".toList "42".toList "Ticket: ".toList " (urgent)".toList
    (by decide) (by decide) (by decide) (by decide) (by decide) (by decide) rfl rfl
  ⟨h.2.1, h.2.2.2⟩

/-! ## The correlation store -/

theorem cacheGet_cachePut (s : Store) (now now' : Nat) (key value : Str) (ttl : Nat) :
    (s.cachePut now key value ttl).cacheGet now' key
      = if now' < now + ttl * 1000 then some value else none := by
  simp [Store.cacheGet, Store.cachePut]

theorem cacheGet_setProperty (s : Store) (now : Nat) (key k v : Str) :
    (s.setProperty k v).cacheGet now key = s.cacheGet now key := rfl

theorem getProperty_setProperty (s : Store) (key value : Str) :
    (s.setProperty key value).getProperty key = some value := by
  simp [Store.getProperty, Store.setProperty]

theorem strOr_str (x : Str) : Json.strOr (some (.str x)) = x := by
  cases x <;> rfl

theorem truthy?_str (x : Str) : Json.truthy? (some (.str x)) = !x.isEmpty := rfl

theorem linkPayload_get (ticketId subdomain ticketUrl : Str) :
    (linkPayload ticketId subdomain ticketUrl).get "ticketId".toList = some (.str ticketId) ∧
    (linkPayload ticketId subdomain ticketUrl).get "subdomain".toList = some (.str subdomain) ∧
    (linkPayload ticketId subdomain ticketUrl).get "ticketUrl".toList
      = some (.str (orElse ticketUrl (buildZendeskTicketUrl_ subdomain ticketId))) ∧
    (linkPayload ticketId subdomain ticketUrl).get "source".toList = none := by
  refine ⟨rfl, rfl, rfl, rfl⟩

theorem inferSubdomain_empty : inferSubdomain_ none (some []) = [] := rfl

theorem parseZendeskLinkPayload_written (env : Env) (ticketId subdomain ticketUrl : Str)
    (htid : ticketId ≠ [])
    (hne : env.jsonStringify (linkPayload ticketId subdomain ticketUrl) ≠ [])
    (hrt : env.jsonParse (env.jsonStringify (linkPayload ticketId subdomain ticketUrl))
      = some (linkPayload ticketId subdomain ticketUrl)) :
    parseZendeskLinkPayload_ env (env.jsonStringify (linkPayload ticketId subdomain ticketUrl))
      = some (storedLink ticketId subdomain ticketUrl) := by
  obtain ⟨g1, g2, g3, g4⟩ := linkPayload_get ticketId subdomain ticketUrl
  have ht : (linkPayload ticketId subdomain ticketUrl).truthy = true := rfl
  have htid' : ticketId.isEmpty = false := by
    cases ticketId with
    | nil => exact absurd rfl htid
    | cons c cs => rfl
  unfold parseZendeskLinkPayload_ storedLink
  simp only [hne, if_false, hrt, ht, g1, g2, g3, g4, truthy?_str, htid', strOr_str,
    Bool.not_true, Bool.not_false, Bool.or_self, Bool.false_eq_true]
  have hbuild : buildZendeskTicketUrl_ [] ticketId = [] := by simp [buildZendeskTicketUrl_]
  have hstrOrNone : Json.strOr none = [] := rfl
  have hempty : ∀ x : Str, x.isEmpty = true ↔ x = [] := fun x => by cases x <;> simp
  rw [hstrOrNone]
  by_cases hsub : subdomain = []
  · subst hsub
    by_cases hurl : orElse ticketUrl (buildZendeskTicketUrl_ [] ticketId) = []
    · rw [hurl]
      simp only [List.isEmpty_nil, Bool.not_true, Bool.false_eq_true, if_false,
        inferSubdomain_empty, hbuild, ne_eq, not_true_eq_false]
    · have hne' : (orElse ticketUrl (buildZendeskTicketUrl_ [] ticketId)).isEmpty = false := by
        rw [← Bool.not_eq_true, hempty]
        exact hurl
      simp only [hne', List.isEmpty_nil, Bool.not_true, Bool.not_false, Bool.false_eq_true,
        if_false, if_true, ne_eq, not_true_eq_false]
  · have h1 : subdomain.isEmpty = false := by
      rw [← Bool.not_eq_true, hempty]
      exact hsub
    have h2 : (orElse ticketUrl (buildZendeskTicketUrl_ subdomain ticketId)).isEmpty = false := by
      rw [← Bool.not_eq_true, hempty]
      unfold orElse buildZendeskTicketUrl_
      by_cases h : ticketUrl = []
      · simp [h, hsub, htid]
      · simp [h]
    simp only [h1, h2, Bool.not_false, if_true, ne_eq, hsub, not_false_eq_true]

theorem getZendeskLinkForTask_remembered (env : Env) (t1 : Nat) (taskId : Option Str)
    (ticketId subdomain ticketUrl : Str) (s : Store) (hid : truthy taskId = true)
    (htid : ticketId ≠ [])
    (hne : env.jsonStringify (linkPayload ticketId subdomain ticketUrl) ≠ [])
    (hrt : env.jsonParse (env.jsonStringify (linkPayload ticketId subdomain ticketUrl))
      = some (linkPayload ticketId subdomain ticketUrl)) :
    (getZendeskLinkForTask_ { env with nowMs := t1 } taskId
        (rememberZendeskLinkForTask_ env taskId ticketId subdomain ticketUrl s)).1
      = some { storedLink ticketId subdomain ticketUrl with
          source := if t1 < env.nowMs + CACHE_TTL_SECONDS * 1000 then "cache".toList
            else "property".toList } ∧
    (getZendeskLinkForTask_ { env with nowMs := t1 } taskId
        (rememberZendeskLinkForTask_ env taskId ticketId subdomain ticketUrl s)).2.cacheGet t1
        (zdLinkCacheKey_ taskId)
      = some (env.jsonStringify (linkPayload ticketId subdomain ticketUrl)) := by
  have hparse := parseZendeskLinkPayload_written env ticketId subdomain ticketUrl htid hne hrt
  have hparse' : parseZendeskLinkPayload_ { env with nowMs := t1 }
      (env.jsonStringify (linkPayload ticketId subdomain ticketUrl))
      = some (storedLink ticketId subdomain ticketUrl) := hparse
  have hrem : rememberZendeskLinkForTask_ env taskId ticketId subdomain ticketUrl s
      = (s.cachePut env.nowMs (zdLinkCacheKey_ taskId)
          (env.jsonStringify (linkPayload ticketId subdomain ticketUrl))
          CACHE_TTL_SECONDS).setProperty (zdLinkPropKey_ taskId)
          (env.jsonStringify (linkPayload ticketId subdomain ticketUrl)) := by
    unfold rememberZendeskLinkForTask_
    simp [hid, htid]
  rw [hrem]
  unfold getZendeskLinkForTask_
  simp only [hid, Bool.not_true, Bool.false_eq_true, if_false, cacheGet_setProperty,
    cacheGet_cachePut, getProperty_setProperty]
  by_cases hlive : t1 < env.nowMs + CACHE_TTL_SECONDS * 1000
  · simp only [hlive, if_true, hparse', cacheGet_setProperty, cacheGet_cachePut]
    exact ⟨trivial, trivial⟩
  · simp only [hlive, if_false, hne, hparse', cacheGet_cachePut]
    refine ⟨rfl, ?_⟩
    rw [if_pos]
    have : 0 < CACHE_TTL_SECONDS * 1000 := by decide
    omega

/-- C10, as stated, fails for the subdomain: a link stored with an empty
subdomain and the ticket URL `https://acme.zendesk.com/agent/tickets/5` is
read back with the subdomain `acme`, inferred from the URL. -/
theorem C10_empty_subdomain_is_inferred :
    ((getZendeskLinkForTask_ quietEnv (some "t1".toList)
        (rememberZendeskLinkForTask_ quietEnv (some "t1".toList) "5".toList []
          "https://acme.zendesk.com/agent/tickets/5".toList { cache := [], props := [] })).1.map
      (fun l => l.subdomain)) = some "acme".toList ∧
    ((getZendeskLinkForTask_ quietEnv (some "t1".toList)
        (rememberZendeskLinkForTask_ quietEnv (some "t1".toList) "5".toList []
          "https://acme.zendesk.com/agent/tickets/5".toList { cache := [], props := [] })).1.map
      (fun l => l.subdomain)) ≠ some [] := by
  decide

/-- C10, amended. For every non-empty item id and every link whose ticketId
is non-empty, after `rememberZendeskLinkForTask_(itemId, link)`, whatever was
stored before, `getZendeskLinkForTask_(itemId)` at any later time `t1` returns
a link with the given ticketId, the given ticket URL (the synthesized one when
none is given) and the given subdomain when it is not empty (when it is
empty: the subdomain inferred from the ticket URL), read from the cache while
the entry is live and from the durable copy once it has expired, and the
cache holds the record afterwards; when the ticketId is empty, `remember`
leaves the store as it is.  The JSON codec of the runtime is assumed to read
back the object written. -/
theorem C10_link_round_trip (env : Env) (t1 : Nat) (taskId : Option Str)
    (ticketId subdomain ticketUrl : Str) (s : Store) (hid : truthy taskId = true)
    (htid : ticketId ≠ [])
    (hne : env.jsonStringify (linkPayload ticketId subdomain ticketUrl) ≠ [])
    (hrt : env.jsonParse (env.jsonStringify (linkPayload ticketId subdomain ticketUrl))
      = some (linkPayload ticketId subdomain ticketUrl)) :
    (getZendeskLinkForTask_ { env with nowMs := t1 } taskId
        (rememberZendeskLinkForTask_ env taskId ticketId subdomain ticketUrl s)).1
      = some { ticketId := ticketId,
               subdomain :=
                 if subdomain ≠ [] then subdomain
                 else inferSubdomain_ none
                   (some (orElse ticketUrl (buildZendeskTicketUrl_ subdomain ticketId))),
               ticketUrl := orElse ticketUrl (buildZendeskTicketUrl_ subdomain ticketId),
               source := if t1 < env.nowMs + CACHE_TTL_SECONDS * 1000 then "cache".toList
                 else "property".toList } ∧
    (getZendeskLinkForTask_ { env with nowMs := t1 } taskId
        (rememberZendeskLinkForTask_ env taskId ticketId subdomain ticketUrl s)).2.cacheGet t1
        (zdLinkCacheKey_ taskId)
      = some (env.jsonStringify (linkPayload ticketId subdomain ticketUrl)) ∧
    rememberZendeskLinkForTask_ env taskId [] subdomain ticketUrl s = s :=
  ⟨(getZendeskLinkForTask_remembered env t1 taskId ticketId subdomain ticketUrl s hid htid hne
      hrt).1,
   (getZendeskLinkForTask_remembered env t1 taskId ticketId subdomain ticketUrl s hid htid hne
      hrt).2,
   by simp [rememberZendeskLinkForTask_]⟩

/-- C10 amended at the plain codec: the link of task `t1` to ticket 5 of
`acme`, stored at time 0 over an older record, read 7 hours later. -/
theorem C10_link_round_trip_witness :
    (getZendeskLinkForTask_ { quietEnv with nowMs := 25200000 } (some "t1".toList)
        (rememberZendeskLinkForTask_ quietEnv (some "t1".toList) "5".toList "acme".toList []
          { cache := [("cu:task:zd_link:t1".toList, "old".toList, 99)],
            props := [("CLICKUP_ZD_LINK::t1".toList, "old".toList)] })).1
      = some { ticketId := "5".toList, subdomain := "acme".toList,
               ticketUrl := "https://acme.zendesk.com/agent/tickets/5".toList,
               source := "property".toList } :=
  (C10_link_round_trip quietEnv 25200000 (some "t1".toList) "5".toList "acme".toList []
    { cache := [("cu:task:zd_link:t1".toList, "old".toList, 99)],
      props := [("CLICKUP_ZD_LINK::t1".toList, "old".toList)] }
    (by decide) (by decide) (by decide) rfl).1.trans (by decide)
/-! ## Malformed correlation records -/

theorem parseZendeskLinkPayload_malformed (env : Env) (value : Str)
    (h : malformedRecord env value = true) : parseZendeskLinkPayload_ env value = none := by
  unfold parseZendeskLinkPayload_
  unfold malformedRecord at h
  by_cases hv : value = []
  · simp [hv]
  · simp only [hv, if_false]
    cases hp : env.jsonParse value with
    | none => rfl
    | some parsed =>
      rw [hp] at h
      simp only [Bool.not_eq_true'] at h
      simp only [h, Bool.not_false, Bool.or_true, if_true]

theorem getZendeskLinkForTask_malformed (env : Env) (taskId : Option Str) (s : Store)
    (hc : ∀ v ∈ s.cacheGet env.nowMs (zdLinkCacheKey_ taskId), malformedRecord env v = true)
    (hp : ∀ v ∈ s.getProperty (zdLinkPropKey_ taskId), malformedRecord env v = true) :
    (getZendeskLinkForTask_ env taskId s).1 = none := by
  unfold getZendeskLinkForTask_
  by_cases hid : truthy taskId = true
  · simp only [hid, Bool.not_true, Bool.false_eq_true, if_false]
    have hcache : (match s.cacheGet env.nowMs (zdLinkCacheKey_ taskId) with
        | some cached => parseZendeskLinkPayload_ env cached
        | none => none) = none := by
      cases hg : s.cacheGet env.nowMs (zdLinkCacheKey_ taskId) with
      | none => rfl
      | some v => exact parseZendeskLinkPayload_malformed env v (hc v (by rw [hg]; rfl))
    rw [hcache]
    cases hg : s.getProperty (zdLinkPropKey_ taskId) with
    | none => rfl
    | some v =>
      have := parseZendeskLinkPayload_malformed env v (hp v (by rw [hg]; rfl))
      simp only [this]
      split_ifs <;> rfl
  · simp [hid]

theorem getZendeskLinkForTask_skips_cache (env : Env) (taskId : Option Str) (s : Store)
    (hc : ∀ v ∈ s.cacheGet env.nowMs (zdLinkCacheKey_ taskId), malformedRecord env v = true) :
    (getZendeskLinkForTask_ env taskId s).1
      = (getZendeskLinkForTask_ env taskId { cache := [], props := s.props }).1 := by
  unfold getZendeskLinkForTask_
  by_cases hid : truthy taskId = true
  · simp only [hid, Bool.not_true, Bool.false_eq_true, if_false]
    have hcache : (match s.cacheGet env.nowMs (zdLinkCacheKey_ taskId) with
        | some cached => parseZendeskLinkPayload_ env cached
        | none => none) = none := by
      cases hg : s.cacheGet env.nowMs (zdLinkCacheKey_ taskId) with
      | none => rfl
      | some v => exact parseZendeskLinkPayload_malformed env v (hc v (by rw [hg]; rfl))
    have hempty : (match ({ cache := [], props := s.props } : Store).cacheGet env.nowMs
          (zdLinkCacheKey_ taskId) with
        | some cached => parseZendeskLinkPayload_ env cached
        | none => none) = none := rfl
    rw [hcache, hempty]
    have hprop : ({ cache := [], props := s.props } : Store).getProperty (zdLinkPropKey_ taskId)
        = s.getProperty (zdLinkPropKey_ taskId) := rfl
    rw [hprop]
    cases s.getProperty (zdLinkPropKey_ taskId) with
    | none => rfl
    | some v =>
      simp only
      split_ifs
      · rfl
      · cases parseZendeskLinkPayload_ env v <;> rfl
  · simp [hid]

theorem getZendeskLinkForTask_skips_property (env : Env) (taskId : Option Str) (s : Store)
    (hp : ∀ v ∈ s.getProperty (zdLinkPropKey_ taskId), malformedRecord env v = true) :
    (getZendeskLinkForTask_ env taskId s).1
      = (getZendeskLinkForTask_ env taskId { cache := s.cache, props := [] }).1 := by
  unfold getZendeskLinkForTask_
  by_cases hid : truthy taskId = true
  · simp only [hid, Bool.not_true, Bool.false_eq_true, if_false]
    have hcg : ({ cache := s.cache, props := [] } : Store).cacheGet env.nowMs
        (zdLinkCacheKey_ taskId) = s.cacheGet env.nowMs (zdLinkCacheKey_ taskId) := rfl
    have hpg : ({ cache := s.cache, props := [] } : Store).getProperty (zdLinkPropKey_ taskId)
        = none := rfl
    rw [hcg, hpg]
    cases (match s.cacheGet env.nowMs (zdLinkCacheKey_ taskId) with
        | some cached => parseZendeskLinkPayload_ env cached
        | none => none) with
    | some parsed => rfl
    | none =>
      simp only
      cases hg : s.getProperty (zdLinkPropKey_ taskId) with
      | none => rfl
      | some v =>
        have := parseZendeskLinkPayload_malformed env v (hp v (by rw [hg]; rfl))
        simp only [this]
        split_ifs <;> rfl
  · simp [hid]

/-- C11, as stated, fails when only one of the two records is malformed:
with a cached record that is no JSON and a valid durable record the link of
the durable record is returned, and with a valid cached record and a durable
record that is no JSON the link of the cached record is returned. -/
theorem C11_valid_copy_is_returned :
    malformedRecord quietEnv "not json".toList = true ∧
    ((getZendeskLinkForTask_ quietEnv (some "t1".toList)
        { cache := [("cu:task:zd_link:t1".toList, "not json".toList, 99)],
          props := acmeStore.props }).1.map
      (fun l => (l.ticketId, l.subdomain, l.source)))
      = some ("5".toList, "acme".toList, "property".toList) ∧
    ((getZendeskLinkForTask_ quietEnv (some "t1".toList)
        { cache := acmeStore.cache,
          props := [("CLICKUP_ZD_LINK::t1".toList, "not json".toList)] }).1.map
      (fun l => (l.ticketId, l.subdomain, l.source)))
      = some ("5".toList, "acme".toList, "cache".toList) := by
  decide

/-- C11, amended. A malformed persisted record, that is, one that is no valid
JSON or is JSON without a non-empty `ticketId`, is treated as absent:
when the live cached record of a task is malformed, `getZendeskLinkForTask_`
returns what it returns with an empty cache; when the durable record is
malformed, it returns what it returns without durable records; hence it
returns null when every record present for the task is malformed, and the
link of the other record when only one is malformed.  The model is total, so
nothing is raised, and `parseZendeskLinkPayload_` gives null on every
malformed record. -/
theorem C11_malformed_record_as_absent (env : Env) (taskId : Option Str) (s : Store) :
    ((∀ v ∈ s.cacheGet env.nowMs (zdLinkCacheKey_ taskId), malformedRecord env v = true) →
      (getZendeskLinkForTask_ env taskId s).1
        = (getZendeskLinkForTask_ env taskId { cache := [], props := s.props }).1) ∧
    ((∀ v ∈ s.getProperty (zdLinkPropKey_ taskId), malformedRecord env v = true) →
      (getZendeskLinkForTask_ env taskId s).1
        = (getZendeskLinkForTask_ env taskId { cache := s.cache, props := [] }).1) ∧
    ((∀ v ∈ s.cacheGet env.nowMs (zdLinkCacheKey_ taskId), malformedRecord env v = true) →
      (∀ v ∈ s.getProperty (zdLinkPropKey_ taskId), malformedRecord env v = true) →
      (getZendeskLinkForTask_ env taskId s).1 = none) ∧
    (∀ v, malformedRecord env v = true → parseZendeskLinkPayload_ env v = none) :=
  ⟨getZendeskLinkForTask_skips_cache env taskId s,
   getZendeskLinkForTask_skips_property env taskId s,
   getZendeskLinkForTask_malformed env taskId s,
   parseZendeskLinkPayload_malformed env⟩

/-- C11 amended at a task whose cached record is no JSON and whose durable
record is JSON without a `ticketId`: the result is null, as with an empty
cache. -/
theorem C11_malformed_record_as_absent_witness :
    (getZendeskLinkForTask_ quietEnv (some "t1".toList)
      { cache := [("cu:task:zd_link:t1".toList, "not json".toList, 99)],
        props := [("CLICKUP_ZD_LINK::t1".toList, "\x7b\"subdomain\":\"acme\"\x7d".toList)] }).1
      = none ∧
    (getZendeskLinkForTask_ quietEnv (some "t1".toList)
      { cache := [("cu:task:zd_link:t1".toList, "not json".toList, 99)],
        props := [("CLICKUP_ZD_LINK::t1".toList, "\x7b\"subdomain\":\"acme\"\x7d".toList)] }).1
      = (getZendeskLinkForTask_ quietEnv (some "t1".toList)
          { cache := [],
            props :=
              [("CLICKUP_ZD_LINK::t1".toList, "\x7b\"subdomain\":\"acme\"\x7d".toList)] }).1 :=
  have h := C11_malformed_record_as_absent quietEnv (some "t1".toList)
    { cache := [("cu:task:zd_link:t1".toList, "not json".toList, 99)],
      props := [("CLICKUP_ZD_LINK::t1".toList, "\x7b\"subdomain\":\"acme\"\x7d".toList)] }
  ⟨h.2.2.1 (by decide) (by decide), h.1 (by decide)⟩
/-! ## Reads of the store under other keys -/

theorem find?_filter_ne {α : Type} (l : List (Str × α)) (key key' : Str) (h : key' ≠ key) :
    (l.filter (fun e => !decide (e.1 = key'))).find? (fun e => decide (e.1 = key))
      = l.find? (fun e => decide (e.1 = key)) := by
  induction l with
  | nil => rfl
  | cons e l ih =>
    by_cases h1 : e.1 = key'
    · have h2 : ¬ e.1 = key := fun h3 => h (h1.symm.trans h3)
      rw [List.filter_cons, List.find?_cons]
      simp only [h1, h, decide_True, decide_False, Bool.not_true, Bool.false_eq_true, if_false]
      exact ih
    · rw [List.filter_cons, List.find?_cons]
      simp only [h1, decide_False, Bool.not_false, if_true, List.find?_cons]
      by_cases h2 : e.1 = key
      · simp only [h2, decide_True]
      · simp only [h2, decide_False]
        exact ih

theorem cacheGet_cachePut_ne (s : Store) (now t : Nat) (key key' v : Str) (ttl : Nat)
    (h : key' ≠ key) : (s.cachePut now key' v ttl).cacheGet t key = s.cacheGet t key := by
  unfold Store.cacheGet Store.cachePut
  simp only [List.find?, h, decide_False]
  rw [find?_filter_ne _ _ _ h]

theorem cacheGet_deleteProperty (s : Store) (now : Nat) (key k : Str) :
    (s.deleteProperty k).cacheGet now key = s.cacheGet now key := rfl

theorem getProperty_cachePut (s : Store) (now : Nat) (key k v : Str) (ttl : Nat) :
    (s.cachePut now k v ttl).getProperty key = s.getProperty key := rfl

theorem getProperty_setProperty_ne (s : Store) (key key' v : Str) (h : key' ≠ key) :
    (s.setProperty key' v).getProperty key = s.getProperty key := by
  unfold Store.getProperty Store.setProperty
  simp only [List.find?, h, decide_False]
  rw [find?_filter_ne _ _ _ h]

theorem getProperty_deleteProperty_ne (s : Store) (key key' : Str) (h : key' ≠ key) :
    (s.deleteProperty key').getProperty key = s.getProperty key := by
  unfold Store.getProperty Store.deleteProperty
  simp only
  rw [find?_filter_ne _ _ _ h]

theorem statusCacheKey_ne_hist (taskId : Option Str) (hid : Str) :
    statusCacheKey_ taskId ≠ statusHistoryCacheKey_ taskId hid := by
  unfold statusCacheKey_ statusHistoryCacheKey_
  intro h
  simp at h

theorem zdLinkCacheKey_ne_hist (taskId : Option Str) (hid : Str) :
    zdLinkCacheKey_ taskId ≠ statusHistoryCacheKey_ taskId hid := by
  unfold zdLinkCacheKey_ statusHistoryCacheKey_
  intro h
  have := congrArg List.length h
  simp at this
  omega

/-! ## Status sub-events seen before -/

theorem orElse_of_ne (a b : Str) (h : a ≠ []) : orElse a b = a := by
  simp [orElse, h]

theorem statusChangeOf_explicit (env env' : Env) (l : List HistoryItem)
    (h : ∀ e ∈ l, e.tagged "status".toList = true → firstTruthy [e.id, e.history_id] ≠ []) :
    statusChangeOf env l = statusChangeOf env' l ∧
    ∀ hc, statusChangeOf env l = some hc → hc.id ≠ [] := by
  induction l with
  | nil => exact ⟨rfl, fun hc hh => by simp [statusChangeOf] at hh⟩
  | cons e l ih =>
    have ih' := ih (fun x hx => h x (List.mem_cons_of_mem _ hx))
    unfold statusChangeOf
    by_cases ht : e.tagged "status".toList = true
    · have hid := h e (List.mem_cons_self _ _) ht
      simp only [ht, Bool.not_true, Bool.false_eq_true, if_false, orElse_of_ne _ _ hid]
      refine ⟨by rw [ih'.1], fun hc hh => ?_⟩
      split_ifs at hh with h1
      · cases hh
        exact hid
      · exact ih'.2 hc hh
    · simp only [ht, Bool.not_false, if_true]
      exact ih'

theorem statusHistoryCacheKey_ne_nil (taskId : Option Str) (hid : Str) :
    statusHistoryCacheKey_ taskId hid ≠ [] := by
  simp [statusHistoryCacheKey_]

theorem detectClickUpStatusChange_seen (up : Char → List Char) (env : Env) (p : CuPayload)
    (taskId : Option Str) (event normalizedStatus rawStatus : Str) (s : Store)
    (hc : HistoryChange) (hx : extractStatusChangeFromWebhook_ env p = some hc)
    (hid : truthy taskId = true) (hto : normalizeStatusLabel_ up (some hc.toStatus) ≠ [])
    (hne : hc.id ≠ [])
    (hseen : truthy (s.cacheGet env.nowMs (statusHistoryCacheKey_ taskId hc.id)) = true) :
    detectClickUpStatusChange_ up env p taskId event normalizedStatus rawStatus s
      = (none, s) := by
  unfold detectClickUpStatusChange_
  simp only [hx, hid, hto, hne, hseen, Bool.not_true, Bool.false_eq_true, if_false, ne_eq,
    not_false_eq_true, if_true, statusHistoryCacheKey_ne_nil, and_self]

theorem getLastKnownClickUpStatus_cacheGet (env : Env) (taskId : Option Str) (s : Store)
    (t : Nat) (key : Str) (hk : statusCacheKey_ taskId ≠ key) :
    (getLastKnownClickUpStatus_ env taskId s).2.cacheGet t key = s.cacheGet t key := by
  unfold getLastKnownClickUpStatus_
  split_ifs
  · rfl
  · split
    · rfl
    · simp only
      split_ifs
      · exact cacheGet_cachePut_ne _ _ _ _ _ _ _ hk
      · rfl

theorem detectClickUpStatusChange_first (up : Char → List Char) (env : Env) (p : CuPayload)
    (taskId : Option Str) (event normalizedStatus rawStatus : Str) (s : Store)
    (hc : HistoryChange) (hx : extractStatusChangeFromWebhook_ env p = some hc)
    (hid : truthy taskId = true) (hto : normalizeStatusLabel_ up (some hc.toStatus) ≠ [])
    (hne : hc.id ≠ [])
    (hfresh : truthy (s.cacheGet env.nowMs (statusHistoryCacheKey_ taskId hc.id)) = false) :
    ∃ change,
      (detectClickUpStatusChange_ up env p taskId event normalizedStatus rawStatus s).1
        = some change ∧
      change.source = "history".toList ∧
      change.toStatus = normalizeStatusLabel_ up (some hc.toStatus) ∧
      change.rawTo = hc.toStatus ∧
      ∀ t, t < env.nowMs + CACHE_TTL_SECONDS * 1000 →
        (detectClickUpStatusChange_ up env p taskId event normalizedStatus rawStatus s).2.cacheGet
          t (statusHistoryCacheKey_ taskId hc.id) = some ['1'] := by
  unfold detectClickUpStatusChange_
  simp only [hx, hid, hto, hne, hfresh, Bool.not_true, Bool.false_eq_true, if_false, ne_eq,
    not_false_eq_true, if_true, statusHistoryCacheKey_ne_nil, and_false]
  refine ⟨_, rfl, rfl, rfl, rfl, fun t ht => ?_⟩
  split_ifs
  · rw [getLastKnownClickUpStatus_cacheGet _ _ _ _ _ (statusCacheKey_ne_hist _ _),
      cacheGet_cachePut, if_pos ht]
  · rw [cacheGet_cachePut, if_pos ht]

/-! ## The calls of `processClickUpStatusChange_` -/

theorem joinLines_cons_cons (a b : Str) (l : List Str) :
    joinLines (a :: b :: l) = a ++ Char.ofNat 10 :: joinLines (b :: l) := by
  simp [joinLines, List.intercalate, List.intersperse]

theorem statusNote_starts (change : StatusChange) (taskUrl userName : Str) :
    statusNotePrefix <+: statusNote change taskUrl userName := by
  simp only [statusNote, List.cons_append, List.nil_append, joinLines_cons_cons, statusNotePrefix,
    List.append_assoc]
  exact ⟨_, rfl⟩

theorem processClickUpStatusChange_world (up : Char → List Char) (env : Env)
    (taskId : Option Str) (ticketId subdomain taskUrl userName : Str) (change : StatusChange)
    (w : World) :
    (processClickUpStatusChange_ up env taskId ticketId subdomain taskUrl userName change w).2.calls
      = w.calls ++
          .addZendeskInternalNote subdomain ticketId (statusNote change taskUrl userName) ::
            (match mapClickUpStatusToZendesk_ up (some change.toStatus) with
             | .null => []
             | .status target => [.updateZendeskStatus subdomain ticketId target]
             | .inherited _ => [.updateZendeskStatus subdomain ticketId []]) ∧
    (processClickUpStatusChange_ up env taskId ticketId subdomain taskUrl userName change w).2.store
      = rememberClickUpStatus_ up env taskId (some change.toStatus) w.store := by
  constructor
  · unfold processClickUpStatusChange_ addZendeskInternalNote_ updateZendeskStatus_ perform
      statusNote
    simp only
    cases mapClickUpStatusToZendesk_ up (some change.toStatus) with
    | null => simp
    | status target =>
      simp only
      split <;> simp
    | inherited k =>
      simp only
      split <;> simp
  · unfold processClickUpStatusChange_ addZendeskInternalNote_ updateZendeskStatus_ perform
    simp only
    cases mapClickUpStatusToZendesk_ up (some change.toStatus) with
    | null => rfl
    | status target =>
      simp only
      split <;> rfl
    | inherited k =>
      simp only
      split <;> rfl

/-! ## The stages of the TaskBoard handler -/

theorem cuHandleLinked_of_change (up : Char → List Char) (env : Env) (p : CuPayload)
    (link : ZdLink) (w : World) (change : StatusChange)
    (h : (cuDetect up env p link w.store).1 = some change) :
    cuHandleLinked up env p link w
      = processClickUpStatusChange_ up env p.taskOrEmpty.id link.ticketId link.subdomain
          (p.taskOrEmpty.url.getD []) (changeUserName p.history_items.reverse) change
          { store := (cuDetect up env p link w.store).2, calls := w.calls } := by
  unfold cuDetect cuStoreAtDetect CuPayload.taskOrEmpty at h
  unfold cuHandleLinked
  simp only [h]
  rfl

theorem cuHandleLinked_of_none (up : Char → List Char) (env : Env) (p : CuPayload)
    (link : ZdLink) (w : World) (h : (cuDetect up env p link w.store).1 = none) :
    cuHandleLinked up env p link w
      = ({ Response.base true "cu->zd".toList with
             event := some (p.event.getD []), ticketId := some link.ticketId },
         cuMirrorComment env p link p.taskOrEmpty.id (p.taskOrEmpty.name.getD [])
           (p.taskOrEmpty.url.getD [])
           (cuCreatedNote env link (p.event.getD []) p.taskOrEmpty.id
             (p.taskOrEmpty.name.getD []) (p.taskOrEmpty.url.getD []) p.taskOrEmpty.status.text
             { store :=
                 if normalizeStatusLabel_ up (some p.taskOrEmpty.status.text) ≠ [] then
                   ensureStatusCacheBaseline_ up env p.taskOrEmpty.id
                     (normalizeStatusLabel_ up (some p.taskOrEmpty.status.text))
                     (cuDetect up env p link w.store).2
                 else (cuDetect up env p link w.store).2,
               calls := w.calls })) := by
  unfold cuDetect cuStoreAtDetect CuPayload.taskOrEmpty at h
  unfold cuHandleLinked
  simp only [h]
  rfl

/-! ## Calls that are no status calls -/

theorem joinLines_cons_starts (a : Str) (l : List Str) : a <+: joinLines (a :: l) := by
  cases l with
  | nil => simp [joinLines, List.intercalate, List.intersperse]
  | cons b l => rw [joinLines_cons_cons]; exact ⟨_, rfl⟩

theorem isPrefixOf_false_of_head (a b : Char) (x y : Str) (h : a ≠ b) :
    (a :: x).isPrefixOf (b :: y) = false := by
  simp [List.isPrefixOf, h]

theorem createdNoteBody_not_status (taskId : Option Str) (name taskUrl status : Str) :
    statusNotePrefix.isPrefixOf (createdNoteBody taskId name taskUrl status) = false := by
  have h : ∃ rest, createdNoteBody taskId name taskUrl status = '✅' :: rest := by
    unfold createdNoteBody
    rw [List.filter_cons_of_pos (by decide)]
    obtain ⟨t, ht⟩ := joinLines_cons_starts "✅ ClickUp task created".toList
      (List.filter (fun l => !l.isEmpty)
        ["Task #".toList ++ tmpl taskId ++ " — ".toList ++ name, taskUrl,
          if status ≠ [] then "Status: ".toList ++ status else []])
    rw [← ht]
    exact ⟨_, rfl⟩
  obtain ⟨rest, hr⟩ := h
  rw [hr]
  exact isPrefixOf_false_of_head _ _ _ _ (by decide)

theorem commentNoteBody_not_status (name taskUrl : Str) (latest : LatestComment) :
    statusNotePrefix.isPrefixOf (commentNoteBody name taskUrl latest) = false := by
  unfold commentNoteBody
  simp only [List.cons_append, List.nil_append, joinLines_cons_cons]
  simp [statusNotePrefix, List.isPrefixOf]

theorem noStatusCall_append (a b : List Call) :
    noStatusCall (a ++ b) = (noStatusCall a && noStatusCall b) := by
  simp [noStatusCall, List.all_append]

theorem cuCreatedNote_calls (env : Env) (link : ZdLink) (event : Str) (taskId : Option Str)
    (name taskUrl status : Str) (w : World) :
    ∃ cs, (cuCreatedNote env link event taskId name taskUrl status w).calls = w.calls ++ cs ∧
      noStatusCall cs = true := by
  unfold cuCreatedNote
  split_ifs
  · refine ⟨[.addZendeskInternalNote link.subdomain link.ticketId
      (createdNoteBody taskId name taskUrl status)], rfl, ?_⟩
    simp [noStatusCall, Call.isStatusNote, Call.isStatusUpdate, createdNoteBody_not_status]
  · exact ⟨[], by simp, rfl⟩

theorem getClickUpTask_world (env : Env) (taskId : Option Str) (w : World) :
    (getClickUpTask_ env taskId w).2
      = { store := w.store, calls := w.calls ++ [.getClickUpTask taskId] } := by
  unfold getClickUpTask_ perform
  simp only
  split <;> rfl

theorem fetchLatestHumanClickUpComment_world (env : Env) (taskId : Option Str) (w : World) :
    (fetchLatestHumanClickUpComment_ env taskId w).2.store = w.store ∧
    ∃ cs, (fetchLatestHumanClickUpComment_ env taskId w).2.calls = w.calls ++ cs ∧
      noStatusCall cs = true := by
  unfold fetchLatestHumanClickUpComment_
  simp only [getClickUpTask_world]
  cases (getClickUpTask_ env taskId w).1 with
  | error e => exact ⟨rfl, [.getClickUpTask taskId], rfl, rfl⟩
  | ok taskData =>
    simp only [perform]
    split
    · exact ⟨rfl, [.getClickUpTask taskId, .fetchClickUpComments taskId], by simp, rfl⟩
    · exact ⟨rfl, [.getClickUpTask taskId, .fetchClickUpComments taskId], by simp, rfl⟩

theorem cuLatestComment_world (env : Env) (p : CuPayload) (taskId : Option Str) (w : World) :
    (cuLatestComment env p taskId w).2.store = w.store ∧
    ∃ cs, (cuLatestComment env p taskId w).2.calls = w.calls ++ cs ∧
      noStatusCall cs = true := by
  unfold cuLatestComment
  split
  · exact ⟨rfl, [], by simp, rfl⟩
  · exact fetchLatestHumanClickUpComment_world env taskId w

theorem cuMirrorComment_calls (env : Env) (p : CuPayload) (link : ZdLink)
    (taskId : Option Str) (name taskUrl : Str) (w : World) :
    ∃ cs, (cuMirrorComment env p link taskId name taskUrl w).calls = w.calls ++ cs ∧
      noStatusCall cs = true := by
  obtain ⟨_, cs, hcs, hq⟩ := cuLatestComment_world env p taskId w
  unfold cuMirrorComment
  simp only
  split
  · exact ⟨cs, hcs, hq⟩
  · rename_i latest _
    split_ifs
    · refine ⟨cs ++ [.addZendeskInternalNote link.subdomain link.ticketId
        (commentNoteBody name taskUrl latest)], ?_, ?_⟩
      · simp only [addZendeskInternalNote_, perform, hcs, List.append_assoc]
      · rw [noStatusCall_append, hq]
        simp [noStatusCall, Call.isStatusNote, Call.isStatusUpdate, commentNoteBody_not_status]
    · exact ⟨cs, hcs, hq⟩

/-! ## Store entries under other keys are kept -/

theorem rememberZendeskLinkForTask_cacheGet (env : Env) (taskId : Option Str)
    (ticketId subdomain ticketUrl : Str) (s : Store) (t : Nat) (key : Str)
    (hk : zdLinkCacheKey_ taskId ≠ key) :
    (rememberZendeskLinkForTask_ env taskId ticketId subdomain ticketUrl s).cacheGet t key
      = s.cacheGet t key := by
  unfold rememberZendeskLinkForTask_
  split_ifs
  · rfl
  · simp only [cacheGet_setProperty]
    exact cacheGet_cachePut_ne _ _ _ _ _ _ _ hk

theorem getZendeskLinkForTask_cacheGet (env : Env) (taskId : Option Str) (s : Store) (t : Nat)
    (key : Str) (hk : zdLinkCacheKey_ taskId ≠ key) :
    (getZendeskLinkForTask_ env taskId s).2.cacheGet t key = s.cacheGet t key := by
  unfold getZendeskLinkForTask_
  split_ifs
  · rfl
  · simp only
    split
    · rfl
    · split
      · rfl
      · split_ifs
        · rfl
        · split <;> exact cacheGet_cachePut_ne _ _ _ _ _ _ _ hk

theorem resolveZendeskLink_cacheGet (env : Env) (description : Str) (taskId : Option Str)
    (s : Store) (t : Nat) (key : Str) (hk : zdLinkCacheKey_ taskId ≠ key) :
    (resolveZendeskLink env description taskId s).2.cacheGet t key = s.cacheGet t key := by
  unfold resolveZendeskLink
  split
  · rfl
  · split_ifs
    · exact getZendeskLinkForTask_cacheGet env taskId s t key hk
    · rfl

theorem rememberClickUpStatus_cacheGet (up : Char → List Char) (env : Env)
    (taskId : Option Str) (status : Option Str) (s : Store) (t : Nat) (key : Str)
    (hk : statusCacheKey_ taskId ≠ key) :
    (rememberClickUpStatus_ up env taskId status s).cacheGet t key = s.cacheGet t key := by
  unfold rememberClickUpStatus_
  split_ifs
  · rfl
  · simp only
    split_ifs
    · simp only [cacheGet_setProperty]
      exact cacheGet_cachePut_ne _ _ _ _ _ _ _ hk
    · simp only [cacheGet_deleteProperty]
      exact cacheGet_cachePut_ne _ _ _ _ _ _ _ hk

theorem handleClickUpWebhook_of_link (up : Char → List Char) (env : Env) (p : CuPayload)
    (w : World) (link : ZdLink)
    (h : (resolveZendeskLink env (p.taskOrEmpty.description.getD []) p.taskOrEmpty.id
      w.store).1 = some link) :
    handleClickUpWebhook_ up env p w
      = cuHandleLinked up env p link
          { store := (resolveZendeskLink env (p.taskOrEmpty.description.getD [])
              p.taskOrEmpty.id w.store).2,
            calls := w.calls } := by
  unfold CuPayload.taskOrEmpty at h
  unfold handleClickUpWebhook_ CuPayload.taskOrEmpty
  simp only [h]

theorem handleClickUpWebhook_of_no_link (up : Char → List Char) (env : Env) (p : CuPayload)
    (w : World)
    (h : (resolveZendeskLink env (p.taskOrEmpty.description.getD []) p.taskOrEmpty.id
      w.store).1 = none) :
    handleClickUpWebhook_ up env p w
      = (noLinkResponse p.taskOrEmpty.id,
          { store := (resolveZendeskLink env (p.taskOrEmpty.description.getD [])
              p.taskOrEmpty.id w.store).2,
            calls := w.calls }) := by
  unfold CuPayload.taskOrEmpty at h
  unfold handleClickUpWebhook_ CuPayload.taskOrEmpty
  simp only [h]

/-! ## Status sub-event dedup -/

theorem filter_statusCalls (subdomain ticketId body : Str) (m : Mapped) :
    ((Call.addZendeskInternalNote subdomain ticketId body ::
        (match m with
         | .null => []
         | .status target => [Call.updateZendeskStatus subdomain ticketId target]
         | .inherited _ => [Call.updateZendeskStatus subdomain ticketId []])).filter
      Call.isStatusUpdate).length ≤ 1 ∧
    (statusNotePrefix <+: body →
      ((Call.addZendeskInternalNote subdomain ticketId body ::
        (match m with
         | .null => []
         | .status target => [Call.updateZendeskStatus subdomain ticketId target]
         | .inherited _ => [Call.updateZendeskStatus subdomain ticketId []])).filter
      Call.isStatusNote).length = 1) := by
  constructor
  · cases m <;> simp [List.filter, Call.isStatusUpdate]
  · intro h
    have h' : statusNotePrefix.isPrefixOf body = true := List.isPrefixOf_iff_prefix.mpr h
    cases m <;> simp [List.filter, Call.isStatusNote, h']

/-- C12, as stated, fails for a target status that is not empty but
normalizes to the empty label: the event `statusEvent "-"` carries the status
entry `h1` with the target status `-`, and on its first submission no
transition is detected and no status note is written. -/
theorem C12_blank_target_gives_no_transition :
    extractStatusChangeFromWebhook_ quietEnv (statusEvent "-".toList)
      = some { id := "h1".toList, fromStatus := [], toStatus := "-".toList } ∧
    (detectClickUpStatusChange_ asciiUp quietEnv (statusEvent "-".toList) (some "t1".toList)
      "taskUpdated".toList [] [] emptyWorld.store).1 = none ∧
    (handleClickUpWebhook_ asciiUp quietEnv (statusEvent "-".toList) emptyWorld).1.action
      = none ∧
    (handleClickUpWebhook_ asciiUp quietEnv (statusEvent "-".toList)
      emptyWorld).2.calls.filter Call.isStatusNote = [] := by
  decide

/-- C12, amended. For every TaskBoard event of a task with an id whose ticket
link is resolved, whose status entries carry an explicit id and whose
extracted status change has a target status with a non-empty normalized
form, when the change has not been seen before and the same event is
processed twice in succession, the second time within the TTL window:
`detectClickUpStatusChange_` returns a transition (source `history`, target
the normalized label) on the first submission and null on the second; the
first submission attempts exactly one status note and at most one status
update of the ticket, the second attempts neither. -/
theorem C12_status_history_dedup (up : Char → List Char) (env1 env2 : Env) (p : CuPayload) (w : World)
    (hc : HistoryChange) (link : ZdLink)
    (hid : truthy p.taskOrEmpty.id = true)
    (hexp : ∀ e ∈ p.history_items, e.tagged "status".toList = true →
      firstTruthy [e.id, e.history_id] ≠ [])
    (hx : extractStatusChangeFromWebhook_ env1 p = some hc)
    (hto : normalizeStatusLabel_ up (some hc.toStatus) ≠ [])
    (hfresh : truthy (w.store.cacheGet env1.nowMs
      (statusHistoryCacheKey_ p.taskOrEmpty.id hc.id)) = false)
    (hlink : (resolveZendeskLink env1 (p.taskOrEmpty.description.getD []) p.taskOrEmpty.id
      w.store).1 = some link)
    (httl : env2.nowMs < env1.nowMs + CACHE_TTL_SECONDS * 1000) :
    (∃ change,
      (cuDetect up env1 p link (resolveZendeskLink env1 (p.taskOrEmpty.description.getD [])
        p.taskOrEmpty.id w.store).2).1 = some change ∧
      change.source = "history".toList ∧
      change.toStatus = normalizeStatusLabel_ up (some hc.toStatus)) ∧
    (∃ cs, (handleClickUpWebhook_ up env1 p w).2.calls = w.calls ++ cs ∧
      (cs.filter Call.isStatusNote).length = 1 ∧ (cs.filter Call.isStatusUpdate).length ≤ 1) ∧
    (∀ link2,
      (cuDetect up env2 p link2 (resolveZendeskLink env2 (p.taskOrEmpty.description.getD [])
        p.taskOrEmpty.id (handleClickUpWebhook_ up env1 p w).2.store).2).1 = none) ∧
    (∃ cs, (handleClickUpWebhook_ up env2 p (handleClickUpWebhook_ up env1 p w).2).2.calls
        = (handleClickUpWebhook_ up env1 p w).2.calls ++ cs ∧
      noStatusCall cs = true) := by
  have hexp' : ∀ e ∈ p.history_items.reverse, e.tagged "status".toList = true →
      firstTruthy [e.id, e.history_id] ≠ [] := fun e he => hexp e (List.mem_reverse.mp he)
  obtain ⟨hindep, hidne⟩ := statusChangeOf_explicit env1 env2 _ hexp'
  have hx2 : extractStatusChangeFromWebhook_ env2 p = some hc := by
    unfold extractStatusChangeFromWebhook_
    rw [← hindep]
    exact hx
  have hne : hc.id ≠ [] := hidne hc hx
  have hfresh1 : truthy ((cuStoreAtDetect env1 p link
      (resolveZendeskLink env1 (p.taskOrEmpty.description.getD []) p.taskOrEmpty.id
        w.store).2).cacheGet env1.nowMs (statusHistoryCacheKey_ p.taskOrEmpty.id hc.id))
      = false := by
    unfold cuStoreAtDetect
    rw [rememberZendeskLinkForTask_cacheGet _ _ _ _ _ _ _ _ (zdLinkCacheKey_ne_hist _ _),
      resolveZendeskLink_cacheGet _ _ _ _ _ _ (zdLinkCacheKey_ne_hist _ _)]
    exact hfresh
  obtain ⟨change, hdet, hsrc, hto', _, hlive⟩ :=
    detectClickUpStatusChange_first up env1 p p.taskOrEmpty.id (p.event.getD [])
      (normalizeStatusLabel_ up (some p.taskOrEmpty.status.text)) p.taskOrEmpty.status.text
      _ hc hx hid hto hne hfresh1
  have hdet' : (cuDetect up env1 p link
      (resolveZendeskLink env1 (p.taskOrEmpty.description.getD []) p.taskOrEmpty.id
        w.store).2).1 = some change := hdet
  have h1 : handleClickUpWebhook_ up env1 p w
      = processClickUpStatusChange_ up env1 p.taskOrEmpty.id link.ticketId link.subdomain
          (p.taskOrEmpty.url.getD []) (changeUserName p.history_items.reverse) change
          { store := (cuDetect up env1 p link
              (resolveZendeskLink env1 (p.taskOrEmpty.description.getD []) p.taskOrEmpty.id
                w.store).2).2,
            calls := w.calls } := by
    rw [handleClickUpWebhook_of_link _ _ _ _ _ hlink]
    exact cuHandleLinked_of_change _ _ _ _ _ _ hdet'
  obtain ⟨hcalls, hstore⟩ := processClickUpStatusChange_world up env1 p.taskOrEmpty.id
    link.ticketId link.subdomain (p.taskOrEmpty.url.getD [])
    (changeUserName p.history_items.reverse) change
    { store := (cuDetect up env1 p link
        (resolveZendeskLink env1 (p.taskOrEmpty.description.getD []) p.taskOrEmpty.id
          w.store).2).2,
      calls := w.calls }
  have hseen : ∀ link2, truthy ((cuStoreAtDetect env2 p link2
      (resolveZendeskLink env2 (p.taskOrEmpty.description.getD []) p.taskOrEmpty.id
        (handleClickUpWebhook_ up env1 p w).2.store).2).cacheGet env2.nowMs
        (statusHistoryCacheKey_ p.taskOrEmpty.id hc.id)) = true := by
    intro link2
    unfold cuStoreAtDetect
    rw [rememberZendeskLinkForTask_cacheGet _ _ _ _ _ _ _ _ (zdLinkCacheKey_ne_hist _ _),
      resolveZendeskLink_cacheGet _ _ _ _ _ _ (zdLinkCacheKey_ne_hist _ _), h1, hstore,
      rememberClickUpStatus_cacheGet _ _ _ _ _ _ _ (statusCacheKey_ne_hist _ _)]
    have := hlive _ httl
    unfold cuDetect
    rw [this]
    rfl
  have hdet2 : ∀ link2,
      cuDetect up env2 p link2 (resolveZendeskLink env2 (p.taskOrEmpty.description.getD [])
        p.taskOrEmpty.id (handleClickUpWebhook_ up env1 p w).2.store).2
      = (none, cuStoreAtDetect env2 p link2
          (resolveZendeskLink env2 (p.taskOrEmpty.description.getD []) p.taskOrEmpty.id
            (handleClickUpWebhook_ up env1 p w).2.store).2) := fun link2 =>
    detectClickUpStatusChange_seen up env2 p p.taskOrEmpty.id (p.event.getD [])
      (normalizeStatusLabel_ up (some p.taskOrEmpty.status.text)) p.taskOrEmpty.status.text
      _ hc hx2 hid hto hne (hseen link2)
  obtain ⟨hupd, hnote⟩ := filter_statusCalls link.subdomain link.ticketId
    (statusNote change (p.taskOrEmpty.url.getD []) (changeUserName p.history_items.reverse))
    (mapClickUpStatusToZendesk_ up (some change.toStatus))
  refine ⟨⟨change, hdet', hsrc, hto'⟩, ⟨_, by rw [h1]; exact hcalls,
    hnote (statusNote_starts _ _ _), hupd⟩, fun link2 => by rw [hdet2], ?_⟩
  cases hres : (resolveZendeskLink env2 (p.taskOrEmpty.description.getD []) p.taskOrEmpty.id
      (handleClickUpWebhook_ up env1 p w).2.store).1 with
  | none =>
    rw [handleClickUpWebhook_of_no_link _ _ _ _ hres]
    exact ⟨[], by simp, rfl⟩
  | some link2 =>
    rw [handleClickUpWebhook_of_link _ _ _ _ _ hres,
      cuHandleLinked_of_none _ _ _ _ _ (by rw [hdet2])]
    obtain ⟨c1, hc1, hq1⟩ := cuCreatedNote_calls env2 link2 (p.event.getD []) p.taskOrEmpty.id
      (p.taskOrEmpty.name.getD []) (p.taskOrEmpty.url.getD []) p.taskOrEmpty.status.text
      { store :=
          if normalizeStatusLabel_ up (some p.taskOrEmpty.status.text) ≠ [] then
            ensureStatusCacheBaseline_ up env2 p.taskOrEmpty.id
              (normalizeStatusLabel_ up (some p.taskOrEmpty.status.text))
              (cuDetect up env2 p link2
                (resolveZendeskLink env2 (p.taskOrEmpty.description.getD []) p.taskOrEmpty.id
                  (handleClickUpWebhook_ up env1 p w).2.store).2).2
          else (cuDetect up env2 p link2
                (resolveZendeskLink env2 (p.taskOrEmpty.description.getD []) p.taskOrEmpty.id
                  (handleClickUpWebhook_ up env1 p w).2.store).2).2,
        calls := (handleClickUpWebhook_ up env1 p w).2.calls }
    obtain ⟨c2, hc2, hq2⟩ := cuMirrorComment_calls env2 p link2 p.taskOrEmpty.id
      (p.taskOrEmpty.name.getD []) (p.taskOrEmpty.url.getD [])
      (cuCreatedNote env2 link2 (p.event.getD []) p.taskOrEmpty.id
        (p.taskOrEmpty.name.getD []) (p.taskOrEmpty.url.getD []) p.taskOrEmpty.status.text
        { store :=
            if normalizeStatusLabel_ up (some p.taskOrEmpty.status.text) ≠ [] then
              ensureStatusCacheBaseline_ up env2 p.taskOrEmpty.id
                (normalizeStatusLabel_ up (some p.taskOrEmpty.status.text))
                (cuDetect up env2 p link2
                  (resolveZendeskLink env2 (p.taskOrEmpty.description.getD []) p.taskOrEmpty.id
                    (handleClickUpWebhook_ up env1 p w).2.store).2).2
            else (cuDetect up env2 p link2
                  (resolveZendeskLink env2 (p.taskOrEmpty.description.getD []) p.taskOrEmpty.id
                    (handleClickUpWebhook_ up env1 p w).2.store).2).2,
          calls := (handleClickUpWebhook_ up env1 p w).2.calls })
    refine ⟨c1 ++ c2, ?_, by rw [noStatusCall_append, hq1, hq2]; rfl⟩
    simp only [hc2, hc1, List.append_assoc]

/-- C12 amended at the event `statusEvent "done"`, submitted at time 0 and
again one second later. -/
theorem C12_status_history_dedup_witness :
    (∃ cs, (handleClickUpWebhook_ asciiUp quietEnv (statusEvent "done".toList)
        emptyWorld).2.calls = emptyWorld.calls ++ cs ∧
      (cs.filter Call.isStatusNote).length = 1 ∧ (cs.filter Call.isStatusUpdate).length ≤ 1) ∧
    (∃ cs, (handleClickUpWebhook_ asciiUp { quietEnv with nowMs := 1000 }
        (statusEvent "done".toList)
        (handleClickUpWebhook_ asciiUp quietEnv (statusEvent "done".toList) emptyWorld).2).2.calls
        = (handleClickUpWebhook_ asciiUp quietEnv (statusEvent "done".toList)
            emptyWorld).2.calls ++ cs ∧
      noStatusCall cs = true) :=
  have h := C12_status_history_dedup asciiUp quietEnv { quietEnv with nowMs := 1000 }
    (statusEvent "done".toList) emptyWorld
    { id := "h1".toList, fromStatus := [], toStatus := "done".toList }
    { ticketId := "7".toList, subdomain := "a".toList,
      ticketUrl := "https://a.zendesk.com/agent/tickets/7".toList,
      source := "description".toList }
    (by decide) (by decide) (by decide) (by decide) (by decide) (by decide) (by decide)
  ⟨h.2.1, h.2.2.2⟩

/-! ## StatusState reads -/

theorem getProperty_deleteProperty (s : Store) (key : Str) :
    (s.deleteProperty key).getProperty key = none := by
  unfold Store.getProperty Store.deleteProperty
  simp only [Option.map_eq_none', List.find?_eq_none]
  intro e he
  simp only [List.mem_filter] at he
  simpa using he.2

theorem getLastKnownClickUpStatus_congr (env : Env) (taskId : Option Str) (s s' : Store)
    (hc : s.cacheGet env.nowMs (statusCacheKey_ taskId)
      = s'.cacheGet env.nowMs (statusCacheKey_ taskId))
    (hp : s.getProperty (statusStatePropKey_ taskId)
      = s'.getProperty (statusStatePropKey_ taskId)) :
    (getLastKnownClickUpStatus_ env taskId s).1 = (getLastKnownClickUpStatus_ env taskId s').1 := by
  unfold getLastKnownClickUpStatus_
  split_ifs
  · rfl
  · rw [hc, hp]
    cases s'.cacheGet env.nowMs (statusCacheKey_ taskId) with
    | some c => rfl
    | none =>
      simp only
      split_ifs <;> rfl

theorem getLastKnownClickUpStatus_remembered (up : Char → List Char) (env env' : Env)
    (taskId : Option Str) (status : Option Str) (s : Store) (hid : truthy taskId = true) :
    (getLastKnownClickUpStatus_ env' taskId (rememberClickUpStatus_ up env taskId status s)).1
      = normalizeStatusLabel_ up status := by
  unfold getLastKnownClickUpStatus_ rememberClickUpStatus_
  simp only [hid, Bool.not_true, Bool.false_eq_true, if_false]
  by_cases hn : normalizeStatusLabel_ up status = []
  · simp only [hn, ne_eq, not_true_eq_false, if_false, cacheGet_deleteProperty,
      cacheGet_cachePut, getProperty_deleteProperty]
    split_ifs <;> rfl
  · simp only [hn, ne_eq, not_false_eq_true, if_true, cacheGet_setProperty, cacheGet_cachePut,
      getProperty_setProperty]
    split_ifs <;> rfl

/-! ## The reopen block and the attachment loop -/

theorem zdMirrorAttachments_cons (env : Env) (subdomain : Str) (taskId : Option Str)
    (att : ZdAttachment) (rest : List ZdAttachment) (w : World) :
    zdMirrorAttachments env subdomain taskId (att :: rest) w
      = zdMirrorAttachments env subdomain taskId rest (zdMirrorOne env subdomain taskId att w) :=
  rfl

theorem zdMirrorOne_world (env : Env) (subdomain : Str) (taskId : Option Str)
    (att : ZdAttachment) (w : World) :
    (zdMirrorOne env subdomain taskId att w).store = w.store ∧
    ∃ cs, (zdMirrorOne env subdomain taskId att w).calls = w.calls ++
      .downloadZendeskAttachment subdomain att.content_url att.file_name :: cs := by
  have hd : (downloadZendeskAttachment_ env subdomain att.content_url att.file_name w).2
      = { store := w.store, calls := w.calls ++
          [.downloadZendeskAttachment subdomain att.content_url att.file_name] } := by
    unfold downloadZendeskAttachment_ perform
    simp only
    split <;> rfl
  unfold zdMirrorOne
  simp only [hd]
  split
  · split
    · exact ⟨rfl, _, by
        simp only [uploadAttachmentToClickUp_, perform, List.append_assoc]; rfl⟩
    · exact ⟨rfl, _, by
        simp only [uploadAttachmentToClickUp_, addClickUpTaskComment_, perform,
          List.append_assoc]; rfl⟩
  · exact ⟨rfl, _, by simp only [addClickUpTaskComment_, perform, List.append_assoc]; rfl⟩

theorem zdMirrorAttachments_world (env : Env) (subdomain : Str) (taskId : Option Str)
    (atts : List ZdAttachment) (w : World) :
    (zdMirrorAttachments env subdomain taskId atts w).store = w.store ∧
    (∃ cs, (zdMirrorAttachments env subdomain taskId atts w).calls = w.calls ++ cs) ∧
    ∀ att ∈ atts, Call.downloadZendeskAttachment subdomain att.content_url att.file_name
      ∈ (zdMirrorAttachments env subdomain taskId atts w).calls := by
  induction atts generalizing w with
  | nil => exact ⟨rfl, ⟨[], by simp [zdMirrorAttachments]⟩, fun _ h => by simp at h⟩
  | cons att rest ih =>
    rw [zdMirrorAttachments_cons]
    obtain ⟨hs, cs1, hc1⟩ := zdMirrorOne_world env subdomain taskId att w
    obtain ⟨ihs, ⟨cs, ihc⟩, ihm⟩ := ih (zdMirrorOne env subdomain taskId att w)
    refine ⟨ihs.trans hs,
      ⟨.downloadZendeskAttachment subdomain att.content_url att.file_name :: cs1 ++ cs,
        by rw [ihc, hc1]; simp⟩, ?_⟩
    intro a ha
    rcases List.mem_cons.mp ha with rfl | ha
    · rw [ihc, hc1]
      simp
    · exact ihm a ha

theorem zdReopenIfComplete_complete (up : Char → List Char) (env : Env)
    (reopenStatus subdomain ticket_id : Str) (taskId : Option Str) (w : World)
    (hid : truthy taskId = true) (hre : reopenStatus ≠ [])
    (hst : normalizeStatusLabel_ up (some (zdLastStatus env taskId w)) ≠ [] ∧
      reCompletion.test (normalizeStatusLabel_ up (some (zdLastStatus env taskId w))) = true) :
    (zdReopenIfComplete up env reopenStatus subdomain ticket_id taskId w).calls
      = w.calls ++ [.getClickUpTask taskId, .updateZendeskStatus subdomain ticket_id "new".toList,
          .updateClickUpTaskStatus taskId reopenStatus] ∧
    ((env.reply (w.calls ++ [.getClickUpTask taskId,
          .updateZendeskStatus subdomain ticket_id "new".toList])
        (.updateClickUpTaskStatus taskId reopenStatus)).error = none →
      ∃ s, (zdReopenIfComplete up env reopenStatus subdomain ticket_id taskId w).store
        = rememberClickUpStatus_ up env taskId (some reopenStatus) s) := by
  unfold zdLastStatus at hst
  unfold zdReopenIfComplete
  simp only [getClickUpTask_world]
  cases hl : (getClickUpTask_ env taskId w).1 with
  | ok data =>
    rw [hl] at hst
    simp only at hst ⊢
    simp only [hst, and_self, if_true, updateZendeskStatus_, updateClickUpTaskStatus_, perform,
      hid, hre, Bool.not_true, Bool.false_eq_true, if_false, Bool.or_self, List.append_assoc,
      List.cons_append, List.nil_append, ne_eq, not_false_eq_true]
    split
    · rename_i e he
      refine ⟨rfl, fun h => ?_⟩
      rw [h] at he
      cases he
    · exact ⟨rfl, fun _ => ⟨_, rfl⟩⟩
  | error e =>
    rw [hl] at hst
    simp only at hst ⊢
    simp only [hst, and_self, if_true, updateZendeskStatus_, updateClickUpTaskStatus_, perform,
      hid, hre, Bool.not_true, Bool.false_eq_true, if_false, Bool.or_self, List.append_assoc,
      List.cons_append, List.nil_append, ne_eq, not_false_eq_true]
    split
    · rename_i e he
      refine ⟨rfl, fun h => ?_⟩
      rw [h] at he
      cases he
    · exact ⟨rfl, fun _ => ⟨_, rfl⟩⟩

/-! ## Reopen policy -/

theorem zdCommentDedupKey_ne_status (ticket_id cid : Str) (taskId : Option Str) :
    zdCommentDedupKey ticket_id cid ≠ statusCacheKey_ taskId := by
  unfold zdCommentDedupKey statusCacheKey_
  intro h
  simp at h

theorem CLICKUP_REOPEN_STATUS_ne_nil (s : Store) : CLICKUP_REOPEN_STATUS s ≠ [] := by
  unfold CLICKUP_REOPEN_STATUS orElse
  split_ifs with h
  · decide
  · exact h

/-- C13. For a note whose task has been found or created (`zdFinish`, the
handler from line 332 on) and has an id: when the status read at the reopen
block (the live status of the task, the last known status when the read
fails) normalizes to a non-empty label that matches
`/COMPLETE|COMPLETED|DONE|RESOLVED|CLOSED/`, then, whatever the platforms
answer, the calls made are the status update of the ticket to `new` followed
by the status update of the task to the configured reopened label, the
attachment loop still tries every attachment, the result is ok with the task,
and when the task update does not fail the last known status of the task is
the normalized reopened label. -/
theorem C13_reopen_policy (up : Char → List Char) (env : Env) (s0 : Store)
    (subdomain ticket_id ticket_url opsReason agentName noteText : Str)
    (zdCommentId : Option Str) (attachments : List ZdAttachment) (task : TaskRef)
    (isNewTask : Bool) (w : World) (hid : truthy task.id = true)
    (hst : normalizeStatusLabel_ up (some (zdLastStatus env task.id
        (zdWorldAtReopen env subdomain ticket_id ticket_url opsReason agentName noteText
          zdCommentId task isNewTask w))) ≠ [] ∧
      reCompletion.test (normalizeStatusLabel_ up (some (zdLastStatus env task.id
        (zdWorldAtReopen env subdomain ticket_id ticket_url opsReason agentName noteText
          zdCommentId task isNewTask w)))) = true) :
    (∃ post,
      (zdFinish up env (CLICKUP_REOPEN_STATUS s0) subdomain ticket_id ticket_url opsReason
        agentName noteText zdCommentId attachments task isNewTask w).2.calls
        = (zdWorldAtReopen env subdomain ticket_id ticket_url opsReason agentName noteText
            zdCommentId task isNewTask w).calls ++
          [.getClickUpTask task.id, .updateZendeskStatus subdomain ticket_id "new".toList,
           .updateClickUpTaskStatus task.id (CLICKUP_REOPEN_STATUS s0)] ++ post) ∧
    (∀ att ∈ attachments,
      Call.downloadZendeskAttachment subdomain att.content_url att.file_name
        ∈ (zdFinish up env (CLICKUP_REOPEN_STATUS s0) subdomain ticket_id ticket_url opsReason
            agentName noteText zdCommentId attachments task isNewTask w).2.calls) ∧
    (zdFinish up env (CLICKUP_REOPEN_STATUS s0) subdomain ticket_id ticket_url opsReason
      agentName noteText zdCommentId attachments task isNewTask w).1.ok = true ∧
    (zdFinish up env (CLICKUP_REOPEN_STATUS s0) subdomain ticket_id ticket_url opsReason
      agentName noteText zdCommentId attachments task isNewTask w).1.task = some task ∧
    ((env.reply
        ((zdWorldAtReopen env subdomain ticket_id ticket_url opsReason agentName noteText
            zdCommentId task isNewTask w).calls ++
          [.getClickUpTask task.id, .updateZendeskStatus subdomain ticket_id "new".toList])
        (.updateClickUpTaskStatus task.id (CLICKUP_REOPEN_STATUS s0))).error = none →
      ∀ env', (getLastKnownClickUpStatus_ env' task.id
        (zdFinish up env (CLICKUP_REOPEN_STATUS s0) subdomain ticket_id ticket_url opsReason
          agentName noteText zdCommentId attachments task isNewTask w).2.store).1
        = normalizeStatusLabel_ up (some (CLICKUP_REOPEN_STATUS s0))) := by
  obtain ⟨hcalls, hstore⟩ := zdReopenIfComplete_complete up env (CLICKUP_REOPEN_STATUS s0)
    subdomain ticket_id task.id
    (zdWorldAtReopen env subdomain ticket_id ticket_url opsReason agentName noteText
      zdCommentId task isNewTask w) hid (CLICKUP_REOPEN_STATUS_ne_nil s0) hst
  obtain ⟨hms, ⟨post, hmc⟩, hmm⟩ := zdMirrorAttachments_world env subdomain task.id attachments
    (zdReopenIfComplete up env (CLICKUP_REOPEN_STATUS s0) subdomain ticket_id task.id
      (zdWorldAtReopen env subdomain ticket_id ticket_url opsReason agentName noteText
        zdCommentId task isNewTask w))
  have hfc : (zdFinish up env (CLICKUP_REOPEN_STATUS s0) subdomain ticket_id ticket_url opsReason
      agentName noteText zdCommentId attachments task isNewTask w).2.calls
      = (zdMirrorAttachments env subdomain task.id attachments
          (zdReopenIfComplete up env (CLICKUP_REOPEN_STATUS s0) subdomain ticket_id task.id
            (zdWorldAtReopen env subdomain ticket_id ticket_url opsReason agentName noteText
              zdCommentId task isNewTask w))).calls := by
    unfold zdFinish zdWorldAtReopen
    cases zdCommentId <;> rfl
  refine ⟨⟨post, by rw [hfc, hmc, hcalls]⟩, fun att ha => by rw [hfc]; exact hmm att ha, rfl, rfl,
    fun hok env' => ?_⟩
  obtain ⟨s, hs⟩ := hstore hok
  rw [← getLastKnownClickUpStatus_remembered up env env' task.id
    (some (CLICKUP_REOPEN_STATUS s0)) s hid, ← hs, ← hms]
  apply getLastKnownClickUpStatus_congr
  · unfold zdFinish zdWorldAtReopen
    cases zdCommentId with
    | none => rfl
    | some cid => exact cacheGet_cachePut_ne _ _ _ _ _ _ _ (zdCommentDedupKey_ne_status _ _ _)
  · unfold zdFinish zdWorldAtReopen
    cases zdCommentId <;> rfl

/-- C13 at a task `t1` whose live status cannot be read and whose last
known status is `COMPLETE`: both updates are made and the task is then known
as `REOPENED`. -/
theorem C13_reopen_policy_witness :
    (∃ post,
      (zdFinish asciiUp quietEnv (CLICKUP_REOPEN_STATUS emptyWorld.store) "a".toList "7".toList
        "https://a.zendesk.com/agent/tickets/7".toList "fwd delay".toList "Ann Lee".toList
        "hi".toList (some "9".toList) [{ content_url := "u".toList, file_name := "f".toList }]
        { id := some "t1".toList, url := none, name := some "A1".toList } false
        { store := { cache := [], props := [("CLICKUP_STATUS::t1".toList, "COMPLETE".toList)] },
          calls := [] }).2.calls
        = (zdWorldAtReopen quietEnv "a".toList "7".toList
            "https://a.zendesk.com/agent/tickets/7".toList "fwd delay".toList "Ann Lee".toList
            "hi".toList (some "9".toList)
            { id := some "t1".toList, url := none, name := some "A1".toList } false
            { store :=
                { cache := [], props := [("CLICKUP_STATUS::t1".toList, "COMPLETE".toList)] },
              calls := [] }).calls ++
          [.getClickUpTask (some "t1".toList),
           .updateZendeskStatus "a".toList "7".toList "new".toList,
           .updateClickUpTaskStatus (some "t1".toList)
             (CLICKUP_REOPEN_STATUS emptyWorld.store)] ++ post) ∧
    (getLastKnownClickUpStatus_ quietEnv (some "t1".toList)
      (zdFinish asciiUp quietEnv (CLICKUP_REOPEN_STATUS emptyWorld.store) "a".toList "7".toList
        "https://a.zendesk.com/agent/tickets/7".toList "fwd delay".toList "Ann Lee".toList
        "hi".toList (some "9".toList) [{ content_url := "u".toList, file_name := "f".toList }]
        { id := some "t1".toList, url := none, name := some "A1".toList } false
        { store := { cache := [], props := [("CLICKUP_STATUS::t1".toList, "COMPLETE".toList)] },
          calls := [] }).2.store).1 = "REOPENED".toList :=
  have h := C13_reopen_policy asciiUp quietEnv emptyWorld.store "a".toList "7".toList
    "https://a.zendesk.com/agent/tickets/7".toList "fwd delay".toList "Ann Lee".toList
    "hi".toList (some "9".toList) [{ content_url := "u".toList, file_name := "f".toList }]
    { id := some "t1".toList, url := none, name := some "A1".toList } false
    { store := { cache := [], props := [("CLICKUP_STATUS::t1".toList, "COMPLETE".toList)] },
      calls := [] }
    (by decide) (by decide)
  ⟨h.1, (h.2.2.2.2 (by decide) quietEnv).trans (by decide)⟩

/-! ## What a detected change looks like -/

theorem detectClickUpStatusChange_no_history (up : Char → List Char) (env : Env)
    (p : CuPayload) (taskId : Option Str) (event normalizedStatus rawStatus : Str) (s : Store)
    (h : extractStatusChangeFromWebhook_ env p = none) :
    detectClickUpStatusChange_ up env p taskId event normalizedStatus rawStatus s
      = cuLiveDiff env taskId event normalizedStatus rawStatus s := by
  unfold detectClickUpStatusChange_ cuLiveDiff
  simp only [h]

theorem cuLiveDiff_target (env : Env) (taskId : Option Str) (event normalizedStatus
    rawStatus : Str) (s : Store) (change : StatusChange)
    (h : (cuLiveDiff env taskId event normalizedStatus rawStatus s).1 = some change) :
    truthy taskId = true ∧ normalizedStatus ≠ [] ∧ change.toStatus = normalizedStatus := by
  unfold cuLiveDiff at h
  by_cases h1 : (!truthy taskId || decide (normalizedStatus = [])) = true
  · simp [h1] at h
  · simp only [h1, Bool.false_eq_true, if_false] at h
    simp only [Bool.or_eq_true, Bool.not_eq_true', decide_eq_true_eq, not_or,
      Bool.not_eq_false] at h1
    refine ⟨h1.1, h1.2, ?_⟩
    split_ifs at h <;> simp at h <;> rw [← h]

theorem detectClickUpStatusChange_target (up : Char → List Char) (hup : UpperSpec up)
    (env : Env) (p : CuPayload) (taskId : Option Str) (event rawStatus : Str) (s : Store)
    (change : StatusChange)
    (h : (detectClickUpStatusChange_ up env p taskId event
      (normalizeStatusLabel_ up (some rawStatus)) rawStatus s).1 = some change) :
    truthy taskId = true ∧ change.toStatus ≠ [] ∧
    normalizeStatusLabel_ up (some change.toStatus) = change.toStatus := by
  have hlive : (cuLiveDiff env taskId event (normalizeStatusLabel_ up (some rawStatus))
      rawStatus s).1 = some change →
      truthy taskId = true ∧ change.toStatus ≠ [] ∧
      normalizeStatusLabel_ up (some change.toStatus) = change.toStatus := by
    intro hl
    obtain ⟨h1, h2, h3⟩ := cuLiveDiff_target _ _ _ _ _ _ _ hl
    rw [h3]
    exact ⟨h1, h2, normalizeStatusLabel_fixed hup _⟩
  cases hx : extractStatusChangeFromWebhook_ env p with
  | none =>
    rw [detectClickUpStatusChange_no_history _ _ _ _ _ _ _ _ hx] at h
    exact hlive h
  | some hc =>
    unfold detectClickUpStatusChange_ at h
    simp only [hx] at h
    change (if (!truthy taskId) = true then
        cuLiveDiff env taskId event (normalizeStatusLabel_ up (some rawStatus)) rawStatus s
      else _).1 = some change at h
    by_cases h1 : (!truthy taskId) = true
    · rw [if_pos h1] at h
      exact hlive h
    · rw [if_neg h1] at h
      by_cases h2 : normalizeStatusLabel_ up (some hc.toStatus) = []
      · rw [if_pos h2] at h
        exact hlive h
      · rw [if_neg h2] at h
        have h1' : truthy taskId = true := by simpa using h1
        split_ifs at h
        all_goals first
          | (simp at h; done)
          | (simp only [Option.some.injEq] at h
             subst h
             exact ⟨h1', h2, normalizeStatusLabel_fixed hup (some hc.toStatus)⟩)

/-! ## Independent side effects of a status change -/

theorem processClickUpStatusChange_errors (up : Char → List Char) (env : Env)
    (taskId : Option Str) (ticketId subdomain taskUrl userName : Str) (change : StatusChange)
    (w : World) (target : Str)
    (hmap : mapClickUpStatusToZendesk_ up (some change.toStatus) = .status target) :
    (processClickUpStatusChange_ up env taskId ticketId subdomain taskUrl userName change w).1.errors
      = (match (env.reply w.calls (.addZendeskInternalNote subdomain ticketId
            (statusNote change taskUrl userName))).error with
         | some e => ["note:".toList ++ e]
         | none => []) ++
        (match (env.reply (w.calls ++ [.addZendeskInternalNote subdomain ticketId
            (statusNote change taskUrl userName)])
            (.updateZendeskStatus subdomain ticketId target)).error with
         | some e => ["status:".toList ++ e]
         | none => []) ∧
    (processClickUpStatusChange_ up env taskId ticketId subdomain taskUrl userName change w).1.ok
      = decide ((processClickUpStatusChange_ up env taskId ticketId subdomain taskUrl userName
          change w).1.errors = []) := by
  unfold processClickUpStatusChange_ addZendeskInternalNote_ updateZendeskStatus_ perform
    statusNote
  simp only [hmap]
  constructor
  · split <;> split <;> simp_all
  · split <;> rfl

/-- C14. For every change returned by `detectClickUpStatusChange_` (its
target label is then non-empty and normalized), `processClickUpStatusChange_`
makes exactly two calls, whatever the platforms answer: the internal note on
the ticket, then the status update of the ticket to one of the five statuses;
`errors` holds `note:...` when the first fails and `status:...` when the
second fails, `ok` is true exactly when both succeed, and afterwards the last
known status of the task is the target label of the change. -/
theorem C14_status_change_side_effects (up : Char → List Char) (hup : UpperSpec up)
    (env0 env : Env) (p : CuPayload) (taskId : Option Str) (event rawStatus : Str) (s0 : Store)
    (change : StatusChange) (ticketId subdomain taskUrl userName : Str) (w : World)
    (hdet : (detectClickUpStatusChange_ up env0 p taskId event
      (normalizeStatusLabel_ up (some rawStatus)) rawStatus s0).1 = some change) :
    ∃ target ∈ zendeskStatuses,
      (processClickUpStatusChange_ up env taskId ticketId subdomain taskUrl userName change
          w).2.calls
        = w.calls ++
            [.addZendeskInternalNote subdomain ticketId (statusNote change taskUrl userName),
             .updateZendeskStatus subdomain ticketId target] ∧
      (processClickUpStatusChange_ up env taskId ticketId subdomain taskUrl userName change
          w).1.errors
        = (match (env.reply w.calls (.addZendeskInternalNote subdomain ticketId
              (statusNote change taskUrl userName))).error with
           | some e => ["note:".toList ++ e]
           | none => []) ++
          (match (env.reply (w.calls ++ [.addZendeskInternalNote subdomain ticketId
              (statusNote change taskUrl userName)])
              (.updateZendeskStatus subdomain ticketId target)).error with
           | some e => ["status:".toList ++ e]
           | none => []) ∧
      ((processClickUpStatusChange_ up env taskId ticketId subdomain taskUrl userName change
          w).1.ok = true ↔
        (env.reply w.calls (.addZendeskInternalNote subdomain ticketId
            (statusNote change taskUrl userName))).error = none ∧
        (env.reply (w.calls ++ [.addZendeskInternalNote subdomain ticketId
            (statusNote change taskUrl userName)])
            (.updateZendeskStatus subdomain ticketId target)).error = none) ∧
      ∀ env', (getLastKnownClickUpStatus_ env' taskId
        (processClickUpStatusChange_ up env taskId ticketId subdomain taskUrl userName change
          w).2.store).1 = change.toStatus := by
  obtain ⟨hid, hne, hfix⟩ := detectClickUpStatusChange_target up hup env0 p taskId event
    rawStatus s0 change hdet
  have hmap := mapClickUpStatusToZendesk_eq_reference hup (some change.toStatus)
    (by rw [hfix]; exact hne)
  obtain ⟨hcalls, hstore⟩ := processClickUpStatusChange_world up env taskId ticketId subdomain
    taskUrl userName change w
  obtain ⟨herr, hok⟩ := processClickUpStatusChange_errors up env taskId ticketId subdomain
    taskUrl userName change w _ hmap
  refine ⟨_, referenceTranslation_mem _, ?_, herr, ?_, fun env' => ?_⟩
  · rw [hcalls, hmap]
  · rw [hok, herr]
    cases (env.reply w.calls (.addZendeskInternalNote subdomain ticketId
        (statusNote change taskUrl userName))).error <;>
      cases (env.reply (w.calls ++ [.addZendeskInternalNote subdomain ticketId
        (statusNote change taskUrl userName)])
        (.updateZendeskStatus subdomain ticketId
          (referenceTranslation (normalizeStatusLabel_ up (some change.toStatus))))).error <;>
      simp
  · rw [hstore, getLastKnownClickUpStatus_remembered up env env' taskId _ _ hid, hfix]

/-- C14 at the change detected for `statusEvent "done"`, on a platform where
every call fails with `503`: both calls are made, both errors are reported. -/
theorem C14_status_change_side_effects_witness :
    ∃ target ∈ zendeskStatuses,
      (processClickUpStatusChange_ asciiUp failingEnv
          (some "t1".toList) "7".toList "a".toList [] "Ann".toList
          doneChange emptyWorld).2.calls
        = emptyWorld.calls ++
            [.addZendeskInternalNote "a".toList "7".toList
               (statusNote doneChange []
                 "Ann".toList),
             .updateZendeskStatus "a".toList "7".toList target] ∧
      (processClickUpStatusChange_ asciiUp failingEnv
          (some "t1".toList) "7".toList "a".toList [] "Ann".toList
          doneChange emptyWorld).1.errors
        = ["note:503".toList, "status:503".toList] :=
  have h := C14_status_change_side_effects asciiUp asciiUp_spec quietEnv
    failingEnv
    (statusEvent "done".toList) (some "t1".toList) "taskUpdated".toList [] emptyWorld.store
    doneChange
    "7".toList "a".toList [] "Ann".toList emptyWorld (by decide)
  h.imp fun _ hx => ⟨hx.1, hx.2.1, hx.2.2.1.trans (by rfl)⟩

/-! ## Status entries of the history -/

theorem statusChangeOf_cons (env : Env) (h : HistoryItem) (older : List HistoryItem) :
    statusChangeOf env (h :: older)
      = if h.tagged "status".toList = true ∧ h.toText ≠ [] then some (h.change env)
        else statusChangeOf env older := by
  rw [statusChangeOf]
  by_cases ht : h.tagged "status".toList = true
  · simp only [ht, Bool.not_true, Bool.false_eq_true, if_false, true_and]
    rfl
  · simp only [ht, Bool.not_false, if_true, false_and, if_false]
    simp [ht]

theorem statusChangeOf_skip (env : Env) (newer rest : List HistoryItem)
    (h : ∀ e ∈ newer, ¬(e.tagged "status".toList = true ∧ e.toText ≠ [])) :
    statusChangeOf env (newer ++ rest) = statusChangeOf env rest := by
  induction newer with
  | nil => rfl
  | cons e newer ih =>
    rw [List.cons_append, statusChangeOf_cons, if_neg (h e (List.mem_cons_self _ _))]
    exact ih (fun x hx => h x (List.mem_cons_of_mem _ hx))

theorem statusChangeOf_none (env : Env) (l : List HistoryItem) :
    statusChangeOf env l = none ↔
      ∀ e ∈ l, ¬(e.tagged "status".toList = true ∧ e.toText ≠ []) := by
  induction l with
  | nil => simp [statusChangeOf]
  | cons e l ih =>
    rw [statusChangeOf_cons]
    by_cases he : e.tagged "status".toList = true ∧ e.toText ≠ []
    · rw [if_pos he]
      constructor
      · intro h
        cases h
      · intro h
        exact absurd he (h e (List.mem_cons_self _ _))
    · rw [if_neg he, ih]
      simp only [List.mem_cons, forall_eq_or_imp]
      exact ⟨fun h => ⟨he, h⟩, fun h => h.2⟩

theorem extractStatusChangeFromWebhook_at (env : Env) (p : CuPayload)
    (older newer : List HistoryItem) (h : HistoryItem)
    (hp : p.history_items = older ++ h :: newer)
    (hn : ∀ e ∈ newer, ¬(e.tagged "status".toList = true ∧ e.toText ≠ [])) :
    extractStatusChangeFromWebhook_ env p
      = if h.tagged "status".toList = true ∧ h.toText ≠ [] then some (h.change env)
        else statusChangeOf env older.reverse := by
  unfold extractStatusChangeFromWebhook_
  rw [hp, List.reverse_append, List.reverse_cons, List.append_assoc,
    statusChangeOf_skip env _ _ (fun e he => hn e (List.mem_reverse.mp he))]
  exact statusChangeOf_cons env h older.reverse

theorem HVal.text_unwrap (v : Option HVal) : HVal.text (HVal.unwrap v) = HVal.text v := by
  unfold HVal.unwrap
  split
  · split_ifs <;> rfl
  · rfl

theorem HVal.plain_unwrap (v : Option HVal) (h : HVal.plain v = true) :
    HVal.plain (HVal.unwrap v) = true := by
  unfold HVal.unwrap
  split
  · split_ifs
    · rfl
    · exact h
  · exact h

theorem HVal.text_first (cands : List (Option HVal)) (h : ∀ v ∈ cands, HVal.plain v = true) :
    HVal.text (HVal.first cands) = specFirstNonEmpty (cands.map HVal.text) := by
  induction cands with
  | nil => rfl
  | cons v vs ih =>
    have ih' := ih (fun x hx => h x (List.mem_cons_of_mem _ hx))
    have hv := h v (List.mem_cons_self _ _)
    rw [HVal.first, List.map_cons, specFirstNonEmpty]
    rcases v with _ | s | st
    · simpa [HVal.truthy, HVal.text] using ih'
    · cases s with
      | nil => simpa [HVal.truthy, HVal.text] using ih'
      | cons c s => simp [HVal.truthy, HVal.text]
    · have : st.getD [] ≠ [] := by simpa [HVal.plain] using hv
      simp [HVal.truthy, HVal.text, this]

/-! ## Key priority of a status entry -/

/-- C15, as stated, fails when `after` is an object without a status: the
entry `shadowedEntry` is status-tagged and its `to` key holds `done`, but the
candidate taken is the `after` object, whose text is empty, and no
transition is produced. -/
theorem C15_after_object_hides_to :
    shadowedEntry.tagged "status".toList = true ∧
    shadowedEntry.to_ = some (.str "done".toList) ∧
    shadowedEntry.toText = [] ∧
    extractStatusChangeFromWebhook_ quietEnv (historyEvent [shadowedEntry]) = none := by
  decide

/-- C15, amended. For the most recent status-tagged entry `h` of an event,
when each of its candidate values is absent, a string, or an object with a
non-empty status: the `to` value read is the first non-empty one of `after`
(its status or itself), `to`, `new`, `value_after`, the `from` value the first
non-empty one of `before`, `from`, `old`, `value_before`; and when some `to`
candidate is non-empty, `extractStatusChangeFromWebhook_` returns the
transition of that entry, with that non-empty `to`. -/
theorem C15_status_key_priority (env : Env) (p : CuPayload) (older newer : List HistoryItem)
    (h : HistoryItem) (hp : p.history_items = older ++ h :: newer)
    (hn : ∀ e ∈ newer, e.tagged "status".toList = false)
    (ht : h.tagged "status".toList = true)
    (hto : ∀ v ∈ [h.after, h.to_, h.new, h.value_after], HVal.plain v = true)
    (hfrom : ∀ v ∈ [h.before, h.from_, h.old, h.value_before], HVal.plain v = true) :
    h.toText = specFirstNonEmpty
      [HVal.text h.after, HVal.text h.to_, HVal.text h.new, HVal.text h.value_after] ∧
    h.fromText = specFirstNonEmpty
      [HVal.text h.before, HVal.text h.from_, HVal.text h.old, HVal.text h.value_before] ∧
    (specFirstNonEmpty
        [HVal.text h.after, HVal.text h.to_, HVal.text h.new, HVal.text h.value_after] ≠ [] →
      extractStatusChangeFromWebhook_ env p
        = some { id := orElse (firstTruthy [h.id, h.history_id]) (toString env.nowMs).toList,
                 fromStatus := specFirstNonEmpty
                   [HVal.text h.before, HVal.text h.from_, HVal.text h.old,
                    HVal.text h.value_before],
                 toStatus := specFirstNonEmpty
                   [HVal.text h.after, HVal.text h.to_, HVal.text h.new,
                    HVal.text h.value_after] }) := by
  have h1 : h.toText = specFirstNonEmpty
      [HVal.text h.after, HVal.text h.to_, HVal.text h.new, HVal.text h.value_after] := by
    unfold HistoryItem.toText
    rw [HVal.text_first]
    · simp only [List.map_cons, List.map_nil, HVal.text_unwrap]
    · intro v hv
      simp only [List.mem_cons, List.mem_singleton, List.not_mem_nil, or_false] at hv
      rcases hv with rfl | rfl | rfl | rfl
      · exact HVal.plain_unwrap _ (hto _ (by simp))
      · exact hto _ (by simp)
      · exact hto _ (by simp)
      · exact hto _ (by simp)
  have h2 : h.fromText = specFirstNonEmpty
      [HVal.text h.before, HVal.text h.from_, HVal.text h.old, HVal.text h.value_before] := by
    unfold HistoryItem.fromText
    rw [HVal.text_first]
    · simp only [List.map_cons, List.map_nil, HVal.text_unwrap]
    · intro v hv
      simp only [List.mem_cons, List.mem_singleton, List.not_mem_nil, or_false] at hv
      rcases hv with rfl | rfl | rfl | rfl
      · exact HVal.plain_unwrap _ (hfrom _ (by simp))
      · exact hfrom _ (by simp)
      · exact hfrom _ (by simp)
      · exact hfrom _ (by simp)
  refine ⟨h1, h2, fun hne => ?_⟩
  rw [extractStatusChangeFromWebhook_at env p older newer h hp
    (fun e he hc => by rw [hn e he] at hc; exact absurd hc.1 (by decide)),
    if_pos ⟨ht, by rw [h1]; exact hne⟩]
  unfold HistoryItem.change
  rw [h1, h2]

/-- C15 amended at an event whose history is the status entry `plainEntry`
followed by a comment: the transition is `open` to `in progress`. -/
theorem C15_status_key_priority_witness :
    extractStatusChangeFromWebhook_ quietEnv
        (historyEvent [plainEntry, commentEntry "hello".toList])
      = some { id := "h2".toList, fromStatus := "open".toList,
               toStatus := "in progress".toList } :=
  ((C15_status_key_priority quietEnv (historyEvent [plainEntry, commentEntry "hello".toList])
    [] [commentEntry "hello".toList] plainEntry rfl (by decide) (by decide) (by decide)
    (by decide)).2.2 (by decide)).trans (by decide)

/-! ## Scan order of the history -/

/-- C16, as stated, fails when the most recent status entry has no usable
`to` and an older one has: for the history `[doneEntry, blankEntry]` the most
recent status-tagged entry is `blankEntry`, without target, and the result is
not null but the transition of the older entry `h0`. -/
theorem C16_older_entry_is_used :
    blankEntry.tagged "status".toList = true ∧ blankEntry.toText = [] ∧
    extractStatusChangeFromWebhook_ quietEnv (historyEvent [doneEntry, blankEntry])
      = some { id := "h0".toList, fromStatus := [], toStatus := "done".toList } := by
  decide

/-- C16, amended. `extractStatusChangeFromWebhook_` scans the history from the
last entry to the first and returns the transition of the most recent
status-tagged entry that carries a usable `to` value: when the entry `h` is
followed only by entries that are not status-tagged or carry no usable `to`,
the result is the transition of `h` if `h` is status-tagged with a usable
`to`, and the result for the entries before `h` otherwise; the result is null
exactly when no status-tagged entry carries a usable `to`, in particular when
no entry is status-tagged. -/
theorem C16_status_scan_order (env : Env) (p : CuPayload) (older newer : List HistoryItem)
    (h : HistoryItem) (hp : p.history_items = older ++ h :: newer)
    (hn : ∀ e ∈ newer, ¬(e.tagged "status".toList = true ∧ e.toText ≠ [])) :
    (extractStatusChangeFromWebhook_ env p
      = if h.tagged "status".toList = true ∧ h.toText ≠ [] then some (h.change env)
        else extractStatusChangeFromWebhook_ env { p with history_items := older }) ∧
    (extractStatusChangeFromWebhook_ env p = none ↔
      ∀ e ∈ p.history_items, ¬(e.tagged "status".toList = true ∧ e.toText ≠ [])) ∧
    ((∀ e ∈ p.history_items, e.tagged "status".toList = false) →
      extractStatusChangeFromWebhook_ env p = none) := by
  have hnone : extractStatusChangeFromWebhook_ env p = none ↔
      ∀ e ∈ p.history_items, ¬(e.tagged "status".toList = true ∧ e.toText ≠ []) := by
    unfold extractStatusChangeFromWebhook_
    rw [statusChangeOf_none]
    exact ⟨fun hh e he => hh e (List.mem_reverse.mpr he),
      fun hh e he => hh e (List.mem_reverse.mp he)⟩
  refine ⟨extractStatusChangeFromWebhook_at env p older newer h hp hn, hnone, fun hall => ?_⟩
  exact hnone.mpr (fun e he hc => by rw [hall e he] at hc; exact absurd hc.1 (by decide))

/-- C16 amended at the history `[doneEntry, plainEntry, blankEntry]`: the
transition is that of `plainEntry`, the most recent entry with a target. -/
theorem C16_status_scan_order_witness :
    extractStatusChangeFromWebhook_ quietEnv (historyEvent [doneEntry, plainEntry, blankEntry])
      = some { id := "h2".toList, fromStatus := "open".toList,
               toStatus := "in progress".toList } :=
  (C16_status_scan_order quietEnv (historyEvent [doneEntry, plainEntry, blankEntry])
    [doneEntry] [blankEntry] plainEntry rfl (by decide)).1.trans (by decide)

/-! ## The status keys are kept by the other stages -/

theorem zdLinkCacheKey_ne_status (taskId taskId' : Option Str) (h : taskId = taskId') :
    zdLinkCacheKey_ taskId ≠ statusCacheKey_ taskId' := by
  subst h
  unfold zdLinkCacheKey_ statusCacheKey_
  intro h
  have := congrArg List.length h
  simp at this

theorem zdLinkPropKey_ne_status (taskId taskId' : Option Str) :
    zdLinkPropKey_ taskId ≠ statusStatePropKey_ taskId' := by
  unfold zdLinkPropKey_ statusStatePropKey_
  intro h
  simp at h

theorem createdNoteKey_ne_status (taskId : Option Str) :
    createdNoteKey taskId ≠ statusCacheKey_ taskId := by
  unfold createdNoteKey statusCacheKey_
  intro h
  simp at h

theorem commentDedupKey_ne_status (taskId : Option Str) (cid : Str) :
    commentDedupKey taskId cid ≠ statusCacheKey_ taskId := by
  unfold commentDedupKey statusCacheKey_
  intro h
  simp at h

theorem rememberZendeskLinkForTask_getProperty (env : Env) (taskId : Option Str)
    (ticketId subdomain ticketUrl : Str) (s : Store) (key : Str)
    (hk : zdLinkPropKey_ taskId ≠ key) :
    (rememberZendeskLinkForTask_ env taskId ticketId subdomain ticketUrl s).getProperty key
      = s.getProperty key := by
  unfold rememberZendeskLinkForTask_
  split_ifs
  · rfl
  · simp only
    rw [getProperty_setProperty_ne _ _ _ _ hk]
    rfl

theorem getZendeskLinkForTask_getProperty (env : Env) (taskId : Option Str) (s : Store)
    (key : Str) : (getZendeskLinkForTask_ env taskId s).2.getProperty key = s.getProperty key := by
  unfold getZendeskLinkForTask_
  split_ifs
  · rfl
  · simp only
    split
    · rfl
    · split
      · rfl
      · split_ifs
        · rfl
        · split <;> rfl

theorem resolveZendeskLink_getProperty (env : Env) (description : Str) (taskId : Option Str)
    (s : Store) (key : Str) :
    (resolveZendeskLink env description taskId s).2.getProperty key = s.getProperty key := by
  unfold resolveZendeskLink
  split
  · rfl
  · split_ifs
    · exact getZendeskLinkForTask_getProperty env taskId s key
    · rfl

theorem cuCreatedNote_store (env : Env) (link : ZdLink) (event : Str) (taskId : Option Str)
    (name taskUrl status : Str) (w : World) (t : Nat) :
    (cuCreatedNote env link event taskId name taskUrl status w).store.cacheGet t
        (statusCacheKey_ taskId) = w.store.cacheGet t (statusCacheKey_ taskId) ∧
    ∀ key, (cuCreatedNote env link event taskId name taskUrl status w).store.getProperty key
      = w.store.getProperty key := by
  unfold cuCreatedNote
  split_ifs
  · exact ⟨cacheGet_cachePut_ne _ _ _ _ _ _ _ (createdNoteKey_ne_status _), fun _ => rfl⟩
  · exact ⟨rfl, fun _ => rfl⟩

theorem cuMirrorComment_store (env : Env) (p : CuPayload) (link : ZdLink)
    (taskId : Option Str) (name taskUrl : Str) (w : World) (t : Nat) :
    (cuMirrorComment env p link taskId name taskUrl w).store.cacheGet t
        (statusCacheKey_ taskId) = w.store.cacheGet t (statusCacheKey_ taskId) ∧
    ∀ key, (cuMirrorComment env p link taskId name taskUrl w).store.getProperty key
      = w.store.getProperty key := by
  obtain ⟨hs, _⟩ := cuLatestComment_world env p taskId w
  unfold cuMirrorComment
  simp only
  split
  · rw [hs]
    exact ⟨rfl, fun _ => rfl⟩
  · split_ifs
    · refine ⟨?_, fun key => ?_⟩
      · rw [cacheGet_cachePut_ne _ _ _ _ _ _ _ (commentDedupKey_ne_status _ _)]
        simp only [addZendeskInternalNote_, perform, hs]
      · simp only [addZendeskInternalNote_, perform, getProperty_cachePut, hs]
    · rw [hs]
      exact ⟨rfl, fun _ => rfl⟩

theorem getLastKnownClickUpStatus_empty (env : Env) (taskId : Option Str) (s : Store)
    (h : (getLastKnownClickUpStatus_ env taskId s).1 = []) :
    (getLastKnownClickUpStatus_ env taskId s).2 = s := by
  unfold getLastKnownClickUpStatus_ at h ⊢
  split_ifs
  · rfl
  · split
    · rfl
    · rename_i hc
      simp only [hc] at h
      simp only
      split_ifs at h ⊢ with h1
      · exact absurd h h1
      · rfl

/-! ## Live-diff baselining -/

theorem detectClickUpStatusChange_live (up : Char → List Char) (env : Env)
    (p : CuPayload) (taskId : Option Str) (event normalizedStatus rawStatus : Str) (s : Store)
    (h : ∀ hc, extractStatusChangeFromWebhook_ env p = some hc →
      normalizeStatusLabel_ up (some hc.toStatus) = []) :
    detectClickUpStatusChange_ up env p taskId event normalizedStatus rawStatus s
      = cuLiveDiff env taskId event normalizedStatus rawStatus s := by
  cases hx : extractStatusChangeFromWebhook_ env p with
  | none => exact detectClickUpStatusChange_no_history _ _ _ _ _ _ _ _ hx
  | some hc =>
    have h2 := h hc hx
    unfold detectClickUpStatusChange_
    simp only [hx]
    change (if (!truthy taskId) = true then
        cuLiveDiff env taskId event normalizedStatus rawStatus s
      else if normalizeStatusLabel_ up (some hc.toStatus) = [] then
        cuLiveDiff env taskId event normalizedStatus rawStatus s
      else _) = _
    rw [if_pos h2]
    split_ifs <;> rfl

theorem cuLiveDiff_baseline (env : Env) (taskId : Option Str) (event normalizedStatus
    rawStatus : Str) (s : Store)
    (hlast : (getLastKnownClickUpStatus_ env taskId s).1 = [])
    (hev : event ≠ "taskStatusUpdated".toList ∧ event ≠ "taskUpdated".toList ∧
      event ≠ "taskStatusChanged".toList)
    (hnc : normalizedStatus ≠ "COMPLETE".toList) :
    cuLiveDiff env taskId event normalizedStatus rawStatus s = (none, s) := by
  unfold cuLiveDiff
  split_ifs with h1
  · rfl
  · simp only [hlast, ne_eq, not_true_eq_false, if_false, hev.1, hev.2.1, hev.2.2, or_self,
      not_false_eq_true, hnc, and_self, if_true, getLastKnownClickUpStatus_empty _ _ _ hlast]

theorem ensureStatusCacheBaseline_of_empty (up : Char → List Char) (env : Env)
    (taskId : Option Str) (normalizedStatus : Str) (s : Store) (hid : truthy taskId = true)
    (hns : normalizedStatus ≠ []) (hlast : (getLastKnownClickUpStatus_ env taskId s).1 = []) :
    ensureStatusCacheBaseline_ up env taskId normalizedStatus s
      = rememberClickUpStatus_ up env taskId (some normalizedStatus) s := by
  unfold ensureStatusCacheBaseline_
  simp only [hid, hns, Bool.not_true, decide_False, Bool.or_self, Bool.false_eq_true, if_false,
    hlast, if_true, getLastKnownClickUpStatus_empty _ _ _ hlast]

/-- C17. For every TaskBoard event of a task with an id whose ticket link
is resolved and that carries no status-history transition: when no last-known
status exists for the task, the event name is none of `taskStatusUpdated`,
`taskUpdated`, `taskStatusChanged`, and the normalized status is not
`COMPLETE`, `detectClickUpStatusChange_` returns no transition,
`handleClickUpWebhook_` attempts no status note and no status update of the
ticket, and afterwards the last-known status of the task is the normalized
status of the event. -/
theorem C17_live_diff_baseline (up : Char → List Char) (hup : UpperSpec up) (env : Env)
    (p : CuPayload) (w : World) (link : ZdLink)
    (hid : truthy p.taskOrEmpty.id = true)
    (hlink : (resolveZendeskLink env (p.taskOrEmpty.description.getD []) p.taskOrEmpty.id
      w.store).1 = some link)
    (hhist : ∀ hc, extractStatusChangeFromWebhook_ env p = some hc →
      normalizeStatusLabel_ up (some hc.toStatus) = [])
    (hlast : (getLastKnownClickUpStatus_ env p.taskOrEmpty.id w.store).1 = [])
    (hev : p.event.getD [] ≠ "taskStatusUpdated".toList ∧
      p.event.getD [] ≠ "taskUpdated".toList ∧ p.event.getD [] ≠ "taskStatusChanged".toList)
    (hnc : normalizeStatusLabel_ up (some p.taskOrEmpty.status.text) ≠ "COMPLETE".toList) :
    (cuDetect up env p link (resolveZendeskLink env (p.taskOrEmpty.description.getD [])
      p.taskOrEmpty.id w.store).2).1 = none ∧
    (∃ cs, (handleClickUpWebhook_ up env p w).2.calls = w.calls ++ cs ∧
      noStatusCall cs = true) ∧
    (getLastKnownClickUpStatus_ env p.taskOrEmpty.id
      (handleClickUpWebhook_ up env p w).2.store).1
      = normalizeStatusLabel_ up (some p.taskOrEmpty.status.text) := by
  have hlast1 : (getLastKnownClickUpStatus_ env p.taskOrEmpty.id
      (cuStoreAtDetect env p link (resolveZendeskLink env (p.taskOrEmpty.description.getD [])
        p.taskOrEmpty.id w.store).2)).1 = [] := by
    rw [← hlast]
    apply getLastKnownClickUpStatus_congr
    · unfold cuStoreAtDetect
      rw [rememberZendeskLinkForTask_cacheGet _ _ _ _ _ _ _ _ (zdLinkCacheKey_ne_status _ _ rfl),
        resolveZendeskLink_cacheGet _ _ _ _ _ _ (zdLinkCacheKey_ne_status _ _ rfl)]
    · unfold cuStoreAtDetect
      rw [rememberZendeskLinkForTask_getProperty _ _ _ _ _ _ _ (zdLinkPropKey_ne_status _ _),
        resolveZendeskLink_getProperty]
  have hdet : cuDetect up env p link (resolveZendeskLink env (p.taskOrEmpty.description.getD [])
      p.taskOrEmpty.id w.store).2
      = (none, cuStoreAtDetect env p link (resolveZendeskLink env
          (p.taskOrEmpty.description.getD []) p.taskOrEmpty.id w.store).2) := by
    unfold cuDetect
    rw [detectClickUpStatusChange_live _ _ _ _ _ _ _ _ hhist]
    exact cuLiveDiff_baseline _ _ _ _ _ _ hlast1 hev hnc
  have hh : handleClickUpWebhook_ up env p w = _ :=
    (handleClickUpWebhook_of_link _ _ _ _ _ hlink).trans
      (cuHandleLinked_of_none _ _ _ _ _ (by rw [hdet]))
  rw [hh]
  refine ⟨by rw [hdet], ?_, ?_⟩
  · obtain ⟨c1, hc1, hq1⟩ := cuCreatedNote_calls env link (p.event.getD []) p.taskOrEmpty.id
      (p.taskOrEmpty.name.getD []) (p.taskOrEmpty.url.getD []) p.taskOrEmpty.status.text
      { store :=
          if normalizeStatusLabel_ up (some p.taskOrEmpty.status.text) ≠ [] then
            ensureStatusCacheBaseline_ up env p.taskOrEmpty.id
              (normalizeStatusLabel_ up (some p.taskOrEmpty.status.text))
              (cuDetect up env p link
                (resolveZendeskLink env (p.taskOrEmpty.description.getD []) p.taskOrEmpty.id
                  w.store).2).2
          else (cuDetect up env p link
                (resolveZendeskLink env (p.taskOrEmpty.description.getD []) p.taskOrEmpty.id
                  w.store).2).2,
        calls := w.calls }
    obtain ⟨c2, hc2, hq2⟩ := cuMirrorComment_calls env p link p.taskOrEmpty.id
      (p.taskOrEmpty.name.getD []) (p.taskOrEmpty.url.getD [])
      (cuCreatedNote env link (p.event.getD []) p.taskOrEmpty.id
        (p.taskOrEmpty.name.getD []) (p.taskOrEmpty.url.getD []) p.taskOrEmpty.status.text
        { store :=
            if normalizeStatusLabel_ up (some p.taskOrEmpty.status.text) ≠ [] then
              ensureStatusCacheBaseline_ up env p.taskOrEmpty.id
                (normalizeStatusLabel_ up (some p.taskOrEmpty.status.text))
                (cuDetect up env p link
                  (resolveZendeskLink env (p.taskOrEmpty.description.getD []) p.taskOrEmpty.id
                    w.store).2).2
            else (cuDetect up env p link
                  (resolveZendeskLink env (p.taskOrEmpty.description.getD []) p.taskOrEmpty.id
                    w.store).2).2,
          calls := w.calls })
    refine ⟨c1 ++ c2, ?_, by rw [noStatusCall_append, hq1, hq2]; rfl⟩
    simp only [hc2, hc1, List.append_assoc]
  · simp only
    rw [getLastKnownClickUpStatus_congr env p.taskOrEmpty.id _ _
      ((cuMirrorComment_store env p link p.taskOrEmpty.id _ _ _ env.nowMs).1.trans
        (cuCreatedNote_store env link _ p.taskOrEmpty.id _ _ _ _ env.nowMs).1)
      (((cuMirrorComment_store env p link p.taskOrEmpty.id _ _ _ env.nowMs).2 _).trans
        ((cuCreatedNote_store env link _ p.taskOrEmpty.id _ _ _ _ env.nowMs).2 _))]
    simp only [hdet]
    by_cases hns : normalizeStatusLabel_ up (some p.taskOrEmpty.status.text) = []
    · rw [if_neg (by simpa using hns), hns]
      exact hlast1
    · rw [if_pos hns, ensureStatusCacheBaseline_of_empty up env _ _ _ hid hns hlast1,
        getLastKnownClickUpStatus_remembered up env env _ _ _ hid]
      exact normalizeStatusLabel_fixed hup _

/-- C17 at the event `quietStatusEvent` on an empty store: afterwards the
task is known as `IN PROGRESS`. -/
theorem C17_live_diff_baseline_witness :
    (getLastKnownClickUpStatus_ quietEnv (some "t1".toList)
      (handleClickUpWebhook_ asciiUp quietEnv quietStatusEvent emptyWorld).2.store).1
      = "IN PROGRESS".toList :=
  (C17_live_diff_baseline asciiUp asciiUp_spec quietEnv quietStatusEvent emptyWorld
    { ticketId := "7".toList, subdomain := "a".toList,
      ticketUrl := "https://a.zendesk.com/agent/tickets/7".toList,
      source := "description".toList }
    (by decide) (by decide)
    (fun _ h => Option.noConfusion
      ((by decide : extractStatusChangeFromWebhook_ quietEnv quietStatusEvent = none).symm.trans
        h))
    (by decide) (by decide) (by decide)).2.2.trans (by decide)

/-! ## Which ticket an event is mirrored to -/

theorem cuCreatedNote_target (env : Env) (link : ZdLink) (event : Str) (taskId : Option Str)
    (name taskUrl status : Str) (w : World) :
    ∃ cs, (cuCreatedNote env link event taskId name taskUrl status w).calls = w.calls ++ cs ∧
      cs.all (Call.toTicket link.subdomain link.ticketId) = true := by
  unfold cuCreatedNote
  split_ifs
  · refine ⟨[.addZendeskInternalNote link.subdomain link.ticketId
      (createdNoteBody taskId name taskUrl status)], rfl, ?_⟩
    simp [Call.toTicket]
  · exact ⟨[], by simp, rfl⟩

theorem fetchLatestHumanClickUpComment_target (env : Env) (taskId : Option Str) (w : World)
    (subdomain ticketId : Str) :
    ∃ cs, (fetchLatestHumanClickUpComment_ env taskId w).2.calls = w.calls ++ cs ∧
      cs.all (Call.toTicket subdomain ticketId) = true := by
  unfold fetchLatestHumanClickUpComment_
  simp only [getClickUpTask_world]
  cases (getClickUpTask_ env taskId w).1 with
  | error e => exact ⟨[.getClickUpTask taskId], rfl, rfl⟩
  | ok taskData =>
    simp only [perform]
    split
    · exact ⟨[.getClickUpTask taskId, .fetchClickUpComments taskId], by simp, rfl⟩
    · exact ⟨[.getClickUpTask taskId, .fetchClickUpComments taskId], by simp, rfl⟩

theorem cuMirrorComment_target (env : Env) (p : CuPayload) (link : ZdLink)
    (taskId : Option Str) (name taskUrl : Str) (w : World) :
    ∃ cs, (cuMirrorComment env p link taskId name taskUrl w).calls = w.calls ++ cs ∧
      cs.all (Call.toTicket link.subdomain link.ticketId) = true := by
  have hl : ∃ cs, (cuLatestComment env p taskId w).2.calls = w.calls ++ cs ∧
      cs.all (Call.toTicket link.subdomain link.ticketId) = true := by
    unfold cuLatestComment
    split
    · exact ⟨[], by simp, rfl⟩
    · exact fetchLatestHumanClickUpComment_target env taskId w _ _
  obtain ⟨cs, hcs, hq⟩ := hl
  unfold cuMirrorComment
  simp only
  split
  · exact ⟨cs, hcs, hq⟩
  · rename_i latest _
    split_ifs
    · refine ⟨cs ++ [.addZendeskInternalNote link.subdomain link.ticketId
        (commentNoteBody name taskUrl latest)], ?_, ?_⟩
      · simp only [addZendeskInternalNote_, perform, hcs, List.append_assoc]
      · rw [List.all_append, hq]
        simp [Call.toTicket]
    · exact ⟨cs, hcs, hq⟩

theorem cuHandleLinked_target (up : Char → List Char) (env : Env) (p : CuPayload)
    (link : ZdLink) (w : World) :
    (cuHandleLinked up env p link w).1.ticketId = some link.ticketId ∧
    ∃ cs, (cuHandleLinked up env p link w).2.calls = w.calls ++ cs ∧
      cs.all (Call.toTicket link.subdomain link.ticketId) = true := by
  cases hdet : (cuDetect up env p link w.store).1 with
  | some change =>
    rw [cuHandleLinked_of_change _ _ _ _ _ _ hdet]
    obtain ⟨hcalls, _⟩ := processClickUpStatusChange_world up env p.taskOrEmpty.id link.ticketId
      link.subdomain (p.taskOrEmpty.url.getD []) (changeUserName p.history_items.reverse) change
      { store := (cuDetect up env p link w.store).2, calls := w.calls }
    refine ⟨?_, _, hcalls, ?_⟩
    · unfold processClickUpStatusChange_
      rfl
    · cases mapClickUpStatusToZendesk_ up (some change.toStatus) <;> simp [Call.toTicket]
  | none =>
    rw [cuHandleLinked_of_none _ _ _ _ _ hdet]
    obtain ⟨c1, hc1, hq1⟩ := cuCreatedNote_target env link (p.event.getD []) p.taskOrEmpty.id
      (p.taskOrEmpty.name.getD []) (p.taskOrEmpty.url.getD []) p.taskOrEmpty.status.text
      { store :=
          if normalizeStatusLabel_ up (some p.taskOrEmpty.status.text) ≠ [] then
            ensureStatusCacheBaseline_ up env p.taskOrEmpty.id
              (normalizeStatusLabel_ up (some p.taskOrEmpty.status.text))
              (cuDetect up env p link w.store).2
          else (cuDetect up env p link w.store).2,
        calls := w.calls }
    obtain ⟨c2, hc2, hq2⟩ := cuMirrorComment_target env p link p.taskOrEmpty.id
      (p.taskOrEmpty.name.getD []) (p.taskOrEmpty.url.getD [])
      (cuCreatedNote env link (p.event.getD []) p.taskOrEmpty.id
        (p.taskOrEmpty.name.getD []) (p.taskOrEmpty.url.getD []) p.taskOrEmpty.status.text
        { store :=
            if normalizeStatusLabel_ up (some p.taskOrEmpty.status.text) ≠ [] then
              ensureStatusCacheBaseline_ up env p.taskOrEmpty.id
                (normalizeStatusLabel_ up (some p.taskOrEmpty.status.text))
                (cuDetect up env p link w.store).2
            else (cuDetect up env p link w.store).2,
          calls := w.calls })
    refine ⟨rfl, c1 ++ c2, ?_, by rw [List.all_append, hq1, hq2]; rfl⟩
    simp only [hc2, hc1, List.append_assoc]

/-! ## Description link and stored link -/

/-- C18, as stated, fails: task `t1` has the stored link to ticket 5 of
`acme`, the description of the event names ticket 7 of `a`, and the event is
mirrored to ticket 7 of `a`. -/
theorem C18_description_link_wins :
    (getZendeskLinkForTask_ quietEnv (some "t1".toList) acmeStore).1.map
        (fun l => (l.subdomain, l.ticketId)) = some ("acme".toList, "5".toList) ∧
    (handleClickUpWebhook_ asciiUp quietEnv (statusEvent "done".toList)
      { store := acmeStore, calls := [] }).1.ticketId = some "7".toList ∧
    Call.updateZendeskStatus "a".toList "7".toList "solved".toList
      ∈ (handleClickUpWebhook_ asciiUp quietEnv (statusEvent "done".toList)
          { store := acmeStore, calls := [] }).2.calls := by
  decide

/-- C18, amended. `handleClickUpWebhook_` mirrors an event to the ticket of
the link parsed from the description of the task whenever the description
holds a ticket URL, whatever is stored for the task; the stored link (cache
first, then durable store) is used only when the description yields no link
and the task has an id; with neither, the event fails with
`no zendesk link` and no call is made. -/
theorem C18_link_resolution (up : Char → List Char) (env : Env) (p : CuPayload) (w : World) :
    match extractZendeskInfo_ (some (p.taskOrEmpty.description.getD [])) with
    | some described => MirrorsTo up env p w described
    | none =>
      match (if truthy p.taskOrEmpty.id = true then
          (getZendeskLinkForTask_ env p.taskOrEmpty.id w.store).1 else none) with
      | some stored => MirrorsTo up env p w stored
      | none =>
        (handleClickUpWebhook_ up env p w).1 = noLinkResponse p.taskOrEmpty.id ∧
        (handleClickUpWebhook_ up env p w).2.calls = w.calls := by
  have key : ∀ link, (resolveZendeskLink env (p.taskOrEmpty.description.getD [])
      p.taskOrEmpty.id w.store).1 = some link → MirrorsTo up env p w link := by
    intro link hres
    unfold MirrorsTo
    rw [handleClickUpWebhook_of_link _ _ _ _ _ hres]
    exact cuHandleLinked_target up env p link _
  have hnone : (resolveZendeskLink env (p.taskOrEmpty.description.getD [])
      p.taskOrEmpty.id w.store).1 = none →
      (handleClickUpWebhook_ up env p w).1 = noLinkResponse p.taskOrEmpty.id ∧
      (handleClickUpWebhook_ up env p w).2.calls = w.calls := by
    intro hres
    rw [handleClickUpWebhook_of_no_link _ _ _ _ hres]
    exact ⟨rfl, rfl⟩
  cases hd : extractZendeskInfo_ (some (p.taskOrEmpty.description.getD [])) with
  | some described =>
    exact key described (by unfold resolveZendeskLink; rw [hd])
  | none =>
    simp only
    by_cases hid : truthy p.taskOrEmpty.id = true
    · rw [if_pos hid]
      cases hs : (getZendeskLinkForTask_ env p.taskOrEmpty.id w.store).1 with
      | some stored =>
        exact key stored (by unfold resolveZendeskLink; rw [hd]; simp only [hid, if_true, hs])
      | none =>
        exact hnone (by unfold resolveZendeskLink; rw [hd]; simp only [hid, if_true, hs])
    · rw [if_neg hid]
      exact hnone (by unfold resolveZendeskLink; rw [hd]; simp only [hid]; rfl)

/-! ## StatusState is canonical -/

theorem StoreCanonical.cachePut {up : Char → List Char} {s : Store} (h : StoreCanonical up s)
    (now : Nat) (key value : Str) (ttl : Nat)
    (hv : normalizeStatusLabel_ up (some value) = value) :
    StoreCanonical up (s.cachePut now key value ttl) := by
  refine ⟨fun e he => ?_, h.2⟩
  simp only [Store.cachePut, List.mem_cons, List.mem_filter] at he
  rcases he with rfl | he
  · exact hv
  · exact h.1 e he.1

theorem StoreCanonical.setProperty {up : Char → List Char} {s : Store}
    (h : StoreCanonical up s) (key value : Str)
    (hv : normalizeStatusLabel_ up (some value) = value) :
    StoreCanonical up (s.setProperty key value) := by
  refine ⟨h.1, fun e he => ?_⟩
  simp only [Store.setProperty, List.mem_cons, List.mem_filter] at he
  rcases he with rfl | he
  · exact hv
  · exact h.2 e he.1

theorem StoreCanonical.deleteProperty {up : Char → List Char} {s : Store}
    (h : StoreCanonical up s) (key : Str) : StoreCanonical up (s.deleteProperty key) := by
  refine ⟨h.1, fun e he => ?_⟩
  simp only [Store.deleteProperty, List.mem_filter] at he
  exact h.2 e he.1

theorem StoreCanonical.cacheGet {up : Char → List Char} {s : Store} (h : StoreCanonical up s)
    (now : Nat) (key v : Str) (hv : s.cacheGet now key = some v) :
    normalizeStatusLabel_ up (some v) = v := by
  unfold Store.cacheGet at hv
  cases hf : s.cache.find? (fun e => decide (e.1 = key)) with
  | none => simp [hf] at hv
  | some e =>
    simp only [hf] at hv
    split_ifs at hv
    cases hv
    exact h.1 e (List.mem_of_find?_eq_some hf)

theorem StoreCanonical.getProperty {up : Char → List Char} {s : Store}
    (h : StoreCanonical up s) (key : Str) :
    normalizeStatusLabel_ up (some ((s.getProperty key).getD [])) = (s.getProperty key).getD [] := by
  unfold Store.getProperty
  cases hf : s.props.find? (fun e => decide (e.1 = key)) with
  | none => rfl
  | some e => exact h.2 e (List.mem_of_find?_eq_some hf)

theorem StoreCanonical.remember {up : Char → List Char} (hup : UpperSpec up) {s : Store}
    (h : StoreCanonical up s) (env : Env) (taskId status : Option Str) :
    StoreCanonical up (rememberClickUpStatus_ up env taskId status s) := by
  unfold rememberClickUpStatus_
  split_ifs
  · exact h
  · simp only
    split_ifs
    · exact (h.cachePut _ _ _ _ (normalizeStatusLabel_fixed hup _)).setProperty _ _
        (normalizeStatusLabel_fixed hup _)
    · exact (h.cachePut _ _ _ _ (normalizeStatusLabel_fixed hup _)).deleteProperty _

theorem StoreCanonical.getLastKnown {up : Char → List Char} {s : Store}
    (h : StoreCanonical up s) (env : Env) (taskId : Option Str) :
    normalizeStatusLabel_ up (some (getLastKnownClickUpStatus_ env taskId s).1)
      = (getLastKnownClickUpStatus_ env taskId s).1 ∧
    StoreCanonical up (getLastKnownClickUpStatus_ env taskId s).2 := by
  unfold getLastKnownClickUpStatus_
  split_ifs
  · exact ⟨rfl, h⟩
  · cases hc : s.cacheGet env.nowMs (statusCacheKey_ taskId) with
    | some v => exact ⟨h.cacheGet _ _ _ hc, h⟩
    | none =>
      simp only
      split_ifs
      · exact ⟨h.getProperty _, h.cachePut _ _ _ _ (h.getProperty _)⟩
      · exact ⟨h.getProperty _, h⟩

theorem StoreCanonical.run {up : Char → List Char} (hup : UpperSpec up) {s : Store}
    (h : StoreCanonical up s) (env : Env) (op : StatusOp) :
    StoreCanonical up (op.run up env s) := by
  cases op with
  | remember taskId status => exact h.remember hup env taskId status
  | ensureBaseline taskId normalizedStatus =>
    unfold StatusOp.run ensureStatusCacheBaseline_
    simp only
    split_ifs
    · exact h
    · exact (h.getLastKnown env taskId).2.remember hup env taskId _
    · exact (h.getLastKnown env taskId).2
  | getLastKnown taskId => exact (h.getLastKnown env taskId).2
  | clearForQa taskId =>
    unfold StatusOp.run clearKnownClickUpStatusForQa_
    simp only
    split_ifs
    · exact h
    · exact (h.cachePut _ _ _ _ rfl).deleteProperty _

theorem StoreCanonical.runStatusOps {up : Char → List Char} (hup : UpperSpec up)
    (ops : List (Nat × StatusOp)) {s : Store} (h : StoreCanonical up s) :
    StoreCanonical up (runStatusOps up ops s) := by
  induction ops generalizing s with
  | nil => exact h
  | cons o rest ih =>
    rcases o with ⟨now, op⟩
    exact ih (h.run hup _ op)

theorem normalizeStatusLabel_fixed_shape {up : Char → List Char} (hup : UpperSpec up)
    (v : Str) (h : normalizeStatusLabel_ up (some v) = v) :
    normalizeCore v = v ∧ ∀ c ∈ v, isAsciiLower c = false ∧ c ≠ '_' ∧ c ≠ '-' := by
  have hcore : normalizeCore v = v := by
    by_cases hv : v = []
    · subst hv
      decide
    · have h1 : toUpperCase up (normalizeCore v) = v := by
        simpa [normalizeStatusLabel_, hv] using h
      rw [← normalizeCore_upper hup] at h1
      rw [← h1, normalizeCore_idem]
  refine ⟨hcore, fun c hc => ⟨?_, ?_⟩⟩
  · exact normalizeStatusLabel_no_lower hup (some v) c (by rw [h]; exact hc)
  · have := normalizeCore_no_sep v c (by rw [hcore]; exact hc)
    exact ⟨fun h1 => this (Or.inl h1), fun h2 => this (Or.inr h2)⟩

/-- C19. In every store reached from the empty store by calls of
`rememberClickUpStatus_`, `ensureStatusCacheBaseline_`,
`getLastKnownClickUpStatus_` and `clearKnownClickUpStatusForQa_`, with any
arguments and at any times, every cached and every durable value is a fixed
point of `normalizeStatusLabel_` (the empty string is one), and so is what
`getLastKnownClickUpStatus_` returns; a fixed point is unchanged by the
replacements, the collapsing and the trimming, and has no small ASCII
letter, underscore or hyphen. -/
theorem C19_status_state_canonical (up : Char → List Char) (hup : UpperSpec up)
    (ops : List (Nat × StatusOp)) :
    (∀ e ∈ (runStatusOps up ops { cache := [], props := [] }).cache,
      normalizeStatusLabel_ up (some e.2.1) = e.2.1) ∧
    (∀ e ∈ (runStatusOps up ops { cache := [], props := [] }).props,
      normalizeStatusLabel_ up (some e.2) = e.2) ∧
    (∀ (env : Env) (taskId : Option Str),
      normalizeStatusLabel_ up (some (getLastKnownClickUpStatus_ env taskId
          (runStatusOps up ops { cache := [], props := [] })).1)
        = (getLastKnownClickUpStatus_ env taskId
            (runStatusOps up ops { cache := [], props := [] })).1) ∧
    (∀ v, normalizeStatusLabel_ up (some v) = v →
      normalizeCore v = v ∧ ∀ c ∈ v, isAsciiLower c = false ∧ c ≠ '_' ∧ c ≠ '-') := by
  have h0 : StoreCanonical up { cache := [], props := [] } :=
    ⟨fun _ he => by simp at he, fun _ he => by simp at he⟩
  have h := StoreCanonical.runStatusOps hup ops h0
  exact ⟨h.1, h.2, fun env taskId => (h.getLastKnown env taskId).1,
    fun v hv => normalizeStatusLabel_fixed_shape hup v hv⟩

/-- C19 at three calls on task `t1`: the raw status `in_progress` is
remembered, cleared, and `on-hold` is given as baseline. -/
theorem C19_status_state_canonical_witness :
    (getLastKnownClickUpStatus_ quietEnv (some "t1".toList)
      (runStatusOps asciiUp
        [(0, .remember (some "t1".toList) (some "in_progress".toList)),
         (5, .clearForQa (some "t1".toList)),
         (9, .ensureBaseline (some "t1".toList) "on-hold".toList)]
        { cache := [], props := [] })).1 = "ON HOLD".toList ∧
    normalizeStatusLabel_ asciiUp (some "ON HOLD".toList) = "ON HOLD".toList :=
  have h := (C19_status_state_canonical asciiUp asciiUp_spec
    [(0, .remember (some "t1".toList) (some "in_progress".toList)),
     (5, .clearForQa (some "t1".toList)),
     (9, .ensureBaseline (some "t1".toList) "on-hold".toList)]).2.2.1 quietEnv
    (some "t1".toList)
  have e : (getLastKnownClickUpStatus_ quietEnv (some "t1".toList)
      (runStatusOps asciiUp
        [(0, .remember (some "t1".toList) (some "in_progress".toList)),
         (5, .clearForQa (some "t1".toList)),
         (9, .ensureBaseline (some "t1".toList) "on-hold".toList)]
        { cache := [], props := [] })).1 = "ON HOLD".toList := by decide
  ⟨e, e ▸ h⟩

/-! ## The two comment paths -/

/-- C20 fails on the code. For the raw comment text `![x](a<br>b)` the
inline path turns `<br>` into a line break, which the `.` of the image
pattern does not cross: the cleaned text is `![x](a b)` and no URL is
extracted; the live-fetch path turns `<br>` into a space and collapses white
space before the image pattern is applied: the cleaned text is empty and the
URL `a b` is extracted. -/
theorem C20_paths_differ :
    (extractLatestCommentFromWebhook_ quietEnv
        (historyEvent [commentEntry brokenImageText])).map
      (fun c => (c.text, c.attachments)) = some ("![x](a b)".toList, []) ∧
    (fetchLatestHumanClickUpComment_ (commentEnv [sampleComment "c1".toList brokenImageText])
        (some "t1".toList) emptyWorld).1.map
      (fun c => (c.text, c.attachments)) = some ([], [{ url := some "a b".toList }]) := by
  decide!

/-! ## `dedupeUrls_` -/

theorem UrlRecord.eq_of_key {a b : UrlRecord} (ha : truthy a.url = true)
    (hb : truthy b.url = true) (h : a.url.getD [] = b.url.getD []) : a = b := by
  rcases a with ⟨_ | u⟩ <;> rcases b with ⟨_ | v⟩ <;> simp_all [truthy]

theorem dedupeUrlsAux_mem (seen : List Str) (arr : List UrlRecord) :
    ∀ a ∈ dedupeUrlsAux seen arr, truthy a.url = true ∧ a ∈ arr ∧ a.url.getD [] ∉ seen := by
  induction arr generalizing seen with
  | nil => intro a ha; simp [dedupeUrlsAux] at ha
  | cons b rest ih =>
    intro a ha
    unfold dedupeUrlsAux at ha
    split_ifs at ha with h1 h2
    · obtain ⟨h, hm, hs⟩ := ih seen a ha
      exact ⟨h, List.mem_cons_of_mem _ hm, hs⟩
    · obtain ⟨h, hm, hs⟩ := ih seen a ha
      exact ⟨h, List.mem_cons_of_mem _ hm, hs⟩
    · rcases List.mem_cons.mp ha with rfl | ha
      · exact ⟨by simpa using h1, List.mem_cons_self _ _, h2⟩
      · obtain ⟨h, hm, hs⟩ := ih _ a ha
        exact ⟨h, List.mem_cons_of_mem _ hm, fun hx => hs (List.mem_cons_of_mem _ hx)⟩

theorem dedupeUrlsAux_nodup (seen : List Str) (arr : List UrlRecord) :
    ((dedupeUrlsAux seen arr).map (fun a => a.url.getD [])).Nodup := by
  induction arr generalizing seen with
  | nil => simp [dedupeUrlsAux]
  | cons b rest ih =>
    unfold dedupeUrlsAux
    split_ifs with h1 h2
    · exact ih seen
    · exact ih seen
    · rw [List.map_cons, List.nodup_cons]
      refine ⟨fun hm => ?_, ih _⟩
      obtain ⟨a, ha, hab⟩ := List.mem_map.mp hm
      have := (dedupeUrlsAux_mem _ rest a ha).2.2
      simp only at hab
      rw [hab] at this
      exact this (List.mem_cons_self _ _)

theorem dedupeUrlsAux_complete (seen : List Str) (arr : List UrlRecord) :
    ∀ a ∈ arr, truthy a.url = true → a.url.getD [] ∉ seen → a ∈ dedupeUrlsAux seen arr := by
  induction arr generalizing seen with
  | nil => intro a ha; simp at ha
  | cons b rest ih =>
    intro a ha ht hs
    unfold dedupeUrlsAux
    split_ifs with h1 h2
    · rcases List.mem_cons.mp ha with rfl | ha
      · simp [ht] at h1
      · exact ih seen a ha ht hs
    · rcases List.mem_cons.mp ha with rfl | ha
      · exact absurd h2 hs
      · exact ih seen a ha ht hs
    · rcases List.mem_cons.mp ha with rfl | ha
      · exact List.mem_cons_self _ _
      · by_cases hab : a = b
        · subst hab
          exact List.mem_cons_self _ _
        · refine List.mem_cons_of_mem _ (ih _ a ha ht ?_)
          intro hx
          rcases List.mem_cons.mp hx with hx | hx
          · exact hab (UrlRecord.eq_of_key ht (by simpa using h1) hx)
          · exact hs hx

theorem dedupeUrlsAux_fixed (seen : List Str) (arr : List UrlRecord)
    (h : ∀ a ∈ arr, truthy a.url = true ∧ a.url.getD [] ∉ seen)
    (hn : (arr.map (fun a => a.url.getD [])).Nodup) : dedupeUrlsAux seen arr = arr := by
  induction arr generalizing seen with
  | nil => rfl
  | cons b rest ih =>
    obtain ⟨hb, hbs⟩ := h b (List.mem_cons_self _ _)
    rw [List.map_cons, List.nodup_cons] at hn
    unfold dedupeUrlsAux
    simp only [hb, Bool.not_true, Bool.false_eq_true, if_false, hbs]
    congr 1
    apply ih _ _ hn.2
    intro a ha
    refine ⟨(h a (List.mem_cons_of_mem _ ha)).1, fun hx => ?_⟩
    rcases List.mem_cons.mp hx with hx | hx
    · exact hn.1 (List.mem_map.mpr ⟨a, ha, hx⟩)
    · exact (h a (List.mem_cons_of_mem _ ha)).2 hx

theorem dedupeUrlsAux_keepFirst (seen acc : List Str) (arr : List UrlRecord)
    (h : ∀ u, u ∈ seen ↔ u ∈ acc) :
    acc ++ (dedupeUrlsAux seen arr).map (fun a => a.url.getD [])
      = (nonEmptyUrls arr).foldl (fun acc u => if u ∈ acc then acc else acc ++ [u]) acc := by
  induction arr generalizing seen acc with
  | nil => simp [dedupeUrlsAux, nonEmptyUrls]
  | cons b rest ih =>
    unfold dedupeUrlsAux nonEmptyUrls
    by_cases hb : truthy b.url = true
    · rw [List.filterMap_cons_some (by rw [if_pos hb]), List.foldl_cons]
      by_cases hs : b.url.getD [] ∈ seen
      · simp only [hb, Bool.not_true, Bool.false_eq_true, if_false, hs, if_true,
          (h _).mp hs]
        exact ih seen acc h
      · have hacc : b.url.getD [] ∉ acc := fun hx => hs ((h _).mpr hx)
        simp only [hb, Bool.not_true, Bool.false_eq_true, if_false, hs, hacc, List.map_cons]
        have := ih (b.url.getD [] :: seen) (acc ++ [b.url.getD []])
          (fun u => by simp only [List.mem_cons, List.mem_append, List.mem_singleton, h u]; tauto)
        unfold nonEmptyUrls at this
        rw [← this]
        simp
    · rw [List.filterMap_cons_none (by rw [if_neg hb])]
      simp only [hb, Bool.not_false, if_true]
      exact ih seen acc h

/-- C21. For every list of attachment records: the urls of `dedupeUrls_`
are each distinct non-empty url of the input once, in order of first
occurrence (`keepFirst` of the non-empty urls); no url occurs twice; every
record of the result is a record of the input with a non-empty url; every
record of the input with a non-empty url is in the result; and `dedupeUrls_`
is idempotent. -/
theorem C21_dedupe_urls (arr : List UrlRecord) :
    (dedupeUrls_ arr).map (fun a => a.url.getD []) = keepFirst (nonEmptyUrls arr) ∧
    ((dedupeUrls_ arr).map (fun a => a.url.getD [])).Nodup ∧
    (∀ a ∈ dedupeUrls_ arr, truthy a.url = true ∧ a ∈ arr) ∧
    (∀ a ∈ arr, truthy a.url = true → a ∈ dedupeUrls_ arr) ∧
    dedupeUrls_ (dedupeUrls_ arr) = dedupeUrls_ arr := by
  refine ⟨?_, dedupeUrlsAux_nodup [] arr, fun a ha => ?_, fun a ha ht => ?_, ?_⟩
  · have := dedupeUrlsAux_keepFirst [] [] arr (fun _ => Iff.rfl)
    simpa [keepFirst, dedupeUrls_] using this
  · obtain ⟨h1, h2, _⟩ := dedupeUrlsAux_mem [] arr a ha
    exact ⟨h1, h2⟩
  · exact dedupeUrlsAux_complete [] arr a ha ht (by simp)
  · exact dedupeUrlsAux_fixed [] _
      (fun a ha => ⟨(dedupeUrlsAux_mem [] arr a ha).1, by simp⟩) (dedupeUrlsAux_nodup [] arr)

/-! ## Event name of a relayed payload -/

/-- C22, as stated, fails for a payload that also has the first shape:
`mixedPayload` has a `trigger_id`, a nested payload and a comment entry in its
history, but it declares an event and carries a task, so `doPost` hands it on
as it is, with the declared name `taskUpdated`. -/
theorem C22_first_shape_wins :
    truthy mixedPayload.trigger_id = true ∧ mixedPayload.payload.isSome = true ∧
    (∃ h ∈ mixedPayload.history_items.getD [], h.tagged "comment".toList = true) ∧
    (doPostTaskBoardEvent mixedPayload).map (fun cu => cu.event)
      = some (some "taskUpdated".toList) := by
  decide

/-- C22, amended. For every payload with a `trigger_id` and a nested payload
object that does not both declare an event and carry a task: `doPost` calls
`handleClickUpWebhook_` with the nested history (the top-level one when the
nested is absent) and with the event name `taskCommentPosted` when that
history has an entry tagged `comment`; otherwise with the declared `event`,
otherwise the declared `type`, otherwise `taskCreated` when both timestamps
are non-zero numbers at most 5000 ms apart, otherwise `taskUpdated`. -/
theorem C22_relay_event_name (p : PostPayload) (v2 : V2Body)
    (htr : truthy p.trigger_id = true) (hp : p.payload = some v2)
    (hv1 : ¬(truthy p.event = true ∧ p.task.isSome = true)) :
    ∃ cu, doPostTaskBoardEvent p = some cu ∧
      cu.history_items = v2.history_items.getD (p.history_items.getD []) ∧
      ((∃ h ∈ cu.history_items, h.tagged "comment".toList = true) →
        cu.event = some "taskCommentPosted".toList) ∧
      ((∀ h ∈ cu.history_items, h.tagged "comment".toList = false) →
        (truthy p.event = true → cu.event = p.event) ∧
        (truthy p.event = false → truthy p.type = true → cu.event = p.type) ∧
        (truthy p.event = false → truthy p.type = false →
          (∀ dc du, v2.date_created = some dc → v2.date_updated = some du → dc ≠ 0 →
            du ≠ 0 → (du - dc).natAbs ≤ 5000 → cu.event = some "taskCreated".toList) ∧
          ((v2.date_created.getD 0 = 0 ∨ v2.date_updated.getD 0 = 0 ∨
              5000 < (v2.date_updated.getD 0 - v2.date_created.getD 0).natAbs) →
            cu.event = some "taskUpdated".toList))) := by
  have hh : relayHistory p v2 = v2.history_items.getD (p.history_items.getD []) := by
    unfold relayHistory
    cases v2.history_items <;> rfl
  refine ⟨CuPayload.mk (some (relayEventName p v2)) (some (normalizeClickUpV2Task_ v2))
      (relayHistory p v2) (some v2.asTask),
    by unfold doPostTaskBoardEvent; rw [if_neg hv1, hp]; simp only [htr, if_true], hh, ?_, ?_⟩
  · rintro ⟨h, hm, ht⟩
    simp only at hm ⊢
    unfold relayEventName
    rw [if_pos (List.any_eq_true.mpr ⟨h, hm, ht⟩)]
  · intro hno
    simp only at hno ⊢
    have hany : (relayHistory p v2).any (fun h => h.tagged "comment".toList) = false := by
      rw [List.any_eq_false]
      intro h hm
      rw [hno h hm]
      decide
    unfold relayEventName
    simp only [hany, Bool.false_eq_true, if_false]
    refine ⟨fun he => ?_, fun he ht => ?_, fun he ht => ⟨fun dc du h1 h2 h3 h4 h5 => ?_,
      fun hgap => ?_⟩⟩
    · rw [if_pos he]
      cases hpe : p.event with
      | none => rw [hpe] at he; cases he
      | some s => rfl
    · rw [if_neg (by simp [he]), if_pos ht]
      cases hpt : p.type with
      | none => rw [hpt] at ht; cases ht
      | some s => rfl
    · have hi : inferEventFromV2_ v2 = some "taskCreated".toList := by
        unfold inferEventFromV2_
        simp only [h1, h2, Option.getD_some]
        rw [if_pos ⟨h3, h4, h5⟩]
      rw [if_neg (by simp [he]), if_neg (by simp [ht]), hi]
      rfl
    · have hi : inferEventFromV2_ v2 = none := by
        unfold inferEventFromV2_
        simp only
        rw [if_neg]
        rintro ⟨h3, h4, h5⟩
        rcases hgap with h | h | h
        · exact h3 h
        · exact h4 h
        · omega
      rw [if_neg (by simp [he]), if_neg (by simp [ht]), hi]
      rfl

/-- C22 amended at `relayedPayload`: the nested history has no comment, no
name is declared, and the timestamps are two seconds apart. -/
theorem C22_relay_event_name_witness :
    (doPostTaskBoardEvent relayedPayload).map (fun cu => cu.event)
      = some (some "taskCreated".toList) := by
  obtain ⟨cu, h1, h2, _, h4⟩ := C22_relay_event_name relayedPayload
    { id := some "t1".toList, task_id := none, name := none, description := none,
      text_content := none, url := none, status := .absent, task := none,
      history_items := some [doneEntry], date_created := some 1700000000000,
      date_updated := some 1700000002000, attachments := [] }
    (by decide) rfl (by decide)
  rw [h1]
  exact congrArg some (((h4 (by rw [h2]; decide)).2.2 rfl rfl).1 _ _ rfl rfl
    (by decide) (by decide) (by decide))

/-! ## Notes of the engine given back to the ticketing handler -/

theorem rdropWhile_keeps (p : Char → Bool) (m rest : Str) (hm : m ≠ [])
    (hl : p (m.getLast hm) = false) : m <+: (m ++ rest).rdropWhile p := by
  induction rest using List.reverseRecOn with
  | nil =>
    rw [List.append_nil, List.rdropWhile_eq_self_iff.mpr (fun _ => by simp [hl])]
  | append_singleton rest c ih =>
    rw [← List.append_assoc, List.rdropWhile_concat]
    split_ifs
    · exact ih
    · exact ⟨rest ++ [c], by simp⟩

theorem jsTrim_keeps (m body : Str) (hm : m ≠ []) (hpre : m <+: body)
    (hh : ∀ c ∈ m.head?, isJsSpace c = false) (hl : isJsSpace (m.getLast hm) = false) :
    m <+: jsTrim body := by
  obtain ⟨rest, rfl⟩ := hpre
  unfold jsTrim
  cases m with
  | nil => exact absurd rfl hm
  | cons c cs =>
    have hc : isJsSpace c = false := hh c (by simp)
    rw [List.cons_append, List.dropWhile_cons_of_neg (by simp [hc]), ← List.cons_append]
    exact rdropWhile_keeps _ _ _ hm hl

theorem createdNoteBody_own (taskId : Option Str) (name taskUrl status : Str) :
    isOurOwnZendeskNote_ (createdNoteBody taskId name taskUrl status) = true := by
  apply isOurOwnZendeskNote_of_marker _ "✅ ClickUp task created".toList (by decide)
  apply jsTrim_keeps _ _ (by decide) _ (by decide) (by decide)
  unfold createdNoteBody
  rw [List.filter_cons_of_pos (by decide)]
  exact joinLines_cons_starts _ _

theorem commentNoteBody_own (name taskUrl : Str) (latest : LatestComment) :
    isOurOwnZendeskNote_ (commentNoteBody name taskUrl latest) = true := by
  apply isOurOwnZendeskNote_of_marker _ "ClickUp update |".toList (by decide)
  apply jsTrim_keeps _ _ (by decide) _ (by decide) (by decide)
  unfold commentNoteBody
  have h1 : "ClickUp update |".toList <+: "ClickUp update | ".toList ++ name :=
    (by decide : "ClickUp update |".toList <+: "ClickUp update | ".toList).trans
      (List.prefix_append _ _)
  exact h1.trans (joinLines_cons_starts _ _)

theorem search_bol_later (rs : List Re) (c : Char) (s : Str) :
    (Re.cat (.bol :: rs)).search (some c) s = none := by
  induction s generalizing c with
  | nil => rfl
  | cons d ds ih =>
    rw [Re.search]
    have : (Re.cat (.bol :: rs)).exec { prev := some c, rest := d :: ds, caps := [] } = none :=
      rfl
    rw [this]
    simp only [ih, Option.map_none']

theorem search_bol_of_run_nil (rs : List Re) (s : Str)
    (h : (Re.cat (.bol :: rs)).run { prev := none, rest := s, caps := [] } = []) :
    (Re.cat (.bol :: rs)).search none s = none := by
  cases s with
  | nil =>
    rw [Re.search, Re.exec, h]
    rfl
  | cons d ds =>
    rw [Re.search, Re.exec, h]
    simp only [List.head?_nil, search_bol_later, Option.map_none']

theorem noteRe_run_status (r : Str) :
    noteRe.run { prev := none, rest := "ClickUp s".toList ++ r, caps := [] } = [] := by
  have hsp : Re.spaces.run (MState.mk none ("ClickUp s".toList ++ r) [])
      = [MState.mk none ("ClickUp s".toList ++ r) []] :=
    run_spaces_stuck none 'C' _ [] (by decide)
  have hlit : (Re.lit true "clickup".toList).run (MState.mk none ("ClickUp s".toList ++ r) [])
      = [MState.mk (some 'p') (' ' :: 's' :: r) []] := by
    simp only [Re.lit, run_seq, String.toList, String.data, List.cons_append, List.nil_append,
      run_char_cons]
    simp
    rfl
  rw [noteRe, run_cat_cons, run_bol_start, List.flatMap_singleton, run_cat_cons, hsp,
    List.flatMap_singleton, run_cat_cons, hlit, List.flatMap_singleton, run_cat_cons,
    run_spaces_one _ _ _ _ _ (by decide) (by decide)]
  simp only [List.flatMap_cons, List.flatMap_nil, List.append_nil]
  rw [run_cat_cons, run_hyphen_miss _ _ _ _ (by decide), run_cat_cons,
    run_hyphen_miss _ _ _ _ (by decide)]
  rfl

theorem statusNote_no_note (change : StatusChange) (taskUrl userName : Str) :
    parseZendeskNote (statusNote change taskUrl userName) = none := by
  have hs : ∃ r, statusNote change taskUrl userName = "ClickUp s".toList ++ r := by
    simp only [statusNote, List.cons_append, List.nil_append, joinLines_cons_cons]
    exact ⟨_, rfl⟩
  obtain ⟨r, hr⟩ := hs
  unfold parseZendeskNote Re.matchGroups
  rw [hr]
  have := search_bol_of_run_nil _ _ (noteRe_run_status r)
  rw [show Re.cat (.bol :: [Re.spaces, Re.lit true "clickup".toList, Re.spaces, Re.char true '-',
    Re.spaces, .grp (.rep (fun c => !(c == '-' || c == '\n')) 1 none false), Re.spaces,
    Re.char true '-', Re.spaces, .grp (.rep (fun _ => true) 1 none true), .eol]) = noteRe
    from rfl] at this
  rw [this]
  rfl

theorem handleZendeskWebhook_inert (up : Char → List Char) (env : Env) (p : ZdPayload)
    (w : World)
    (h : isOurOwnZendeskNote_ (p.comment_body.getD []) = true ∨
      parseZendeskNote (p.comment_body.getD []) = none) :
    (handleZendeskWebhook_ up env p w).2 = w ∧ (handleZendeskWebhook_ up env p w).1.task = none := by
  by_cases hreq : zdMissingFields p = []
  · by_cases hown : isOurOwnZendeskNote_ (p.comment_body.getD []) = true
    · rw [handleZendeskWebhook_own_note up env p w hreq hown]
      exact ⟨rfl, rfl⟩
    · rcases h with h | h
      · exact absurd h hown
      · rw [handleZendeskWebhook_bad_note up env p w hreq (by simpa using hown) h]
        exact ⟨rfl, rfl⟩
  · unfold handleZendeskWebhook_
    simp only [zdMissingFields_fix, hreq, ne_eq, not_false_eq_true, if_true]
    exact ⟨trivial, rfl⟩

/-- C23. For every note body the engine writes on a ticket - the created
notice `createdNoteBody`, the comment mirror `commentNoteBody` and the status
note `statusNote`, for any task, names, texts and statuses - the body is
recognised by `isOurOwnZendeskNote_` or does not match the
`clickup - X - Y` pattern, and `handleZendeskWebhook_` given a payload with
that body makes no call, leaves the store as it is and reports no task. -/
theorem C23_engine_notes_inert (up : Char → List Char) (env : Env) (p : ZdPayload) (w : World)
    (body : Str) (hb : p.comment_body = some body)
    (hkind : (∃ taskId name taskUrl status, body = createdNoteBody taskId name taskUrl status) ∨
      (∃ name taskUrl latest, body = commentNoteBody name taskUrl latest) ∨
      (∃ change taskUrl userName, body = statusNote change taskUrl userName)) :
    (isOurOwnZendeskNote_ body = true ∨ parseZendeskNote body = none) ∧
    (handleZendeskWebhook_ up env p w).2 = w ∧
    (handleZendeskWebhook_ up env p w).1.task = none := by
  have h : isOurOwnZendeskNote_ body = true ∨ parseZendeskNote body = none := by
    rcases hkind with ⟨taskId, name, taskUrl, status, rfl⟩ | ⟨name, taskUrl, latest, rfl⟩ |
      ⟨change, taskUrl, userName, rfl⟩
    · exact Or.inl (createdNoteBody_own _ _ _ _)
    · exact Or.inl (commentNoteBody_own _ _ _)
    · exact Or.inr (statusNote_no_note _ _ _)
  exact ⟨h, handleZendeskWebhook_inert up env p w (by rw [hb]; exact h)⟩

/-- C23 at the status note of `doneChange`, sent back as the note of ticket 7. -/
theorem C23_engine_notes_inert_witness :
    (handleZendeskWebhook_ asciiUp sampleEnv
      { sampleNotePayload with comment_body := some (statusNote doneChange [] "Ann".toList) }
      emptyWorld).2 = emptyWorld :=
  (C23_engine_notes_inert asciiUp sampleEnv
    { sampleNotePayload with comment_body := some (statusNote doneChange [] "Ann".toList) }
    emptyWorld (statusNote doneChange [] "Ann".toList) rfl
    (Or.inr (Or.inr ⟨doneChange, [], "Ann".toList, rfl⟩))).2.1

/-! ## Redelivery of an observed status -/

theorem cuLiveDiff_same (env : Env) (taskId : Option Str) (event normalizedStatus
    rawStatus : Str) (s : Store)
    (h : truthy taskId = true → (getLastKnownClickUpStatus_ env taskId s).1 = normalizedStatus) :
    (cuLiveDiff env taskId event normalizedStatus rawStatus s).1 = none := by
  by_cases h1 : (!truthy taskId || decide (normalizedStatus = [])) = true
  · unfold cuLiveDiff
    rw [if_pos h1]
  · have h1' := h1
    simp only [Bool.or_eq_true, Bool.not_eq_true', decide_eq_true_eq, not_or,
      Bool.not_eq_false] at h1'
    have hl := h h1'.1
    unfold cuLiveDiff
    rw [if_neg h1]
    simp only [hl, ne_eq, h1'.2, not_false_eq_true, if_true]

theorem extractStatusChangeFromWebhook_untagged (env : Env) (p : CuPayload)
    (h : ∀ e ∈ p.history_items, e.tagged "status".toList = false) :
    extractStatusChangeFromWebhook_ env p = none := by
  unfold extractStatusChangeFromWebhook_
  rw [statusChangeOf_none]
  intro e he hc
  rw [h e (List.mem_reverse.mp he)] at hc
  exact absurd hc.1 (by decide)

theorem handleClickUpWebhook_quiet_of_same (up : Char → List Char) (env2 : Env)
    (p2 : CuPayload) (w1 : World)
    (hhist : ∀ e ∈ p2.history_items, e.tagged "status".toList = false)
    (hlast : truthy p2.taskOrEmpty.id = true →
      (getLastKnownClickUpStatus_ env2 p2.taskOrEmpty.id w1.store).1
        = normalizeStatusLabel_ up (some p2.taskOrEmpty.status.text)) :
    ∃ cs, (handleClickUpWebhook_ up env2 p2 w1).2.calls = w1.calls ++ cs ∧
      noStatusCall cs = true := by
  have hx := extractStatusChangeFromWebhook_untagged env2 p2 hhist
  cases hres : (resolveZendeskLink env2 (p2.taskOrEmpty.description.getD [])
      p2.taskOrEmpty.id w1.store).1 with
  | none =>
    rw [handleClickUpWebhook_of_no_link _ _ _ _ hres]
    exact ⟨[], by simp, rfl⟩
  | some link2 =>
    have hdet : (cuDetect up env2 p2 link2
        (resolveZendeskLink env2 (p2.taskOrEmpty.description.getD []) p2.taskOrEmpty.id
          w1.store).2).1 = none := by
      unfold cuDetect
      rw [detectClickUpStatusChange_no_history _ _ _ _ _ _ _ _ hx]
      apply cuLiveDiff_same
      intro ht
      rw [← hlast ht]
      apply getLastKnownClickUpStatus_congr
      · unfold cuStoreAtDetect
        rw [rememberZendeskLinkForTask_cacheGet _ _ _ _ _ _ _ _
            (zdLinkCacheKey_ne_status _ _ rfl),
          resolveZendeskLink_cacheGet _ _ _ _ _ _ (zdLinkCacheKey_ne_status _ _ rfl)]
      · unfold cuStoreAtDetect
        rw [rememberZendeskLinkForTask_getProperty _ _ _ _ _ _ _ (zdLinkPropKey_ne_status _ _),
          resolveZendeskLink_getProperty]
    rw [handleClickUpWebhook_of_link _ _ _ _ _ hres,
      cuHandleLinked_of_none _ _ _ _ _ (by exact hdet)]
    obtain ⟨c1, hc1, hq1⟩ := cuCreatedNote_calls env2 link2 (p2.event.getD [])
      p2.taskOrEmpty.id (p2.taskOrEmpty.name.getD []) (p2.taskOrEmpty.url.getD [])
      p2.taskOrEmpty.status.text
      { store :=
          if normalizeStatusLabel_ up (some p2.taskOrEmpty.status.text) ≠ [] then
            ensureStatusCacheBaseline_ up env2 p2.taskOrEmpty.id
              (normalizeStatusLabel_ up (some p2.taskOrEmpty.status.text))
              (cuDetect up env2 p2 link2
                (resolveZendeskLink env2 (p2.taskOrEmpty.description.getD [])
                  p2.taskOrEmpty.id w1.store).2).2
          else (cuDetect up env2 p2 link2
                (resolveZendeskLink env2 (p2.taskOrEmpty.description.getD [])
                  p2.taskOrEmpty.id w1.store).2).2,
        calls := w1.calls }
    obtain ⟨c2, hc2, hq2⟩ := cuMirrorComment_calls env2 p2 link2 p2.taskOrEmpty.id
      (p2.taskOrEmpty.name.getD []) (p2.taskOrEmpty.url.getD [])
      (cuCreatedNote env2 link2 (p2.event.getD []) p2.taskOrEmpty.id
        (p2.taskOrEmpty.name.getD []) (p2.taskOrEmpty.url.getD []) p2.taskOrEmpty.status.text
        { store :=
            if normalizeStatusLabel_ up (some p2.taskOrEmpty.status.text) ≠ [] then
              ensureStatusCacheBaseline_ up env2 p2.taskOrEmpty.id
                (normalizeStatusLabel_ up (some p2.taskOrEmpty.status.text))
                (cuDetect up env2 p2 link2
                  (resolveZendeskLink env2 (p2.taskOrEmpty.description.getD [])
                    p2.taskOrEmpty.id w1.store).2).2
            else (cuDetect up env2 p2 link2
                  (resolveZendeskLink env2 (p2.taskOrEmpty.description.getD [])
                    p2.taskOrEmpty.id w1.store).2).2,
          calls := w1.calls })
    refine ⟨c1 ++ c2, ?_, by rw [noStatusCall_append, hq1, hq2]; rfl⟩
    simp only [hc2, hc1, List.append_assoc]

/-- C24. Once `processClickUpStatusChange_` has recorded the target of a
change as the last-known status of a task, a following event for the same
task that has no status-tagged history entry and whose raw status normalizes
to the recorded label makes `detectClickUpStatusChange_` return no
transition, whatever the event name and the time of the event, and
`handleClickUpWebhook_` then makes no status note and no status update. -/
theorem C24_redelivery_is_quiet (up : Char → List Char) (env env2 : Env)
    (taskId : Option Str) (ticketId subdomain taskUrl userName : Str) (change : StatusChange)
    (w : World) (p2 : CuPayload) (event : Str)
    (hid : p2.taskOrEmpty.id = taskId)
    (hhist : ∀ e ∈ p2.history_items, e.tagged "status".toList = false)
    (hsame : normalizeStatusLabel_ up (some p2.taskOrEmpty.status.text)
      = normalizeStatusLabel_ up (some change.toStatus)) :
    (detectClickUpStatusChange_ up env2 p2 taskId event
      (normalizeStatusLabel_ up (some p2.taskOrEmpty.status.text)) p2.taskOrEmpty.status.text
      (processClickUpStatusChange_ up env taskId ticketId subdomain taskUrl userName change
        w).2.store).1 = none ∧
    ∃ cs, (handleClickUpWebhook_ up env2 p2
        (processClickUpStatusChange_ up env taskId ticketId subdomain taskUrl userName change
          w).2).2.calls
        = (processClickUpStatusChange_ up env taskId ticketId subdomain taskUrl userName change
            w).2.calls ++ cs ∧
      noStatusCall cs = true := by
  have hx := extractStatusChangeFromWebhook_untagged env2 p2 hhist
  obtain ⟨_, hstore⟩ := processClickUpStatusChange_world up env taskId ticketId subdomain
    taskUrl userName change w
  have hlast : truthy taskId = true →
      (getLastKnownClickUpStatus_ env2 taskId
        (processClickUpStatusChange_ up env taskId ticketId subdomain taskUrl userName change
          w).2.store).1 = normalizeStatusLabel_ up (some p2.taskOrEmpty.status.text) := by
    intro ht
    rw [hstore, getLastKnownClickUpStatus_remembered up env env2 taskId _ _ ht, hsame]
  constructor
  · rw [detectClickUpStatusChange_no_history _ _ _ _ _ _ _ _ hx]
    exact cuLiveDiff_same _ _ _ _ _ _ hlast
  · exact handleClickUpWebhook_quiet_of_same up env2 p2 _ hhist (by rw [hid]; exact hlast)

/-- C24 at the change `doneChange` of task `t1`, followed an hour later by
an event `taskUpdated` with the status `Done` and a comment in its history. -/
theorem C24_redelivery_is_quiet_witness :
    (detectClickUpStatusChange_ asciiUp { quietEnv with nowMs := 3600000 }
      { statusEvent "x".toList with
          task := some { id := some "t1".toList, name := none, description := none, url := none,
                         status := .str "Done".toList, attachments := [] },
          history_items := [commentEntry "hello".toList] }
      (some "t1".toList) "taskUpdated".toList
      (normalizeStatusLabel_ asciiUp (some "Done".toList)) "Done".toList
      (processClickUpStatusChange_ asciiUp quietEnv (some "t1".toList) "7".toList "a".toList []
        "Ann".toList doneChange emptyWorld).2.store).1 = none :=
  (C24_redelivery_is_quiet asciiUp quietEnv { quietEnv with nowMs := 3600000 }
    (some "t1".toList) "7".toList "a".toList [] "Ann".toList doneChange emptyWorld
    { statusEvent "x".toList with
        task := some { id := some "t1".toList, name := none, description := none, url := none,
                       status := .str "Done".toList, attachments := [] },
        history_items := [commentEntry "hello".toList] }
    "taskUpdated".toList rfl (by decide) (by decide)).1


end Bridge
